import Mathlib

/-!
Verification of proyecto_mates2, a 3D rigid/affine transform library.

Shallow embedding of `Vec3`, `Matrix3x3`, `Quat` and `Matrix4x4`
(`src/src/Matrix3x3.cpp`, `src/sln/src/Quat.cpp`, `src/sln/src/Matrix4x4.cpp`).

Modelling conventions.

* A C++ `double` is an element of a linearly ordered field `α`; the theorems are
  stated at `α = ℝ`.  Rounding is not modelled: inside the range of binary64 the
  arithmetic is exact.  The definitions themselves are generic and computable.
* The range of binary64 is modelled where the library computes a norm, that is
  the square root of a sum of squares which it then compares with zero or
  divides by (`Vec3::Norm`, `Quat::Normalized`):
  a square of at most `2^-1075` (half the smallest positive `double`) rounds
  to zero, so that the sum is zero when every square is that small, and a sum of
  at least `2^1024` rounds to `+inf`.  The norm is a value of `Ext α`, a finite
  number or `+inf`; dividing a finite number by `+inf` gives zero.
* The records `Vec3`, `Quat`, `Matrix3x3`, `Matrix4x4` hold finite numbers only.
  Where the code stores an infinite norm in a vector it returns
  (`Matrix4x4::GetScale`), the embedding returns `Error.non_finite`, which is
  not an exception of the library, and does not follow the code further.
* A theorem that asserts the result of a normalization or of a column norm
  keeps the squared length between `1e-300` and `1e300` (`Vec3.InRange`,
  `Quat.InRange`, scale magnitudes of at most `1e150`): inside the normal
  range of binary64, where rounding is the only difference to the code.
* The `<cmath>` functions a routine calls (`std::sqrt`, `std::cos`, `std::sin`,
  `std::acos`, `std::asin`, `std::atan2`) are explicit arguments of its
  embedding; the theorems pass `Real.sqrt`, `Real.cos`, `Real.sin`,
  `Real.arccos`, `Real.arcsin`, and for `std::atan2 y x` the argument
  `Complex.arg ⟨x, y⟩` of the complex number `x + i y`.
* In Mathlib `x / 0 = 0` and `Real.sqrt` of a negative number is `0`, where
  IEEE arithmetic yields an infinity or NaN.  Every theorem below concerns inputs
  on which the code divides by a nonzero number, takes square roots of
  nonnegative numbers and calls `acos` / `asin` inside `[-1, 1]`.
* `std::fabs` / `std::abs` is `|·|`.
* A `throw` is `Except.error`; a normal return is `Except.ok`.
* `double m[9]` with `At(i,j) = m[i*3+j]` is a record with one field `mij` per
  `At(i,j)`; the fixed-bound `for` loops over `i`, `j`, `k` are unrolled.
  The same holds for `double m[16]` of `Matrix4x4`.
* Output reference parameters (`ToAxisAngle`, `ToEulerZYX`) become returned
  tuples; member functions that modify `*this` return the updated matrix.
* Overloads get distinct names: `Multiply` on a vector is `MultiplyVec`, the
  quaternion overloads of `Rotate`, `FromTRS`, `SetRotation` end in `Quat`.
-/

namespace Mates

/-- The two C++ exception classes the library throws, `std::invalid_argument`
and `std::runtime_error`.  The third value `non_finite` is not an exception: it
marks a returned vector or matrix with an infinite or NaN component, which the
records of this development cannot hold. -/
inductive Error where
  | invalid_argument (msg : String)
  | runtime_error (msg : String)
  | non_finite
  deriving Repr, DecidableEq

/-- A nonnegative `double` as far as its range goes: a finite value or `+inf`. -/
inductive Ext (α : Type) where
  | finite (x : α)
  | infinite
  deriving Repr, DecidableEq

section Defs

variable {α : Type} [LinearOrderedField α]

/-- The macro `TOL`, `1e-6`. -/
def TOL : α := 1 / 1000000

/-- The macro `PI`, the decimal literal `3.14159265358979323846`. -/
def PI : α := 314159265358979323846 / 100000000000000000000

/-- Half of the smallest positive `double`, `2^-1075`: a product of at most this
size rounds to zero in binary64. -/
def DBL_UNDERFLOW : α := 1 / 2 ^ 1075

/-- The power of two above the largest finite `double`, `2^1024`: a sum that
reaches it rounds to `+inf` in binary64. -/
def DBL_OVERFLOW : α := 2 ^ 1024

/-! ## Vec3 -/

/-- A `struct Vec3`. -/
structure Vec3 (α : Type) where
  x : α
  y : α
  z : α
  deriving Repr, DecidableEq

/-- The function `Vec3::Dot`. -/
def Vec3.Dot (a b : Vec3 α) : α :=
  a.x * b.x + a.y * b.y + a.z * b.z

/-- The function `Vec3::Cross`. -/
def Vec3.Cross (a b : Vec3 α) : Vec3 α :=
  ⟨a.y * b.z - a.z * b.y, a.z * b.x - a.x * b.z, a.x * b.y - a.y * b.x⟩

/-- The function `Vec3::Norm`, `std::sqrt(Dot(*this, *this))`, in the range of
binary64: `Dot(*this, *this)` is zero when each of the three squares is at most
`2^-1075`, and `+inf` when the sum reaches `2^1024`. -/
def Vec3.Norm (sqrt : α → α) (v : Vec3 α) : Ext α :=
  if v.x * v.x ≤ DBL_UNDERFLOW ∧ v.y * v.y ≤ DBL_UNDERFLOW ∧ v.z * v.z ≤ DBL_UNDERFLOW then
    .finite (sqrt 0)
  else if DBL_OVERFLOW ≤ Vec3.Dot v v then
    .infinite
  else
    .finite (sqrt (Vec3.Dot v v))

/-- The function `Vec3::Normalize`: throws on an exactly zero norm.  With the
norm `+inf` the test `n == 0` fails and the three quotients are zero. -/
def Vec3.Normalize (sqrt : α → α) (v : Vec3 α) : Except Error (Vec3 α) :=
  match v.Norm sqrt with
  | .infinite => .ok ⟨0, 0, 0⟩
  | .finite n =>
    if n = 0 then .error (.invalid_argument "normalize: zero vector")
    else .ok ⟨v.x / n, v.y / n, v.z / n⟩

/-- Componentwise negation, the `-u` of the claims. -/
def Vec3.neg (v : Vec3 α) : Vec3 α := ⟨-v.x, -v.y, -v.z⟩

/-! ## Matrix3x3 -/

/-- A `struct Matrix3x3`: field `mij` is `At(i,j)`, that is `m[i*3+j]`. -/
structure Matrix3x3 (α : Type) where
  m00 : α
  m01 : α
  m02 : α
  m10 : α
  m11 : α
  m12 : α
  m20 : α
  m21 : α
  m22 : α
  deriving Repr, DecidableEq

/-- The function `Matrix3x3::Identity`. -/
def Matrix3x3.Identity : Matrix3x3 α :=
  ⟨1, 0, 0,
   0, 1, 0,
   0, 0, 1⟩

/-- The function `Matrix3x3::Multiply(const Vec3&)`. -/
def Matrix3x3.MultiplyVec (A : Matrix3x3 α) (x : Vec3 α) : Vec3 α :=
  ⟨A.m00 * x.x + A.m01 * x.y + A.m02 * x.z,
   A.m10 * x.x + A.m11 * x.y + A.m12 * x.z,
   A.m20 * x.x + A.m21 * x.y + A.m22 * x.z⟩

/-- The function `Matrix3x3::Multiply(const Matrix3x3&)`; each entry is the
accumulation `s = 0; s += At(i,k) * B.At(k,j)` for `k = 0, 1, 2`. -/
def Matrix3x3.Multiply (A B : Matrix3x3 α) : Matrix3x3 α :=
  ⟨0 + A.m00 * B.m00 + A.m01 * B.m10 + A.m02 * B.m20,
   0 + A.m00 * B.m01 + A.m01 * B.m11 + A.m02 * B.m21,
   0 + A.m00 * B.m02 + A.m01 * B.m12 + A.m02 * B.m22,
   0 + A.m10 * B.m00 + A.m11 * B.m10 + A.m12 * B.m20,
   0 + A.m10 * B.m01 + A.m11 * B.m11 + A.m12 * B.m21,
   0 + A.m10 * B.m02 + A.m11 * B.m12 + A.m12 * B.m22,
   0 + A.m20 * B.m00 + A.m21 * B.m10 + A.m22 * B.m20,
   0 + A.m20 * B.m01 + A.m21 * B.m11 + A.m22 * B.m21,
   0 + A.m20 * B.m02 + A.m21 * B.m12 + A.m22 * B.m22⟩

/-- The function `Matrix3x3::Det`. -/
def Matrix3x3.Det (A : Matrix3x3 α) : α :=
  let a := A.m00; let b := A.m01; let c := A.m02
  let d := A.m10; let e := A.m11; let f := A.m12
  let g := A.m20; let h := A.m21; let i := A.m22
  a * (e * i - f * h) - b * (d * i - f * g) + c * (d * h - e * g)

/-- The function `Matrix3x3::Transposed`. -/
def Matrix3x3.Transposed (A : Matrix3x3 α) : Matrix3x3 α :=
  ⟨A.m00, A.m10, A.m20,
   A.m01, A.m11, A.m21,
   A.m02, A.m12, A.m22⟩

/-- The function `Matrix3x3::Trace`. -/
def Matrix3x3.Trace (A : Matrix3x3 α) : α :=
  A.m00 + A.m11 + A.m22

/-- The function `Matrix3x3::RotationAxisAngle` (Rodrigues' formula on the
normalized axis). -/
def Matrix3x3.RotationAxisAngle (sqrt cos sin : α → α) (u_in : Vec3 α) (phi : α) :
    Except Error (Matrix3x3 α) := do
  let u ← u_in.Normalize sqrt
  let c := cos phi
  let s := sin phi
  let t := 1 - c
  let ux := u.x; let uy := u.y; let uz := u.z
  pure
    ⟨c + t * ux * ux, t * ux * uy - s * uz, t * ux * uz + s * uy,
     t * uy * ux + s * uz, c + t * uy * uy, t * uy * uz - s * ux,
     t * uz * ux - s * uy, t * uz * uy + s * ux, c + t * uz * uz⟩

/-- The function `Matrix3x3::IsRotation`: the nine entry tests of `RᵗR` against
the identity in loop order, then the determinant test. -/
def Matrix3x3.IsRotation (A : Matrix3x3 α) : Bool :=
  let Rt := A.Transposed
  let RtR := Rt.Multiply A
  let I : Matrix3x3 α := Matrix3x3.Identity
  if |RtR.m00 - I.m00| > TOL then false else
  if |RtR.m01 - I.m01| > TOL then false else
  if |RtR.m02 - I.m02| > TOL then false else
  if |RtR.m10 - I.m10| > TOL then false else
  if |RtR.m11 - I.m11| > TOL then false else
  if |RtR.m12 - I.m12| > TOL then false else
  if |RtR.m20 - I.m20| > TOL then false else
  if |RtR.m21 - I.m21| > TOL then false else
  if |RtR.m22 - I.m22| > TOL then false else
  if |A.Det - 1| > TOL then false else
  true

/-- The function `Matrix3x3::Rotate`. -/
def Matrix3x3.Rotate (A : Matrix3x3 α) (v : Vec3 α) : Vec3 α :=
  A.MultiplyVec v

/-- The function `Matrix3x3::ToAxisAngle`; returns `(axis, angle)`. -/
def Matrix3x3.ToAxisAngle (sqrt sin acos : α → α) (A : Matrix3x3 α) :
    Except Error (Vec3 α × α) :=
  if !A.IsRotation then
    .error (.invalid_argument "ToAxisAngle: matrix is not a rotation")
  else
    let tr := A.Trace
    let cos_a := (tr - 1) * (1 / 2)
    let angle := acos cos_a
    if |angle| < TOL then
      .ok (⟨1, 0, 0⟩, angle)
    else if |PI - angle| < TOL then
      let xx := (A.m00 + 1) * (1 / 2)
      let yy := (A.m11 + 1) * (1 / 2)
      let zz := (A.m22 + 1) * (1 / 2)
      let x := sqrt xx
      let y := sqrt yy
      let z := sqrt zz
      let y := if A.m01 + A.m10 < 0 then -y else y
      let z := if A.m02 + A.m20 < 0 then -z else z
      do
        let axis ← (Vec3.mk x y z).Normalize sqrt
        pure (axis, angle)
    else
      let denom := 2 * sin angle
      let axis : Vec3 α :=
        ⟨(A.m21 - A.m12) / denom, (A.m02 - A.m20) / denom, (A.m10 - A.m01) / denom⟩
      do
        let axis ← axis.Normalize sqrt
        pure (axis, angle)

/-- The function `Matrix3x3::FromEulerZYX`. -/
def Matrix3x3.FromEulerZYX (cos sin : α → α) (yaw pitch roll : α) : Matrix3x3 α :=
  let cy := cos yaw; let sy := sin yaw
  let cp := cos pitch; let sp := sin pitch
  let cr := cos roll; let sr := sin roll
  ⟨cy * cp, cy * sp * sr - sy * cr, cy * sp * cr + sy * sr,
   sy * cp, sy * sp * sr + cy * cr, sy * sp * cr - cy * sr,
   -sp, cp * sr, cp * cr⟩

/-- The function `Matrix3x3::ToEulerZYX`; returns `(yaw, pitch, roll)`. -/
def Matrix3x3.ToEulerZYX (asin : α → α) (atan2 : α → α → α) (A : Matrix3x3 α) :
    α × α × α :=
  let r20 := A.m20
  if |r20| < 1 - TOL then
    let pitch := asin (-r20)
    let yaw := atan2 A.m10 A.m00
    let roll := atan2 A.m21 A.m22
    (yaw, pitch, roll)
  else
    let pitch := if r20 < 0 then PI / 2 else -PI / 2
    let yaw := atan2 (-A.m01) A.m11
    let roll := 0
    (yaw, pitch, roll)

/-- The function `Matrix3x3::RotateFromTo`. -/
def Matrix3x3.RotateFromTo (sqrt cos sin acos : α → α) (u v : Vec3 α) :
    Except Error (Matrix3x3 α) := do
  let a ← u.Normalize sqrt
  let b ← v.Normalize sqrt
  let dot := Vec3.Dot a b
  if |dot - 1| < TOL then
    pure Matrix3x3.Identity
  else if |dot + 1| < TOL then
    let arbitrary : Vec3 α := if |a.x| < 9 / 10 then ⟨1, 0, 0⟩ else ⟨0, 1, 0⟩
    let axis ← (Vec3.Cross a arbitrary).Normalize sqrt
    Matrix3x3.RotationAxisAngle sqrt cos sin axis PI
  else
    let axis ← (Vec3.Cross a b).Normalize sqrt
    let angle := acos dot
    Matrix3x3.RotationAxisAngle sqrt cos sin axis angle

/-- The function `Matrix3x3::RotateToTarget`. -/
def Matrix3x3.RotateToTarget (initialRot finalRot : Matrix3x3 α) :
    Except Error (Matrix3x3 α) :=
  if !initialRot.IsRotation then
    .error (.invalid_argument "RotateToTarget: initialRot is not a rotation")
  else if !finalRot.IsRotation then
    .error (.invalid_argument "RotateToTarget: finalRot is not a rotation")
  else
    let RiT := initialRot.Transposed
    let Rdelta := finalRot.Multiply RiT
    .ok Rdelta

/-! ## Quat -/

/-- A `struct Quat`, scalar first. -/
structure Quat (α : Type) where
  s : α
  x : α
  y : α
  z : α
  deriving Repr, DecidableEq

/-- The default member values of `Quat`: `s = 1, x = 0, y = 0, z = 0`. -/
def Quat.default : Quat α := ⟨1, 0, 0, 0⟩

/-- Componentwise negation, the `-q` of the claims. -/
def Quat.neg (q : Quat α) : Quat α := ⟨-q.s, -q.x, -q.y, -q.z⟩

/-- The function `Quat::FromAxisAngle`. -/
def Quat.FromAxisAngle (sqrt cos sin : α → α) (u_in : Vec3 α) (phi : α) :
    Except Error (Quat α) := do
  let u ← u_in.Normalize sqrt
  let half := (1 / 2) * phi
  let c := cos half
  let s := sin half
  pure ⟨c, u.x * s, u.y * s, u.z * s⟩

/-- The function `Quat::Normalized`: throws on an exactly zero norm.  In the
range of binary64 `n2` is zero when each of the four squares is at most
`2^-1075`, and `+inf` when the sum reaches `2^1024`; with `n = +inf` the test
`n == 0` fails and the four quotients are zero. -/
def Quat.Normalized (sqrt : α → α) (q : Quat α) : Except Error (Quat α) :=
  let n2 := q.s * q.s + q.x * q.x + q.y * q.y + q.z * q.z
  let n : Ext α :=
    if q.s * q.s ≤ DBL_UNDERFLOW ∧ q.x * q.x ≤ DBL_UNDERFLOW ∧ q.y * q.y ≤ DBL_UNDERFLOW
        ∧ q.z * q.z ≤ DBL_UNDERFLOW then
      .finite (sqrt 0)
    else if DBL_OVERFLOW ≤ n2 then
      .infinite
    else
      .finite (sqrt n2)
  match n with
  | .infinite => .ok ⟨0, 0, 0, 0⟩
  | .finite n =>
    if n = 0 then .error (.invalid_argument "Quat::Normalized: zero norm")
    else .ok ⟨q.s / n, q.x / n, q.y / n, q.z / n⟩

/-- The function `Quat::Multiply` (Hamilton product `a * b`). -/
def Quat.Multiply (a b : Quat α) : Quat α :=
  ⟨a.s * b.s - a.x * b.x - a.y * b.y - a.z * b.z,
   a.s * b.x + a.x * b.s + a.y * b.z - a.z * b.y,
   a.s * b.y - a.x * b.z + a.y * b.s + a.z * b.x,
   a.s * b.z + a.x * b.y - a.y * b.x + a.z * b.s⟩

/-- The function `Quat::Rotate`. -/
def Quat.Rotate (q : Quat α) (v : Vec3 α) : Vec3 α :=
  let qv : Vec3 α := ⟨q.x, q.y, q.z⟩
  let t := Vec3.Cross qv v
  let t : Vec3 α := ⟨t.x * 2, t.y * 2, t.z * 2⟩
  let st : Vec3 α := ⟨q.s * t.x, q.s * t.y, q.s * t.z⟩
  let cqt := Vec3.Cross qv t
  ⟨v.x + st.x + cqt.x, v.y + st.y + cqt.y, v.z + st.z + cqt.z⟩

/-- The function `Quat::ToMatrix3x3`. -/
def Quat.ToMatrix3x3 (sqrt : α → α) (q0 : Quat α) : Except Error (Matrix3x3 α) := do
  let q ← q0.Normalized sqrt
  let ww := q.s; let xx := q.x; let yy := q.y; let zz := q.z
  let xx2 := xx * xx; let yy2 := yy * yy; let zz2 := zz * zz
  let xy2 := xx * yy; let xz2 := xx * zz; let yz2 := yy * zz
  let sx2 := ww * xx; let sy2 := ww * yy; let sz2 := ww * zz
  pure
    ⟨1 - 2 * (yy2 + zz2), 2 * (xy2 - sz2), 2 * (xz2 + sy2),
     2 * (xy2 + sz2), 1 - 2 * (xx2 + zz2), 2 * (yz2 - sx2),
     2 * (xz2 - sy2), 2 * (yz2 + sx2), 1 - 2 * (xx2 + yy2)⟩

/-- The function `Quat::FromMatrix3x3`: the four-branch extraction, then
`Normalized`. -/
def Quat.FromMatrix3x3 (sqrt : α → α) (R : Matrix3x3 α) : Except Error (Quat α) :=
  if !R.IsRotation then
    .error (.invalid_argument "FromMatrix3x3: input not rotation")
  else
    let tr := R.m00 + R.m11 + R.m22
    let q : Quat α :=
      if tr > 0 then
        let S := sqrt (tr + 1) * 2
        ⟨(1 / 4) * S, (R.m21 - R.m12) / S, (R.m02 - R.m20) / S, (R.m10 - R.m01) / S⟩
      else if R.m00 > R.m11 ∧ R.m00 > R.m22 then
        let S := sqrt (1 + R.m00 - R.m11 - R.m22) * 2
        ⟨(R.m21 - R.m12) / S, (1 / 4) * S, (R.m01 + R.m10) / S, (R.m02 + R.m20) / S⟩
      else if R.m11 > R.m22 then
        let S := sqrt (1 - R.m00 + R.m11 - R.m22) * 2
        ⟨(R.m02 - R.m20) / S, (R.m01 + R.m10) / S, (1 / 4) * S, (R.m12 + R.m21) / S⟩
      else
        let S := sqrt (1 - R.m00 - R.m11 + R.m22) * 2
        ⟨(R.m10 - R.m01) / S, (R.m02 + R.m20) / S, (R.m12 + R.m21) / S, (1 / 4) * S⟩
    q.Normalized sqrt

/-- The function `Quat::ToAxisAngle`; returns `(axis, angle)`. -/
def Quat.ToAxisAngle (sqrt acos : α → α) (q0 : Quat α) : Except Error (Vec3 α × α) := do
  let q ← q0.Normalized sqrt
  let angle := 2 * acos q.s
  let sin_half := sqrt (max 0 (1 - q.s * q.s))
  if sin_half < TOL then
    pure (⟨1, 0, 0⟩, 0)
  else
    let axis : Vec3 α := ⟨q.x / sin_half, q.y / sin_half, q.z / sin_half⟩
    let axis ← axis.Normalize sqrt
    pure (axis, angle)

/-- The function `Quat::RotateFromTo`. -/
def Quat.RotateFromTo (sqrt cos sin acos : α → α) (u v : Vec3 α) :
    Except Error (Quat α) := do
  let a ← u.Normalize sqrt
  let b ← v.Normalize sqrt
  let dot := Vec3.Dot a b
  if |dot - 1| < TOL then
    pure Quat.default
  else if |dot + 1| < TOL then
    let arbitrary : Vec3 α := if |a.x| < 9 / 10 then ⟨1, 0, 0⟩ else ⟨0, 1, 0⟩
    let axis ← (Vec3.Cross a arbitrary).Normalize sqrt
    Quat.FromAxisAngle sqrt cos sin axis PI
  else
    let axis ← (Vec3.Cross a b).Normalize sqrt
    let angle := acos dot
    Quat.FromAxisAngle sqrt cos sin axis angle

/-- The function `Quat::RotateToTarget`. -/
def Quat.RotateToTarget (sqrt : α → α) (initialRot finalRot : Quat α) :
    Except Error (Quat α) := do
  let qi ← initialRot.Normalized sqrt
  let qf ← finalRot.Normalized sqrt
  let qi_conj : Quat α := ⟨qi.s, -qi.x, -qi.y, -qi.z⟩
  let qdelta := qf.Multiply qi_conj
  qdelta.Normalized sqrt

/-- The function `Quat::FromEulerZYX`. -/
def Quat.FromEulerZYX (sqrt cos sin : α → α) (yaw pitch roll : α) : Except Error (Quat α) :=
  let R := Matrix3x3.FromEulerZYX cos sin yaw pitch roll
  Quat.FromMatrix3x3 sqrt R

/-- The function `Quat::ToEulerZYX`. -/
def Quat.ToEulerZYX (sqrt asin : α → α) (atan2 : α → α → α) (q : Quat α) :
    Except Error (α × α × α) := do
  let R ← q.ToMatrix3x3 sqrt
  pure (R.ToEulerZYX asin atan2)

/-! ## Matrix4x4 -/

/-- A `struct Vec4`. -/
structure Vec4 (α : Type) where
  x : α
  y : α
  z : α
  w : α
  deriving Repr, DecidableEq

/-- A `struct Matrix4x4`: field `mij` is `At(i,j)`, that is `m[i*4+j]`. -/
structure Matrix4x4 (α : Type) where
  m00 : α
  m01 : α
  m02 : α
  m03 : α
  m10 : α
  m11 : α
  m12 : α
  m13 : α
  m20 : α
  m21 : α
  m22 : α
  m23 : α
  m30 : α
  m31 : α
  m32 : α
  m33 : α
  deriving Repr, DecidableEq

/-- The function `Matrix4x4::Identity`. -/
def Matrix4x4.Identity : Matrix4x4 α :=
  ⟨1, 0, 0, 0,
   0, 1, 0, 0,
   0, 0, 1, 0,
   0, 0, 0, 1⟩

/-- The function `Matrix4x4::Multiply(const Matrix4x4&)`; each entry is the
accumulation `sum = 0; sum += At(i,k) * B.At(k,j)` for `k = 0..3`. -/
def Matrix4x4.Multiply (A B : Matrix4x4 α) : Matrix4x4 α :=
  ⟨0 + A.m00 * B.m00 + A.m01 * B.m10 + A.m02 * B.m20 + A.m03 * B.m30,
   0 + A.m00 * B.m01 + A.m01 * B.m11 + A.m02 * B.m21 + A.m03 * B.m31,
   0 + A.m00 * B.m02 + A.m01 * B.m12 + A.m02 * B.m22 + A.m03 * B.m32,
   0 + A.m00 * B.m03 + A.m01 * B.m13 + A.m02 * B.m23 + A.m03 * B.m33,
   0 + A.m10 * B.m00 + A.m11 * B.m10 + A.m12 * B.m20 + A.m13 * B.m30,
   0 + A.m10 * B.m01 + A.m11 * B.m11 + A.m12 * B.m21 + A.m13 * B.m31,
   0 + A.m10 * B.m02 + A.m11 * B.m12 + A.m12 * B.m22 + A.m13 * B.m32,
   0 + A.m10 * B.m03 + A.m11 * B.m13 + A.m12 * B.m23 + A.m13 * B.m33,
   0 + A.m20 * B.m00 + A.m21 * B.m10 + A.m22 * B.m20 + A.m23 * B.m30,
   0 + A.m20 * B.m01 + A.m21 * B.m11 + A.m22 * B.m21 + A.m23 * B.m31,
   0 + A.m20 * B.m02 + A.m21 * B.m12 + A.m22 * B.m22 + A.m23 * B.m32,
   0 + A.m20 * B.m03 + A.m21 * B.m13 + A.m22 * B.m23 + A.m23 * B.m33,
   0 + A.m30 * B.m00 + A.m31 * B.m10 + A.m32 * B.m20 + A.m33 * B.m30,
   0 + A.m30 * B.m01 + A.m31 * B.m11 + A.m32 * B.m21 + A.m33 * B.m31,
   0 + A.m30 * B.m02 + A.m31 * B.m12 + A.m32 * B.m22 + A.m33 * B.m32,
   0 + A.m30 * B.m03 + A.m31 * B.m13 + A.m32 * B.m23 + A.m33 * B.m33⟩

/-- The function `Matrix4x4::Multiply(const Vec4&)`. -/
def Matrix4x4.MultiplyVec (A : Matrix4x4 α) (v : Vec4 α) : Vec4 α :=
  ⟨A.m00 * v.x + A.m01 * v.y + A.m02 * v.z + A.m03 * v.w,
   A.m10 * v.x + A.m11 * v.y + A.m12 * v.z + A.m13 * v.w,
   A.m20 * v.x + A.m21 * v.y + A.m22 * v.z + A.m23 * v.w,
   A.m30 * v.x + A.m31 * v.y + A.m32 * v.z + A.m33 * v.w⟩

/-- The function `Matrix4x4::IsAffine`. -/
def Matrix4x4.IsAffine (A : Matrix4x4 α) : Bool :=
  if |A.m30| > TOL then false else
  if |A.m31| > TOL then false else
  if |A.m32| > TOL then false else
  if |A.m33 - 1| > TOL then false else
  true

/-- The function `Matrix4x4::TransformPoint`. -/
def Matrix4x4.TransformPoint (A : Matrix4x4 α) (p : Vec3 α) : Except Error (Vec3 α) :=
  let hp : Vec4 α := ⟨p.x, p.y, p.z, 1⟩
  let tp := A.MultiplyVec hp
  if |tp.w| < TOL then
    .error (.runtime_error "Matrix4x4::TransformPoint: w component is zero")
  else
    .ok ⟨tp.x / tp.w, tp.y / tp.w, tp.z / tp.w⟩

/-- The function `Matrix4x4::TransformVector`. -/
def Matrix4x4.TransformVector (A : Matrix4x4 α) (v : Vec3 α) : Vec3 α :=
  let hv : Vec4 α := ⟨v.x, v.y, v.z, 0⟩
  let tv := A.MultiplyVec hv
  ⟨tv.x, tv.y, tv.z⟩

/-- The function `Matrix4x4::SetTranslation`; returns the updated matrix. -/
def Matrix4x4.SetTranslation (A : Matrix4x4 α) (t : Vec3 α) : Matrix4x4 α :=
  { A with m03 := t.x, m13 := t.y, m23 := t.z }

/-- The function `Matrix4x4::Translate`. -/
def Matrix4x4.Translate (t : Vec3 α) : Matrix4x4 α :=
  (Matrix4x4.Identity).SetTranslation t

/-- The function `Matrix4x4::Scale`. -/
def Matrix4x4.Scale (s : Vec3 α) : Matrix4x4 α :=
  { (Matrix4x4.Identity : Matrix4x4 α) with m00 := s.x, m11 := s.y, m22 := s.z }

/-- The function `Matrix4x4::Rotate(const Matrix3x3&)`. -/
def Matrix4x4.Rotate (R : Matrix3x3 α) : Matrix4x4 α :=
  { (Matrix4x4.Identity : Matrix4x4 α) with
    m00 := R.m00, m01 := R.m01, m02 := R.m02,
    m10 := R.m10, m11 := R.m11, m12 := R.m12,
    m20 := R.m20, m21 := R.m21, m22 := R.m22 }

/-- The function `Matrix4x4::Rotate(const Quat&)`. -/
def Matrix4x4.RotateQuat (sqrt : α → α) (q : Quat α) : Except Error (Matrix4x4 α) := do
  let R ← q.ToMatrix3x3 sqrt
  pure (Matrix4x4.Rotate R)

/-- The function `Matrix4x4::FromTRS(const Vec3&, const Matrix3x3&, const Vec3&)`:
starts from the zero matrix `Matrix4x4 M{}`. -/
def Matrix4x4.FromTRS (t : Vec3 α) (R : Matrix3x3 α) (s : Vec3 α) : Matrix4x4 α :=
  ⟨R.m00 * s.x, R.m01 * s.y, R.m02 * s.z, t.x,
   R.m10 * s.x, R.m11 * s.y, R.m12 * s.z, t.y,
   R.m20 * s.x, R.m21 * s.y, R.m22 * s.z, t.z,
   0, 0, 0, 1⟩

/-- The function `Matrix4x4::FromTRS(const Vec3&, const Quat&, const Vec3&)`. -/
def Matrix4x4.FromTRSQuat (sqrt : α → α) (t : Vec3 α) (q : Quat α) (s : Vec3 α) :
    Except Error (Matrix4x4 α) := do
  let R ← q.ToMatrix3x3 sqrt
  pure (Matrix4x4.FromTRS t R s)

/-- The function `Matrix4x4::GetTranslation`. -/
def Matrix4x4.GetTranslation (A : Matrix4x4 α) : Except Error (Vec3 α) :=
  if !A.IsAffine then
    .error (.runtime_error "Matrix is not affine (bottom row is not 0001)")
  else
    .ok ⟨A.m03, A.m13, A.m23⟩

/-- The function `Matrix4x4::GetRotationScale`. -/
def Matrix4x4.GetRotationScale (A : Matrix4x4 α) : Except Error (Matrix3x3 α) :=
  if !A.IsAffine then
    .error (.runtime_error "Matrix is not affine (bottom row is not 0001)")
  else
    .ok ⟨A.m00, A.m01, A.m02,
         A.m10, A.m11, A.m12,
         A.m20, A.m21, A.m22⟩

/-- The function `Matrix4x4::GetScale`.  A column norm of `+inf` would be a
component of the returned vector: the result is then `Error.non_finite`. -/
def Matrix4x4.GetScale (sqrt : α → α) (A : Matrix4x4 α) : Except Error (Vec3 α) :=
  if !A.IsAffine then
    .error (.runtime_error "Matrix is not affine (bottom row is not 0001)")
  else
    match (Vec3.mk A.m00 A.m10 A.m20).Norm sqrt, (Vec3.mk A.m01 A.m11 A.m21).Norm sqrt,
        (Vec3.mk A.m02 A.m12 A.m22).Norm sqrt with
    | .finite sx, .finite sy, .finite sz =>
      if sx < TOL ∨ sy < TOL ∨ sz < TOL then
        .ok ⟨sx, sy, sz⟩
      else
        let R : Matrix3x3 α :=
          ⟨A.m00 / sx, A.m01 / sy, A.m02 / sz,
           A.m10 / sx, A.m11 / sy, A.m12 / sz,
           A.m20 / sx, A.m21 / sy, A.m22 / sz⟩
        let detR := R.Det
        let sx := if |detR + 1| < TOL then -sx else sx
        .ok ⟨sx, sy, sz⟩
    | _, _, _ => .error .non_finite

/-- The function `Matrix4x4::GetRotation`. -/
def Matrix4x4.GetRotation (sqrt : α → α) (A : Matrix4x4 α) : Except Error (Matrix3x3 α) :=
  if !A.IsAffine then
    .error (.runtime_error "Matrix is not affine (bottom row is not 0001)")
  else do
    let s ← A.GetScale sqrt
    if |s.x| < TOL ∨ |s.y| < TOL ∨ |s.z| < TOL then
      pure Matrix3x3.Identity
    else
      pure
        ⟨A.m00 / s.x, A.m01 / s.y, A.m02 / s.z,
         A.m10 / s.x, A.m11 / s.y, A.m12 / s.z,
         A.m20 / s.x, A.m21 / s.y, A.m22 / s.z⟩

/-- The function `Matrix4x4::GetRotationQuat`. -/
def Matrix4x4.GetRotationQuat (sqrt : α → α) (A : Matrix4x4 α) : Except Error (Quat α) :=
  if !A.IsAffine then
    .error (.runtime_error "Matrix is not affine (bottom row is not 0001)")
  else do
    let R ← A.GetRotation sqrt
    Quat.FromMatrix3x3 sqrt R

/-- The function `Matrix4x4::InverseTR`. -/
def Matrix4x4.InverseTR (A : Matrix4x4 α) : Except Error (Matrix4x4 α) :=
  if !A.IsAffine then
    .error (.runtime_error "InverseTR: Matrix is not affine (bottom row is not 0001)")
  else do
    let R ← A.GetRotationScale
    let Rt := R.Transposed
    let t ← A.GetTranslation
    let invT := Rt.MultiplyVec t
    let invT : Vec3 α := ⟨-invT.x, -invT.y, -invT.z⟩
    let MInv := Matrix4x4.Rotate Rt
    pure (MInv.SetTranslation invT)

/-- The function `Matrix4x4::InverseTRS`. -/
def Matrix4x4.InverseTRS (sqrt : α → α) (A : Matrix4x4 α) : Except Error (Matrix4x4 α) :=
  if !A.IsAffine then
    .error (.runtime_error "InverseTRS: Matrix is not affine (bottom row is not 0001)")
  else do
    let s ← A.GetScale sqrt
    if s.x < TOL ∨ s.y < TOL ∨ s.z < TOL then
      .error (.runtime_error "Matrix4x4::InverseTRS: Scale too close to zero")
    else
      let isxSq := 1 / (s.x * s.x)
      let isySq := 1 / (s.y * s.y)
      let iszSq := 1 / (s.z * s.z)
      let A_inv : Matrix3x3 α :=
        ⟨A.m00 * isxSq, A.m10 * isxSq, A.m20 * isxSq,
         A.m01 * isySq, A.m11 * isySq, A.m21 * isySq,
         A.m02 * iszSq, A.m12 * iszSq, A.m22 * iszSq⟩
      let t ← A.GetTranslation
      let invT := A_inv.MultiplyVec t
      let invT : Vec3 α := ⟨-invT.x, -invT.y, -invT.z⟩
      let MInv := Matrix4x4.Rotate A_inv
      pure (MInv.SetTranslation invT)

/-- The function `Matrix4x4::SetScale`; returns the updated matrix. -/
def Matrix4x4.SetScale (sqrt : α → α) (A : Matrix4x4 α) (s : Vec3 α) :
    Except Error (Matrix4x4 α) := do
  let R ← A.GetRotation sqrt
  pure { A with
    m00 := R.m00 * s.x, m01 := R.m01 * s.y, m02 := R.m02 * s.z,
    m10 := R.m10 * s.x, m11 := R.m11 * s.y, m12 := R.m12 * s.z,
    m20 := R.m20 * s.x, m21 := R.m21 * s.y, m22 := R.m22 * s.z }

/-- The function `Matrix4x4::SetRotation(const Matrix3x3&)`; returns the updated
matrix. -/
def Matrix4x4.SetRotation (sqrt : α → α) (A : Matrix4x4 α) (R : Matrix3x3 α) :
    Except Error (Matrix4x4 α) := do
  let s ← A.GetScale sqrt
  pure { A with
    m00 := R.m00 * s.x, m01 := R.m01 * s.y, m02 := R.m02 * s.z,
    m10 := R.m10 * s.x, m11 := R.m11 * s.y, m12 := R.m12 * s.z,
    m20 := R.m20 * s.x, m21 := R.m21 * s.y, m22 := R.m22 * s.z }

/-- The function `Matrix4x4::SetRotation(const Quat&)`; returns the updated
matrix. -/
def Matrix4x4.SetRotationQuat (sqrt : α → α) (A : Matrix4x4 α) (q : Quat α) :
    Except Error (Matrix4x4 α) := do
  let R ← q.ToMatrix3x3 sqrt
  A.SetRotation sqrt R

/-- The function `Matrix4x4::SetRotationScale`; returns the updated matrix. -/
def Matrix4x4.SetRotationScale (A : Matrix4x4 α) (RS : Matrix3x3 α) : Matrix4x4 α :=
  { A with
    m00 := RS.m00, m01 := RS.m01, m02 := RS.m02,
    m10 := RS.m10, m11 := RS.m11, m12 := RS.m12,
    m20 := RS.m20, m21 := RS.m21, m22 := RS.m22 }

end Defs

/-! ## Specification vocabulary -/

section SpecDefs

variable {α : Type} [LinearOrderedField α]

/-- A rotation matrix in the exact sense of the claims: `RᵗR = I` and
`det R = 1`, stated with the library's own `Transposed`, `Multiply`,
`Identity` and `Det`. -/
def Matrix3x3.IsExactRotation (R : Matrix3x3 α) : Prop :=
  R.Transposed.Multiply R = Matrix3x3.Identity ∧ R.Det = 1

/-- Two vectors agree within `TOL` in every component. -/
def Vec3.Near (a b : Vec3 α) : Prop :=
  |a.x - b.x| ≤ TOL ∧ |a.y - b.y| ≤ TOL ∧ |a.z - b.z| ≤ TOL

/-- Two 3×3 matrices agree within `TOL` in every entry. -/
def Matrix3x3.Near (A B : Matrix3x3 α) : Prop :=
  |A.m00 - B.m00| ≤ TOL ∧ |A.m01 - B.m01| ≤ TOL ∧ |A.m02 - B.m02| ≤ TOL ∧
  |A.m10 - B.m10| ≤ TOL ∧ |A.m11 - B.m11| ≤ TOL ∧ |A.m12 - B.m12| ≤ TOL ∧
  |A.m20 - B.m20| ≤ TOL ∧ |A.m21 - B.m21| ≤ TOL ∧ |A.m22 - B.m22| ≤ TOL

/-- A vector of ordinary magnitude: squared length between `1e-300` and `1e300`,
that is length between `1e-150` and `1e150`. -/
def Vec3.InRange (v : Vec3 α) : Prop :=
  1 / 10 ^ 300 ≤ Vec3.Dot v v ∧ Vec3.Dot v v ≤ 10 ^ 300

/-- Every square of a component is at most `2^-1075`: the squared length that
`Vec3::Norm` computes is zero. -/
def Vec3.SquaresUnderflow (v : Vec3 α) : Prop :=
  v.x * v.x ≤ DBL_UNDERFLOW ∧ v.y * v.y ≤ DBL_UNDERFLOW ∧ v.z * v.z ≤ DBL_UNDERFLOW

/-- Every square of a component is at most `2^-1075`: the squared norm that
`Quat::Normalized` computes is zero. -/
def Quat.SquaresUnderflow (q : Quat α) : Prop :=
  q.s * q.s ≤ DBL_UNDERFLOW ∧ q.x * q.x ≤ DBL_UNDERFLOW ∧ q.y * q.y ≤ DBL_UNDERFLOW
    ∧ q.z * q.z ≤ DBL_UNDERFLOW

/-- A quaternion of ordinary magnitude: squared norm between `1e-300` and
`1e300`. -/
def Quat.InRange (q : Quat α) : Prop :=
  1 / 10 ^ 300 ≤ q.s * q.s + q.x * q.x + q.y * q.y + q.z * q.z ∧
    q.s * q.s + q.x * q.x + q.y * q.y + q.z * q.z ≤ 10 ^ 300

end SpecDefs

/-! ## Auxiliary lemmas -/

section Aux

theorem TOL_pos : (0 : ℝ) < TOL := by
  unfold TOL; norm_num

theorem underflow_pos : (0 : ℝ) < DBL_UNDERFLOW := by
  unfold DBL_UNDERFLOW; positivity

/-- Four squares that all underflow sum to less than `1e-300`. -/
theorem four_underflow_lt : 4 * (DBL_UNDERFLOW : ℝ) < 1 / 10 ^ 300 := by
  unfold DBL_UNDERFLOW
  rw [show (4 : ℝ) * (1 / 2 ^ 1075) = 1 / 2 ^ 1073 by norm_num]
  apply one_div_lt_one_div_of_lt (by positivity)
  norm_num

/-- The bound `1e300` is below the overflow threshold. -/
theorem lt_overflow : (10 : ℝ) ^ 300 < DBL_OVERFLOW := by
  unfold DBL_OVERFLOW
  norm_num

/-- In range, the norm is the exact square root. -/
theorem norm_of_inRange (v : Vec3 ℝ) (h : v.InRange) :
    v.Norm Real.sqrt = .finite (Real.sqrt (Vec3.Dot v v)) := by
  obtain ⟨hlo, hhi⟩ := h
  have h4 := four_underflow_lt
  have hU := underflow_pos
  have c1 : ¬ (v.x * v.x ≤ DBL_UNDERFLOW ∧ v.y * v.y ≤ DBL_UNDERFLOW
      ∧ v.z * v.z ≤ DBL_UNDERFLOW) := by
    rintro ⟨a, b, c⟩
    simp only [Vec3.Dot] at hlo
    linarith
  have c2 : ¬ (DBL_OVERFLOW ≤ Vec3.Dot v v) := by
    have := lt_overflow
    linarith
  simp only [Vec3.Norm, if_neg c1, if_neg c2]

/-- The norm of a vector whose squares all underflow is zero. -/
theorem norm_of_underflow (v : Vec3 ℝ) (hx : v.x * v.x ≤ DBL_UNDERFLOW)
    (hy : v.y * v.y ≤ DBL_UNDERFLOW) (hz : v.z * v.z ≤ DBL_UNDERFLOW) :
    v.Norm Real.sqrt = .finite 0 := by
  simp only [Vec3.Norm, if_pos (And.intro hx (And.intro hy hz)), Real.sqrt_zero]

/-- The norm of a vector whose squared length reaches `2^1024` is `+inf`. -/
theorem norm_of_overflow (v : Vec3 ℝ) (h : DBL_OVERFLOW ≤ Vec3.Dot v v) :
    v.Norm Real.sqrt = .infinite := by
  have hp := underflow_pos
  have hU : 4 * (DBL_UNDERFLOW : ℝ) < 1 := by
    have := four_underflow_lt
    have h1 : (1 : ℝ) / 10 ^ 300 ≤ 1 := by
      rw [div_le_one (by positivity)]
      exact one_le_pow₀ (by norm_num)
    linarith
  have hO : (1 : ℝ) ≤ DBL_OVERFLOW := by
    unfold DBL_OVERFLOW
    exact one_le_pow₀ (by norm_num)
  have c1 : ¬ (v.x * v.x ≤ DBL_UNDERFLOW ∧ v.y * v.y ≤ DBL_UNDERFLOW
      ∧ v.z * v.z ≤ DBL_UNDERFLOW) := by
    rintro ⟨a, b, c⟩
    simp only [Vec3.Dot] at h
    linarith
  simp only [Vec3.Norm, if_neg c1, if_pos h]

/-- `Normalize` raises on a vector whose squares all underflow, the zero vector
among them. -/
theorem normalize_of_underflow (v : Vec3 ℝ) (hx : v.x * v.x ≤ DBL_UNDERFLOW)
    (hy : v.y * v.y ≤ DBL_UNDERFLOW) (hz : v.z * v.z ≤ DBL_UNDERFLOW) :
    v.Normalize Real.sqrt = .error (.invalid_argument "normalize: zero vector") := by
  simp only [Vec3.Normalize, norm_of_underflow v hx hy hz, if_true]

theorem normalize_zero :
    Vec3.Normalize Real.sqrt (⟨0, 0, 0⟩ : Vec3 ℝ)
      = .error (.invalid_argument "normalize: zero vector") := by
  have hU := underflow_pos
  apply normalize_of_underflow <;> simp only [mul_zero] <;> exact hU.le

/-- `Normalize` returns the zero vector when the squared length overflows. -/
theorem normalize_of_overflow (v : Vec3 ℝ) (h : DBL_OVERFLOW ≤ Vec3.Dot v v) :
    v.Normalize Real.sqrt = .ok ⟨0, 0, 0⟩ := by
  simp only [Vec3.Normalize, norm_of_overflow v h]

/-- A unit vector is in range. -/
theorem inRange_of_unit (v : Vec3 ℝ) (h : v.x * v.x + v.y * v.y + v.z * v.z = 1) :
    v.InRange := by
  have hd : Vec3.Dot v v = 1 := by simpa [Vec3.Dot] using h
  constructor
  · rw [hd, div_le_one (by positivity)]
    exact one_le_pow₀ (by norm_num)
  · rw [hd]
    exact one_le_pow₀ (by norm_num)

/-- Column relations of an exact rotation, read off `RᵗR = I`. -/
theorem Matrix3x3.IsExactRotation.cols {R : Matrix3x3 ℝ} (h : R.IsExactRotation) :
    (R.m00 * R.m00 + R.m10 * R.m10 + R.m20 * R.m20 = 1 ∧
     R.m01 * R.m01 + R.m11 * R.m11 + R.m21 * R.m21 = 1 ∧
     R.m02 * R.m02 + R.m12 * R.m12 + R.m22 * R.m22 = 1) ∧
    (R.m00 * R.m01 + R.m10 * R.m11 + R.m20 * R.m21 = 0 ∧
     R.m00 * R.m02 + R.m10 * R.m12 + R.m20 * R.m22 = 0 ∧
     R.m01 * R.m02 + R.m11 * R.m12 + R.m21 * R.m22 = 0) := by
  obtain ⟨h1, _⟩ := h
  simp only [Matrix3x3.Transposed, Matrix3x3.Multiply, Matrix3x3.Identity,
    Matrix3x3.mk.injEq, zero_add] at h1
  obtain ⟨a, b, c, -, e, f, -, -, i⟩ := h1
  exact ⟨⟨a, e, i⟩, b, c, f⟩

theorem Matrix3x3.IsExactRotation.det_eq {R : Matrix3x3 ℝ} (h : R.IsExactRotation) :
    R.m00 * (R.m11 * R.m22 - R.m12 * R.m21) - R.m01 * (R.m10 * R.m22 - R.m12 * R.m20)
      + R.m02 * (R.m10 * R.m21 - R.m11 * R.m20) = 1 := by
  have := h.2
  simpa [Matrix3x3.Det] using this

/-- Norm of a scaled unit column, for a scale of magnitude between `1e-150` and
`1e150`. -/
theorem norm_scaled_col (a b c s : ℝ) (h : a * a + b * b + c * c = 1)
    (hlo : 1 / 10 ^ 150 ≤ |s|) (hhi : |s| ≤ 10 ^ 150) :
    Vec3.Norm Real.sqrt ⟨a * s, b * s, c * s⟩ = .finite |s| := by
  have e : Vec3.Dot (⟨a * s, b * s, c * s⟩ : Vec3 ℝ) ⟨a * s, b * s, c * s⟩ = s ^ 2 := by
    simp only [Vec3.Dot]
    linear_combination (s ^ 2) * h
  have hs : s ^ 2 = |s| * |s| := by rw [← sq, sq_abs]
  have hpos : (0 : ℝ) < 1 / 10 ^ 150 := by positivity
  have hR : (⟨a * s, b * s, c * s⟩ : Vec3 ℝ).InRange := by
    constructor
    · rw [e, hs]
      calc (1 : ℝ) / 10 ^ 300 = 1 / 10 ^ 150 * (1 / 10 ^ 150) := by norm_num
        _ ≤ |s| * |s| := mul_le_mul hlo hlo hpos.le (abs_nonneg s)
    · rw [e, hs]
      calc |s| * |s| ≤ 10 ^ 150 * 10 ^ 150 :=
            mul_le_mul hhi hhi (abs_nonneg s) (by positivity)
        _ = (10 : ℝ) ^ 300 := by norm_num
  rw [norm_of_inRange _ hR, e, Real.sqrt_sq_eq_abs]

/-- The tolerance `1e-6` is above the lower range bound `1e-150`. -/
theorem range_lo_le_TOL : (1 : ℝ) / 10 ^ 150 ≤ TOL := by
  unfold TOL
  apply one_div_le_one_div_of_le (by norm_num)
  norm_num

theorem isAffine_fromTRS (t : Vec3 ℝ) (R : Matrix3x3 ℝ) (s : Vec3 ℝ) :
    (Matrix4x4.FromTRS t R s).IsAffine = true := by
  simp [Matrix4x4.IsAffine, Matrix4x4.FromTRS, TOL]

/-- Determinant of the column-normalized block of `FromTRS t R s`. -/
theorem det_normalized_fromTRS (R : Matrix3x3 ℝ) (s : Vec3 ℝ) (hR : R.IsExactRotation)
    (hx : s.x ≠ 0) (hy : s.y ≠ 0) (hz : s.z ≠ 0) :
    Matrix3x3.Det
      (⟨R.m00 * s.x / |s.x|, R.m01 * s.y / |s.y|, R.m02 * s.z / |s.z|,
        R.m10 * s.x / |s.x|, R.m11 * s.y / |s.y|, R.m12 * s.z / |s.z|,
        R.m20 * s.x / |s.x|, R.m21 * s.y / |s.y|, R.m22 * s.z / |s.z|⟩ : Matrix3x3 ℝ)
      = if s.x * s.y * s.z < 0 then -1 else 1 := by
  have hd := hR.det_eq
  have ax : |s.x| ≠ 0 := abs_ne_zero.mpr hx
  have ay : |s.y| ≠ 0 := abs_ne_zero.mpr hy
  have az : |s.z| ≠ 0 := abs_ne_zero.mpr hz
  have key : Matrix3x3.Det
      (⟨R.m00 * s.x / |s.x|, R.m01 * s.y / |s.y|, R.m02 * s.z / |s.z|,
        R.m10 * s.x / |s.x|, R.m11 * s.y / |s.y|, R.m12 * s.z / |s.z|,
        R.m20 * s.x / |s.x|, R.m21 * s.y / |s.y|, R.m22 * s.z / |s.z|⟩ : Matrix3x3 ℝ)
      = (s.x * s.y * s.z) / |s.x * s.y * s.z| := by
    simp only [Matrix3x3.Det, abs_mul]
    linear_combination (s.x * s.y * s.z / (|s.x| * |s.y| * |s.z|)) * hd
  rw [key]
  have hp : s.x * s.y * s.z ≠ 0 := mul_ne_zero (mul_ne_zero hx hy) hz
  split_ifs with hneg
  · rw [abs_of_neg hneg]; field_simp
  · have hpos : 0 < s.x * s.y * s.z := lt_of_le_of_ne (not_lt.mp hneg) (Ne.symm hp)
    rw [abs_of_pos hpos]; field_simp

/-- What `GetScale` returns on `FromTRS t R s` when no axis scale is below `TOL`
in magnitude: the magnitudes, with the sign of the product carried by `x`. -/
theorem getScale_fromTRS_of_large (t : Vec3 ℝ) (R : Matrix3x3 ℝ) (s : Vec3 ℝ)
    (hR : R.IsExactRotation)
    (hx : TOL ≤ |s.x|) (hy : TOL ≤ |s.y|) (hz : TOL ≤ |s.z|)
    (ux : |s.x| ≤ 10 ^ 150) (uy : |s.y| ≤ 10 ^ 150) (uz : |s.z| ≤ 10 ^ 150) :
    (Matrix4x4.FromTRS t R s).GetScale Real.sqrt =
      .ok ⟨if s.x * s.y * s.z < 0 then -|s.x| else |s.x|, |s.y|, |s.z|⟩ := by
  obtain ⟨⟨c0, c1, c2⟩, -⟩ := hR.cols
  have tp := TOL_pos
  have hx0 : s.x ≠ 0 := abs_pos.mp (lt_of_lt_of_le tp hx)
  have hy0 : s.y ≠ 0 := abs_pos.mp (lt_of_lt_of_le tp hy)
  have hz0 : s.z ≠ 0 := abs_pos.mp (lt_of_lt_of_le tp hz)
  have hd := det_normalized_fromTRS R s hR hx0 hy0 hz0
  have n0 := norm_scaled_col R.m00 R.m10 R.m20 s.x c0 (le_trans range_lo_le_TOL hx) ux
  have n1 := norm_scaled_col R.m01 R.m11 R.m21 s.y c1 (le_trans range_lo_le_TOL hy) uy
  have n2 := norm_scaled_col R.m02 R.m12 R.m22 s.z c2 (le_trans range_lo_le_TOL hz) uz
  simp only [Matrix4x4.GetScale, isAffine_fromTRS, Bool.not_true, Bool.false_eq_true,
    if_false]
  simp only [Matrix4x4.FromTRS, n0, n1, n2, hd]
  have hcond : ¬ (|s.x| < TOL ∨ |s.y| < TOL ∨ |s.z| < TOL) := by
    push_neg; exact ⟨hx, hy, hz⟩
  rw [if_neg hcond]
  by_cases hneg : s.x * s.y * s.z < 0
  · simp [hneg, tp]
  · have : ¬ (|(1 : ℝ) + 1| < TOL) := by unfold TOL; norm_num
    simp [hneg, this]

/-- What `GetScale` returns on `FromTRS t R s` when some axis scale is below
`TOL` in magnitude (and all are between `1e-150` and `1e150`): the magnitudes,
without sign correction. -/
theorem getScale_fromTRS_of_small (t : Vec3 ℝ) (R : Matrix3x3 ℝ) (s : Vec3 ℝ)
    (hR : R.IsExactRotation)
    (h : |s.x| < TOL ∨ |s.y| < TOL ∨ |s.z| < TOL)
    (lx : 1 / 10 ^ 150 ≤ |s.x|) (ly : 1 / 10 ^ 150 ≤ |s.y|) (lz : 1 / 10 ^ 150 ≤ |s.z|)
    (ux : |s.x| ≤ 10 ^ 150) (uy : |s.y| ≤ 10 ^ 150) (uz : |s.z| ≤ 10 ^ 150) :
    (Matrix4x4.FromTRS t R s).GetScale Real.sqrt = .ok ⟨|s.x|, |s.y|, |s.z|⟩ := by
  obtain ⟨⟨c0, c1, c2⟩, -⟩ := hR.cols
  have n0 := norm_scaled_col R.m00 R.m10 R.m20 s.x c0 lx ux
  have n1 := norm_scaled_col R.m01 R.m11 R.m21 s.y c1 ly uy
  have n2 := norm_scaled_col R.m02 R.m12 R.m22 s.z c2 lz uz
  simp only [Matrix4x4.GetScale, isAffine_fromTRS, Bool.not_true, Bool.false_eq_true,
    if_false]
  simp only [Matrix4x4.FromTRS, n0, n1, n2]
  rw [if_pos h]

/-- On `FromTRS t R s` with a rotation `R` and a scale whose components lie
between `1e-150` and `1e150`, `GetScale` returns `s`. -/
theorem getScale_fromTRS_of_pos (t : Vec3 ℝ) (R : Matrix3x3 ℝ) (s : Vec3 ℝ)
    (hR : R.IsExactRotation)
    (lx : 1 / 10 ^ 150 ≤ s.x) (ly : 1 / 10 ^ 150 ≤ s.y) (lz : 1 / 10 ^ 150 ≤ s.z)
    (ux : s.x ≤ 10 ^ 150) (uy : s.y ≤ 10 ^ 150) (uz : s.z ≤ 10 ^ 150) :
    (Matrix4x4.FromTRS t R s).GetScale Real.sqrt = .ok s := by
  have hpos : (0 : ℝ) < 1 / 10 ^ 150 := by positivity
  have hx : 0 < s.x := lt_of_lt_of_le hpos lx
  have hy : 0 < s.y := lt_of_lt_of_le hpos ly
  have hz : 0 < s.z := lt_of_lt_of_le hpos lz
  have ex : |s.x| = s.x := abs_of_pos hx
  have ey : |s.y| = s.y := abs_of_pos hy
  have ez : |s.z| = s.z := abs_of_pos hz
  have lx1 : 1 / 10 ^ 150 ≤ |s.x| := by rw [ex]; exact lx
  have ly1 : 1 / 10 ^ 150 ≤ |s.y| := by rw [ey]; exact ly
  have lz1 : 1 / 10 ^ 150 ≤ |s.z| := by rw [ez]; exact lz
  have ux1 : |s.x| ≤ 10 ^ 150 := by rw [ex]; exact ux
  have uy1 : |s.y| ≤ 10 ^ 150 := by rw [ey]; exact uy
  have uz1 : |s.z| ≤ 10 ^ 150 := by rw [ez]; exact uz
  by_cases h : |s.x| < TOL ∨ |s.y| < TOL ∨ |s.z| < TOL
  · rw [getScale_fromTRS_of_small t R s hR h lx1 ly1 lz1 ux1 uy1 uz1, ex, ey, ez]
  · push_neg at h
    have hp : ¬ (s.x * s.y * s.z < 0) := not_lt.mpr (by positivity)
    rw [getScale_fromTRS_of_large t R s hR h.1 h.2.1 h.2.2 ux1 uy1 uz1,
      if_neg hp, ex, ey, ez]

/-- Norm of a scaled unit column for a scale of magnitude at most `1e150`: the
magnitude of the scale, or zero when the squares underflow, which needs a
magnitude below `TOL`. -/
theorem norm_scaled_col_le (a b c s : ℝ) (h : a * a + b * b + c * c = 1)
    (hhi : |s| ≤ 10 ^ 150) :
    ∃ n : ℝ, Vec3.Norm Real.sqrt ⟨a * s, b * s, c * s⟩ = .finite n ∧
      (n = |s| ∨ (n = 0 ∧ |s| < TOL)) := by
  have e : Vec3.Dot (⟨a * s, b * s, c * s⟩ : Vec3 ℝ) ⟨a * s, b * s, c * s⟩ = s ^ 2 := by
    simp only [Vec3.Dot]
    linear_combination (s ^ 2) * h
  have hs : s ^ 2 = |s| * |s| := by rw [← sq, sq_abs]
  by_cases hu : (a * s) * (a * s) ≤ DBL_UNDERFLOW ∧ (b * s) * (b * s) ≤ DBL_UNDERFLOW
      ∧ (c * s) * (c * s) ≤ DBL_UNDERFLOW
  · refine ⟨0, norm_of_underflow _ hu.1 hu.2.1 hu.2.2, Or.inr ⟨rfl, ?_⟩⟩
    have h4 := four_underflow_lt
    have hU := underflow_pos
    have hT : (1 : ℝ) / 10 ^ 300 ≤ TOL * TOL := by
      unfold TOL
      rw [show (1 : ℝ) / 1000000 * (1 / 1000000) = 1 / 10 ^ 12 by norm_num]
      apply one_div_le_one_div_of_le (by positivity)
      norm_num
    have hsum : |s| * |s| < TOL * TOL := by
      rw [← hs, ← e]
      simp only [Vec3.Dot]
      linarith [hu.1, hu.2.1, hu.2.2]
    by_contra hge
    have hge' : TOL ≤ |s| := not_lt.mp hge
    have := mul_le_mul hge' hge' TOL_pos.le (abs_nonneg s)
    linarith
  · have ho : ¬ (DBL_OVERFLOW ≤ Vec3.Dot (⟨a * s, b * s, c * s⟩ : Vec3 ℝ)
        ⟨a * s, b * s, c * s⟩) := by
      rw [e, hs]
      have := lt_overflow
      have h2 : |s| * |s| ≤ 10 ^ 150 * 10 ^ 150 :=
        mul_le_mul hhi hhi (abs_nonneg s) (by positivity)
      have h3 : (10 : ℝ) ^ 150 * 10 ^ 150 = 10 ^ 300 := by norm_num
      linarith
    refine ⟨|s|, ?_, Or.inl rfl⟩
    simp only [Vec3.Norm, if_neg hu, if_neg ho]
    rw [e, Real.sqrt_sq_eq_abs]

/-- On `FromTRS t R s` with a rotation `R` and positive scale components of at
most `1e150`, `GetScale` returns a vector within `TOL` of `s`. -/
theorem getScale_fromTRS_near (t : Vec3 ℝ) (R : Matrix3x3 ℝ) (s : Vec3 ℝ)
    (hR : R.IsExactRotation) (hx : 0 < s.x) (hy : 0 < s.y) (hz : 0 < s.z)
    (ux : s.x ≤ 10 ^ 150) (uy : s.y ≤ 10 ^ 150) (uz : s.z ≤ 10 ^ 150) :
    ∃ sc, (Matrix4x4.FromTRS t R s).GetScale Real.sqrt = .ok sc ∧ sc.Near s := by
  have tp := TOL_pos
  have ex : |s.x| = s.x := abs_of_pos hx
  have ey : |s.y| = s.y := abs_of_pos hy
  have ez : |s.z| = s.z := abs_of_pos hz
  have ux1 : |s.x| ≤ 10 ^ 150 := by rw [ex]; exact ux
  have uy1 : |s.y| ≤ 10 ^ 150 := by rw [ey]; exact uy
  have uz1 : |s.z| ≤ 10 ^ 150 := by rw [ez]; exact uz
  by_cases hall : TOL ≤ |s.x| ∧ TOL ≤ |s.y| ∧ TOL ≤ |s.z|
  · have hp : ¬ (s.x * s.y * s.z < 0) := not_lt.mpr (by positivity)
    refine ⟨s, ?_, ?_⟩
    · rw [getScale_fromTRS_of_large t R s hR hall.1 hall.2.1 hall.2.2 ux1 uy1 uz1,
        if_neg hp, ex, ey, ez]
    · simp only [Vec3.Near, sub_self, abs_zero]
      exact ⟨tp.le, tp.le, tp.le⟩
  · obtain ⟨⟨c0, c1, c2⟩, -⟩ := hR.cols
    obtain ⟨n0, hn0, k0⟩ := norm_scaled_col_le R.m00 R.m10 R.m20 s.x c0 ux1
    obtain ⟨n1, hn1, k1⟩ := norm_scaled_col_le R.m01 R.m11 R.m21 s.y c1 uy1
    obtain ⟨n2, hn2, k2⟩ := norm_scaled_col_le R.m02 R.m12 R.m22 s.z c2 uz1
    have hsm : n0 < TOL ∨ n1 < TOL ∨ n2 < TOL := by
      by_contra hno
      push_neg at hno
      apply hall
      refine ⟨?_, ?_, ?_⟩
      · rcases k0 with k | ⟨k, -⟩
        · rw [← k]; exact hno.1
        · rw [k] at hno; linarith [hno.1]
      · rcases k1 with k | ⟨k, -⟩
        · rw [← k]; exact hno.2.1
        · rw [k] at hno; linarith [hno.2.1]
      · rcases k2 with k | ⟨k, -⟩
        · rw [← k]; exact hno.2.2
        · rw [k] at hno; linarith [hno.2.2]
    refine ⟨⟨n0, n1, n2⟩, ?_, ?_⟩
    · simp only [Matrix4x4.GetScale, isAffine_fromTRS, Bool.not_true, Bool.false_eq_true,
        if_false]
      simp only [Matrix4x4.FromTRS, hn0, hn1, hn2]
      rw [if_pos hsm]
    · simp only [Vec3.Near]
      refine ⟨?_, ?_, ?_⟩
      · rcases k0 with k | ⟨k, kk⟩
        · rw [k, ex, sub_self, abs_zero]; exact tp.le
        · rw [k, zero_sub, abs_neg]; exact kk.le
      · rcases k1 with k | ⟨k, kk⟩
        · rw [k, ey, sub_self, abs_zero]; exact tp.le
        · rw [k, zero_sub, abs_neg]; exact kk.le
      · rcases k2 with k | ⟨k, kk⟩
        · rw [k, ez, sub_self, abs_zero]; exact tp.le
        · rw [k, zero_sub, abs_neg]; exact kk.le

/-- Row relations of an exact rotation: `R Rᵗ = I` follows from `RᵗR = I`. -/
theorem Matrix3x3.IsExactRotation.rows {R : Matrix3x3 ℝ} (h : R.IsExactRotation) :
    (R.m00 * R.m00 + R.m01 * R.m01 + R.m02 * R.m02 = 1 ∧
     R.m10 * R.m10 + R.m11 * R.m11 + R.m12 * R.m12 = 1 ∧
     R.m20 * R.m20 + R.m21 * R.m21 + R.m22 * R.m22 = 1) ∧
    (R.m00 * R.m10 + R.m01 * R.m11 + R.m02 * R.m12 = 0 ∧
     R.m00 * R.m20 + R.m01 * R.m21 + R.m02 * R.m22 = 0 ∧
     R.m10 * R.m20 + R.m11 * R.m21 + R.m12 * R.m22 = 0) := by
  obtain ⟨⟨c0, c1, c2⟩, c01, c02, c12⟩ := h.cols
  have h1 : !![R.m00, R.m10, R.m20; R.m01, R.m11, R.m21; R.m02, R.m12, R.m22] *
      !![R.m00, R.m01, R.m02; R.m10, R.m11, R.m12; R.m20, R.m21, R.m22]
      = (1 : Matrix (Fin 3) (Fin 3) ℝ) := by
    rw [Matrix.mul_fin_three, Matrix.one_fin_three]
    congr 1
    simp only [c0, c1, c2, c01, c02, c12, mul_comm R.m01 R.m00, mul_comm R.m11 R.m10,
      mul_comm R.m21 R.m20, mul_comm R.m02 R.m00, mul_comm R.m12 R.m10,
      mul_comm R.m22 R.m20, mul_comm R.m02 R.m01, mul_comm R.m12 R.m11,
      mul_comm R.m22 R.m21]
  have h2 := (Matrix.mul_eq_one_comm).mp h1
  rw [Matrix.mul_fin_three, Matrix.one_fin_three] at h2
  have e00 := congrFun (congrFun h2 0) 0
  have e11 := congrFun (congrFun h2 1) 1
  have e22 := congrFun (congrFun h2 2) 2
  have e01 := congrFun (congrFun h2 0) 1
  have e02 := congrFun (congrFun h2 0) 2
  have e12 := congrFun (congrFun h2 1) 2
  simp at e00 e11 e22 e01 e02 e12
  exact ⟨⟨e00, e11, e22⟩, e01, e02, e12⟩

/-- An exact rotation passes the tolerance test `IsRotation`. -/
theorem isRotation_of_exact {R : Matrix3x3 ℝ} (h : R.IsExactRotation) :
    R.IsRotation = true := by
  have tp := TOL_pos
  simp only [Matrix3x3.IsRotation, h.1, h.2, sub_self, abs_zero, gt_iff_lt,
    not_lt.mpr tp.le, if_false]

/-- In range `Normalize` returns the vector divided by a positive `n` with
`n * n = Dot v v`. -/
theorem normalize_of_inRange (v : Vec3 ℝ) (hv : v.InRange) :
    ∃ n : ℝ, 0 < n ∧ n * n = Vec3.Dot v v ∧
      v.Normalize Real.sqrt = .ok ⟨v.x / n, v.y / n, v.z / n⟩ := by
  have hd : 0 < Vec3.Dot v v := lt_of_lt_of_le (by positivity) hv.1
  have hn : 0 < Real.sqrt (Vec3.Dot v v) := Real.sqrt_pos.mpr hd
  refine ⟨Real.sqrt (Vec3.Dot v v), hn, Real.mul_self_sqrt hd.le, ?_⟩
  simp only [Vec3.Normalize, norm_of_inRange v hv, if_neg hn.ne']

/-- The result of normalizing by `n` with `n * n = Dot v v` is a unit vector. -/
theorem unit_of_div (v : Vec3 ℝ) (n : ℝ) (hn : 0 < n) (h : n * n = Vec3.Dot v v) :
    v.x / n * (v.x / n) + v.y / n * (v.y / n) + v.z / n * (v.z / n) = 1 := by
  simp only [Vec3.Dot] at h
  field_simp
  linarith

/-- A unit vector is its own normalization. -/
theorem normalize_of_unit (v : Vec3 ℝ) (h : v.x * v.x + v.y * v.y + v.z * v.z = 1) :
    v.Normalize Real.sqrt = .ok v := by
  have hd : Vec3.Dot v v = 1 := by simpa [Vec3.Dot] using h
  simp [Vec3.Normalize, norm_of_inRange v (inRange_of_unit v h), hd]

/-- Rodrigues' matrix of a unit axis, with `c`, `s` on the unit circle, is an
exact rotation. -/
theorem rodrigues_isExactRotation (c s ux uy uz : ℝ) (hcs : s * s + c * c = 1)
    (hu : ux * ux + uy * uy + uz * uz = 1) :
    (⟨c + (1 - c) * ux * ux, (1 - c) * ux * uy - s * uz, (1 - c) * ux * uz + s * uy,
      (1 - c) * uy * ux + s * uz, c + (1 - c) * uy * uy, (1 - c) * uy * uz - s * ux,
      (1 - c) * uz * ux - s * uy, (1 - c) * uz * uy + s * ux, c + (1 - c) * uz * uz⟩ :
      Matrix3x3 ℝ).IsExactRotation := by
  constructor
  · simp only [Matrix3x3.Transposed, Matrix3x3.Multiply, Matrix3x3.Identity,
      Matrix3x3.mk.injEq]
    refine ⟨?_, ?_, ?_, ?_, ?_, ?_, ?_, ?_, ?_⟩
    · linear_combination (uy ^ 2 + uz ^ 2) * hcs
      + (1 - 2 * c * ux ^ 2 - c ^ 2 + c ^ 2 * ux ^ 2 + ux ^ 2) * hu
    · linear_combination (-ux * uy) * hcs + (-2 * c * ux * uy + c ^ 2 * ux * uy + ux * uy) * hu
    · linear_combination (-ux * uz) * hcs + (-2 * c * ux * uz + c ^ 2 * ux * uz + ux * uz) * hu
    · linear_combination (-ux * uy) * hcs + (-2 * c * ux * uy + c ^ 2 * ux * uy + ux * uy) * hu
    · linear_combination (ux ^ 2 + uz ^ 2) * hcs
      + (1 - 2 * c * uy ^ 2 - c ^ 2 + c ^ 2 * uy ^ 2 + uy ^ 2) * hu
    · linear_combination (-uy * uz) * hcs + (-2 * c * uy * uz + c ^ 2 * uy * uz + uy * uz) * hu
    · linear_combination (-ux * uz) * hcs + (-2 * c * ux * uz + c ^ 2 * ux * uz + ux * uz) * hu
    · linear_combination (-uy * uz) * hcs + (-2 * c * uy * uz + c ^ 2 * uy * uz + uy * uz) * hu
    · linear_combination (ux ^ 2 + uy ^ 2) * hcs
      + (1 - 2 * c * uz ^ 2 - c ^ 2 + c ^ 2 * uz ^ 2 + uz ^ 2) * hu
  · simp only [Matrix3x3.Det]
    linear_combination (c * ux ^ 2 - 2 * c * ux ^ 2 * uy ^ 2 - 2 * c * ux ^ 2 * uz ^ 2 - c *
      ux ^ 4 + c * uy ^ 2 - 2 * c * uy ^ 2 * uz ^ 2 - c * uy ^ 4 + c * uz ^ 2 - c * uz ^ 4 + 2
      * ux ^ 2 * uy ^ 2 + 2 * ux ^ 2 * uz ^ 2 + ux ^ 4 + 2 * uy ^ 2 * uz ^ 2 + uy ^ 4 + uz ^
      4) * hcs
      + (1 - c * ux ^ 2 - c * uy ^ 2 - c * uz ^ 2 - c ^ 2 * ux ^ 2 - c ^ 2 * uy ^ 2 - c ^ 2 *
      uz ^ 2 - c ^ 3 + c ^ 3 * ux ^ 2 + c ^ 3 * uy ^ 2 + c ^ 3 * uz ^ 2 + ux ^ 2 + uy ^ 2 + uz
      ^ 2) * hu

/-- The value of `RotationAxisAngle` on an axis in range: Rodrigues' matrix of
a unit vector `w` that is a positive multiple of the axis. -/
theorem rotationAxisAngle_of_inRange (axis : Vec3 ℝ) (θ : ℝ) (h : axis.InRange) :
    ∃ n : ℝ, 0 < n ∧ n * n = Vec3.Dot axis axis ∧
      Matrix3x3.RotationAxisAngle Real.sqrt Real.cos Real.sin axis θ = .ok
        ⟨Real.cos θ + (1 - Real.cos θ) * (axis.x / n) * (axis.x / n),
         (1 - Real.cos θ) * (axis.x / n) * (axis.y / n) - Real.sin θ * (axis.z / n),
         (1 - Real.cos θ) * (axis.x / n) * (axis.z / n) + Real.sin θ * (axis.y / n),
         (1 - Real.cos θ) * (axis.y / n) * (axis.x / n) + Real.sin θ * (axis.z / n),
         Real.cos θ + (1 - Real.cos θ) * (axis.y / n) * (axis.y / n),
         (1 - Real.cos θ) * (axis.y / n) * (axis.z / n) - Real.sin θ * (axis.x / n),
         (1 - Real.cos θ) * (axis.z / n) * (axis.x / n) - Real.sin θ * (axis.y / n),
         (1 - Real.cos θ) * (axis.z / n) * (axis.y / n) + Real.sin θ * (axis.x / n),
         Real.cos θ + (1 - Real.cos θ) * (axis.z / n) * (axis.z / n)⟩ := by
  obtain ⟨n, hn, hnn, hN⟩ := normalize_of_inRange axis h
  refine ⟨n, hn, hnn, ?_⟩
  simp only [Matrix3x3.RotationAxisAngle, hN, bind, Except.bind, pure, Except.pure]

/-- The value of `RotationAxisAngle` on a unit axis. -/
theorem rotationAxisAngle_of_unit (w : Vec3 ℝ) (θ : ℝ)
    (hw : w.x * w.x + w.y * w.y + w.z * w.z = 1) :
    Matrix3x3.RotationAxisAngle Real.sqrt Real.cos Real.sin w θ = .ok
      ⟨Real.cos θ + (1 - Real.cos θ) * w.x * w.x,
       (1 - Real.cos θ) * w.x * w.y - Real.sin θ * w.z,
       (1 - Real.cos θ) * w.x * w.z + Real.sin θ * w.y,
       (1 - Real.cos θ) * w.y * w.x + Real.sin θ * w.z,
       Real.cos θ + (1 - Real.cos θ) * w.y * w.y,
       (1 - Real.cos θ) * w.y * w.z - Real.sin θ * w.x,
       (1 - Real.cos θ) * w.z * w.x - Real.sin θ * w.y,
       (1 - Real.cos θ) * w.z * w.y + Real.sin θ * w.x,
       Real.cos θ + (1 - Real.cos θ) * w.z * w.z⟩ := by
  simp only [Matrix3x3.RotationAxisAngle, normalize_of_unit w hw, bind, Except.bind, pure,
    Except.pure]

/-- Normalizing `-v` gives the negation of normalizing `v`. -/
theorem normalize_neg (v a : Vec3 ℝ) (h : v.Normalize Real.sqrt = .ok a) :
    v.neg.Normalize Real.sqrt = .ok a.neg := by
  have hd : Vec3.Norm Real.sqrt v.neg = Vec3.Norm Real.sqrt v := by
    simp only [Vec3.Norm, Vec3.Dot, Vec3.neg, neg_mul_neg]
  simp only [Vec3.Normalize, hd] at h ⊢
  cases hN : Vec3.Norm Real.sqrt v with
  | infinite =>
    rw [hN] at h
    simp only [Except.ok.injEq] at h ⊢
    rw [← h]
    simp only [Vec3.neg, neg_zero]
  | finite n =>
    rw [hN] at h
    simp only at h ⊢
    by_cases h0 : n = 0
    · rw [if_pos h0] at h; cases h
    · rw [if_neg h0] at h ⊢
      cases h
      simp only [Vec3.neg, neg_div]

/-- The literal `PI` is so close to `π` that `cos PI` is within `1e-20` of `-1`
and `sin PI` within `1e-20` of `0`. -/
theorem cos_sin_PI_bounds :
    |1 + Real.cos (PI : ℝ)| ≤ 1 / 100000000000000000000 ∧
    |Real.sin (PI : ℝ)| ≤ 1 / 100000000000000000000 := by
  have hlo : (PI : ℝ) < Real.pi := by
    have := Real.pi_gt_d20; unfold PI; norm_num at this ⊢; linarith
  have hhi : Real.pi < (PI : ℝ) + 1 / 100000000000000000000 := by
    have := Real.pi_lt_d20; unfold PI; norm_num at this ⊢; linarith
  have hδ0 : 0 < Real.pi - (PI : ℝ) := by linarith
  have hδ1 : Real.pi - (PI : ℝ) < 1 / 100000000000000000000 := by linarith
  have hc : Real.cos (PI : ℝ) = -Real.cos (Real.pi - PI) := by
    rw [Real.cos_pi_sub, neg_neg]
  have hs : Real.sin (PI : ℝ) = Real.sin (Real.pi - PI) := by
    rw [Real.sin_pi_sub]
  have c1 := Real.cos_le_one (Real.pi - PI)
  have c2 := Real.one_sub_sq_div_two_le_cos (x := Real.pi - PI)
  have s1 := Real.sin_lt hδ0
  have s2 : 0 < Real.sin (Real.pi - PI) :=
    Real.sin_pos_of_pos_of_lt_pi hδ0
      (by have hP : (0 : ℝ) < PI := by unfold PI; norm_num
          linarith)
  constructor
  · rw [hc, abs_le]
    constructor
    · linarith
    · nlinarith
  · rw [hs, abs_le]
    constructor <;> linarith

/-- Rodrigues' matrix applied to a vector orthogonal to the unit axis. -/
theorem rodrigues_mul_perp (c s : ℝ) (w u : Vec3 ℝ)
    (hperp : w.x * u.x + w.y * u.y + w.z * u.z = 0) :
    Matrix3x3.MultiplyVec
      (⟨c + (1 - c) * w.x * w.x, (1 - c) * w.x * w.y - s * w.z, (1 - c) * w.x * w.z + s * w.y,
        (1 - c) * w.y * w.x + s * w.z, c + (1 - c) * w.y * w.y, (1 - c) * w.y * w.z - s * w.x,
        (1 - c) * w.z * w.x - s * w.y, (1 - c) * w.z * w.y + s * w.x,
        c + (1 - c) * w.z * w.z⟩ : Matrix3x3 ℝ) u
      = ⟨c * u.x + s * (w.y * u.z - w.z * u.y),
         c * u.y + s * (w.z * u.x - w.x * u.z),
         c * u.z + s * (w.x * u.y - w.y * u.x)⟩ := by
  simp only [Matrix3x3.MultiplyVec, Vec3.mk.injEq]
  refine ⟨?_, ?_, ?_⟩
  · linear_combination ((1 - c) * w.x) * hperp
  · linear_combination ((1 - c) * w.y) * hperp
  · linear_combination ((1 - c) * w.z) * hperp

/-- A component of `c·u + s·(w × u)` plus the same component of `u` is small
when `c` is close to `-1` and `s` close to `0`. -/
theorem half_turn_component_bound (c s e p q n : ℝ)
    (hc : |1 + c| ≤ e) (hs : |s| ≤ e) (hp : |p| ≤ n) (hq : |q| ≤ n) :
    |c * p + s * q - -p| ≤ 2 * e * n := by
  have he : 0 ≤ e := le_trans (abs_nonneg _) hc
  have h1 : |(1 + c) * p| ≤ e * n := by
    rw [abs_mul]; exact mul_le_mul hc hp (abs_nonneg _) he
  have h2 : |s * q| ≤ e * n := by
    rw [abs_mul]; exact mul_le_mul hs hq (abs_nonneg _) he
  have : c * p + s * q - -p = (1 + c) * p + s * q := by ring
  rw [this]
  calc |(1 + c) * p + s * q| ≤ |(1 + c) * p| + |s * q| := abs_add _ _
    _ ≤ e * n + e * n := add_le_add h1 h2
    _ = 2 * e * n := by ring

/-- The reference axis chosen in the antipodal regime is never parallel to the
unit vector `a`. -/
theorem cross_arbitrary_ne_zero (a : Vec3 ℝ) (ha : a.x * a.x + a.y * a.y + a.z * a.z = 1) :
    Vec3.Cross a (if |a.x| < 9 / 10 then (⟨1, 0, 0⟩ : Vec3 ℝ) else ⟨0, 1, 0⟩)
      ≠ ⟨0, 0, 0⟩ := by
  intro h
  split_ifs at h with hlt
  · simp only [Vec3.Cross, Vec3.mk.injEq] at h
    obtain ⟨-, h2, h3⟩ := h
    have hz : a.z = 0 := by linarith
    have hy : a.y = 0 := by linarith
    rw [abs_lt] at hlt
    rw [hz, hy] at ha
    nlinarith
  · simp only [Vec3.Cross, Vec3.mk.injEq] at h
    obtain ⟨-, -, h3⟩ := h
    have hx : a.x = 0 := by linarith
    apply hlt
    rw [hx]; norm_num

/-- If `x² ≤ n²` with `n ≥ 0` then `|x| ≤ n`. -/
theorem abs_le_of_mul_self_le (x n : ℝ) (hn : 0 ≤ n) (h : x * x ≤ n * n) : |x| ≤ n := by
  rw [abs_le]
  constructor <;> nlinarith

/-- A component of the cross product of a unit vector `w` with `u` is bounded by
the length of `u`. -/
theorem cross_component_bound (p q r s n : ℝ) (hn : 0 ≤ n)
    (hw : p * p + q * q ≤ 1) (hu : r * r + s * s ≤ n * n) :
    |p * s - q * r| ≤ n := by
  apply abs_le_of_mul_self_le _ _ hn
  have h1 : (p * s - q * r) * (p * s - q * r) + (p * r + q * s) * (p * r + q * s)
      = (p * p + q * q) * (r * r + s * s) := by ring
  have h2 := mul_self_nonneg (p * r + q * s)
  have h3 : (p * p + q * q) * (r * r + s * s) ≤ 1 * (n * n) :=
    mul_le_mul hw hu (add_nonneg (mul_self_nonneg _) (mul_self_nonneg _)) (by norm_num)
  linarith

/-- The two-argument arctangent of `(r sin θ, r cos θ)`, read as the argument of
the complex number `r cos θ + i r sin θ`, is `θ` for `r > 0` and `θ ∈ (-π, π]`. -/
theorem arg_mk_cos_sin (r θ : ℝ) (hr : 0 < r) (hθ : θ ∈ Set.Ioc (-Real.pi) Real.pi) :
    Complex.arg ⟨r * Real.cos θ, r * Real.sin θ⟩ = θ := by
  have h := Complex.arg_mul_cos_add_sin_mul_I hr hθ
  have e : (⟨r * Real.cos θ, r * Real.sin θ⟩ : ℂ)
      = (r : ℂ) * (Complex.cos θ + Complex.sin θ * Complex.I) := by
    apply Complex.ext
    · simp [← Complex.ofReal_cos, ← Complex.ofReal_sin]
    · simp [← Complex.ofReal_cos, ← Complex.ofReal_sin]
  rw [e, h]

/-- What `ToAxisAngle` computes on Rodrigues' matrix of a unit axis `u` and an
angle `θ ∈ [0, π]`: the recovered angle is `θ`; below `TOL` the axis is
`(1,0,0)`, and in the general branch it is `u`. -/
theorem toAxisAngle_rodrigues (u : Vec3 ℝ) (θ : ℝ)
    (hu : u.x * u.x + u.y * u.y + u.z * u.z = 1) (h0 : 0 ≤ θ) (hπ : θ ≤ Real.pi) :
    Matrix3x3.ToAxisAngle Real.sqrt Real.sin Real.arccos
      (⟨Real.cos θ + (1 - Real.cos θ) * u.x * u.x,
        (1 - Real.cos θ) * u.x * u.y - Real.sin θ * u.z,
        (1 - Real.cos θ) * u.x * u.z + Real.sin θ * u.y,
        (1 - Real.cos θ) * u.y * u.x + Real.sin θ * u.z,
        Real.cos θ + (1 - Real.cos θ) * u.y * u.y,
        (1 - Real.cos θ) * u.y * u.z - Real.sin θ * u.x,
        (1 - Real.cos θ) * u.z * u.x - Real.sin θ * u.y,
        (1 - Real.cos θ) * u.z * u.y + Real.sin θ * u.x,
        Real.cos θ + (1 - Real.cos θ) * u.z * u.z⟩ : Matrix3x3 ℝ)
      = if |θ| < TOL then .ok (⟨1, 0, 0⟩, θ)
        else if |PI - θ| < TOL then
          (Vec3.Normalize Real.sqrt
            ⟨Real.sqrt ((Real.cos θ + (1 - Real.cos θ) * u.x * u.x + 1) * (1 / 2)),
             if (1 - Real.cos θ) * u.x * u.y - Real.sin θ * u.z
                  + ((1 - Real.cos θ) * u.y * u.x + Real.sin θ * u.z) < 0
             then -Real.sqrt ((Real.cos θ + (1 - Real.cos θ) * u.y * u.y + 1) * (1 / 2))
             else Real.sqrt ((Real.cos θ + (1 - Real.cos θ) * u.y * u.y + 1) * (1 / 2)),
             if (1 - Real.cos θ) * u.x * u.z + Real.sin θ * u.y
                  + ((1 - Real.cos θ) * u.z * u.x - Real.sin θ * u.y) < 0
             then -Real.sqrt ((Real.cos θ + (1 - Real.cos θ) * u.z * u.z + 1) * (1 / 2))
             else Real.sqrt ((Real.cos θ + (1 - Real.cos θ) * u.z * u.z + 1) * (1 / 2))⟩)
            >>= fun axis => pure (axis, θ)
        else .ok (u, θ) := by
  have hex := rodrigues_isExactRotation (Real.cos θ) (Real.sin θ) u.x u.y u.z
    (by have := Real.sin_sq_add_cos_sq θ; nlinarith) hu
  have hrot := isRotation_of_exact hex
  have htr : (Matrix3x3.Trace
      (⟨Real.cos θ + (1 - Real.cos θ) * u.x * u.x,
        (1 - Real.cos θ) * u.x * u.y - Real.sin θ * u.z,
        (1 - Real.cos θ) * u.x * u.z + Real.sin θ * u.y,
        (1 - Real.cos θ) * u.y * u.x + Real.sin θ * u.z,
        Real.cos θ + (1 - Real.cos θ) * u.y * u.y,
        (1 - Real.cos θ) * u.y * u.z - Real.sin θ * u.x,
        (1 - Real.cos θ) * u.z * u.x - Real.sin θ * u.y,
        (1 - Real.cos θ) * u.z * u.y + Real.sin θ * u.x,
        Real.cos θ + (1 - Real.cos θ) * u.z * u.z⟩ : Matrix3x3 ℝ) - 1) * (1 / 2)
      = Real.cos θ := by
    simp only [Matrix3x3.Trace]
    linear_combination ((1 - Real.cos θ) / 2) * hu
  have hacos : Real.arccos (Real.cos θ) = θ := Real.arccos_cos h0 hπ
  simp only [Matrix3x3.ToAxisAngle, hrot, Bool.not_true, Bool.false_eq_true, if_false, htr,
    hacos]
  by_cases c1 : |θ| < TOL
  · simp only [if_pos c1]
  simp only [if_neg c1]
  by_cases c2 : |PI - θ| < TOL
  · simp only [if_pos c2]
  simp only [if_neg c2]
  have c3 : Real.sin θ ≠ 0 := by
    have tp := TOL_pos
    have hθ0 : 0 < θ := by
      rcases h0.lt_or_eq with h | h
      · exact h
      · exfalso; apply c1; rw [← h, abs_zero]; exact tp
    have hθπ : θ < Real.pi := by
      rcases hπ.lt_or_eq with h | h
      · exact h
      · exfalso; apply c2
        have h1 := Real.pi_gt_d20
        have h2 := Real.pi_lt_d20
        rw [h, abs_lt]
        unfold PI TOL
        norm_num at h1 h2 ⊢
        constructor <;> linarith
    exact (Real.sin_pos_of_pos_of_lt_pi hθ0 hθπ).ne'
  have hax : (⟨((1 - Real.cos θ) * u.z * u.y + Real.sin θ * u.x
          - ((1 - Real.cos θ) * u.y * u.z - Real.sin θ * u.x)) / (2 * Real.sin θ),
        ((1 - Real.cos θ) * u.x * u.z + Real.sin θ * u.y
          - ((1 - Real.cos θ) * u.z * u.x - Real.sin θ * u.y)) / (2 * Real.sin θ),
        ((1 - Real.cos θ) * u.y * u.x + Real.sin θ * u.z
          - ((1 - Real.cos θ) * u.x * u.y - Real.sin θ * u.z)) / (2 * Real.sin θ)⟩ : Vec3 ℝ)
      = u := by
    cases u
    simp only [Vec3.mk.injEq]
    refine ⟨?_, ?_, ?_⟩ <;> field_simp <;> ring
  rw [hax, normalize_of_unit u hu]
  rfl

/-- In range, `Normalized` divides by the exact square root of the squared
norm. -/
theorem quat_normalized_eq_of_inRange (q : Quat ℝ) (h : q.InRange) :
    q.Normalized Real.sqrt =
      if Real.sqrt (q.s * q.s + q.x * q.x + q.y * q.y + q.z * q.z) = 0 then
        .error (.invalid_argument "Quat::Normalized: zero norm")
      else .ok
        ⟨q.s / Real.sqrt (q.s * q.s + q.x * q.x + q.y * q.y + q.z * q.z),
         q.x / Real.sqrt (q.s * q.s + q.x * q.x + q.y * q.y + q.z * q.z),
         q.y / Real.sqrt (q.s * q.s + q.x * q.x + q.y * q.y + q.z * q.z),
         q.z / Real.sqrt (q.s * q.s + q.x * q.x + q.y * q.y + q.z * q.z)⟩ := by
  obtain ⟨hlo, hhi⟩ := h
  have h4 := four_underflow_lt
  have c1 : ¬ (q.s * q.s ≤ DBL_UNDERFLOW ∧ q.x * q.x ≤ DBL_UNDERFLOW
      ∧ q.y * q.y ≤ DBL_UNDERFLOW ∧ q.z * q.z ≤ DBL_UNDERFLOW) := by
    rintro ⟨a, b, c, d⟩
    linarith
  have c2 : ¬ (DBL_OVERFLOW ≤ q.s * q.s + q.x * q.x + q.y * q.y + q.z * q.z) := by
    have := lt_overflow
    linarith
  simp only [Quat.Normalized, if_neg c1, if_neg c2]

/-- `Normalized` raises on a quaternion whose squares all underflow, the zero
quaternion among them. -/
theorem quat_normalized_of_underflow (q : Quat ℝ) (hs : q.s * q.s ≤ DBL_UNDERFLOW)
    (hx : q.x * q.x ≤ DBL_UNDERFLOW) (hy : q.y * q.y ≤ DBL_UNDERFLOW)
    (hz : q.z * q.z ≤ DBL_UNDERFLOW) :
    q.Normalized Real.sqrt = .error (.invalid_argument "Quat::Normalized: zero norm") := by
  simp only [Quat.Normalized, if_pos (And.intro hs (And.intro hx (And.intro hy hz))),
    Real.sqrt_zero, if_true]

/-- `Normalized` returns the zero quaternion when the squared norm overflows. -/
theorem quat_normalized_of_overflow (q : Quat ℝ)
    (h : DBL_OVERFLOW ≤ q.s * q.s + q.x * q.x + q.y * q.y + q.z * q.z) :
    q.Normalized Real.sqrt = .ok ⟨0, 0, 0, 0⟩ := by
  have hp := underflow_pos
  have hU : 4 * (DBL_UNDERFLOW : ℝ) < 1 := by
    have := four_underflow_lt
    have h1 : (1 : ℝ) / 10 ^ 300 ≤ 1 := by
      rw [div_le_one (by positivity)]
      exact one_le_pow₀ (by norm_num)
    linarith
  have hO : (1 : ℝ) ≤ DBL_OVERFLOW := by
    unfold DBL_OVERFLOW
    exact one_le_pow₀ (by norm_num)
  have c1 : ¬ (q.s * q.s ≤ DBL_UNDERFLOW ∧ q.x * q.x ≤ DBL_UNDERFLOW
      ∧ q.y * q.y ≤ DBL_UNDERFLOW ∧ q.z * q.z ≤ DBL_UNDERFLOW) := by
    rintro ⟨a, b, c, d⟩
    linarith
  simp only [Quat.Normalized, if_neg c1, if_pos h]

/-- A unit quaternion is in range. -/
theorem quat_inRange_of_unit (q : Quat ℝ)
    (hq : q.s * q.s + q.x * q.x + q.y * q.y + q.z * q.z = 1) : q.InRange := by
  constructor
  · rw [hq, div_le_one (by positivity)]
    exact one_le_pow₀ (by norm_num)
  · rw [hq]
    exact one_le_pow₀ (by norm_num)

/-- A unit quaternion is its own normalization. -/
theorem quat_normalized_of_unit (q : Quat ℝ)
    (hq : q.s * q.s + q.x * q.x + q.y * q.y + q.z * q.z = 1) :
    q.Normalized Real.sqrt = .ok q := by
  simp [quat_normalized_eq_of_inRange q (quat_inRange_of_unit q hq), hq]

/-- The value of `ToMatrix3x3` on a unit quaternion. -/
theorem toMatrix3x3_of_unit (q : Quat ℝ)
    (hq : q.s * q.s + q.x * q.x + q.y * q.y + q.z * q.z = 1) :
    q.ToMatrix3x3 Real.sqrt = .ok
      ⟨1 - 2 * (q.y * q.y + q.z * q.z), 2 * (q.x * q.y - q.s * q.z),
        2 * (q.x * q.z + q.s * q.y),
        2 * (q.x * q.y + q.s * q.z), 1 - 2 * (q.x * q.x + q.z * q.z),
        2 * (q.y * q.z - q.s * q.x),
        2 * (q.x * q.z - q.s * q.y), 2 * (q.y * q.z + q.s * q.x),
        1 - 2 * (q.x * q.x + q.y * q.y)⟩ := by
  simp only [Quat.ToMatrix3x3, quat_normalized_of_unit q hq, bind, Except.bind, pure,
    Except.pure]

/-- The matrix of a unit quaternion is an exact rotation. -/
theorem quatMatrix_isExactRotation (q : Quat ℝ)
    (hq : q.s * q.s + q.x * q.x + q.y * q.y + q.z * q.z = 1) :
    (⟨1 - 2 * (q.y * q.y + q.z * q.z), 2 * (q.x * q.y - q.s * q.z),
        2 * (q.x * q.z + q.s * q.y),
        2 * (q.x * q.y + q.s * q.z), 1 - 2 * (q.x * q.x + q.z * q.z),
        2 * (q.y * q.z - q.s * q.x),
        2 * (q.x * q.z - q.s * q.y), 2 * (q.y * q.z + q.s * q.x),
        1 - 2 * (q.x * q.x + q.y * q.y)⟩ :
      Matrix3x3 ℝ).IsExactRotation := by
  constructor
  · simp only [Matrix3x3.Transposed, Matrix3x3.Multiply, Matrix3x3.Identity,
      Matrix3x3.mk.injEq]
    refine ⟨?_, ?_, ?_, ?_, ?_, ?_, ?_, ?_, ?_⟩
    · linear_combination (4 * q.y ^ 2 + 4 * q.z ^ 2) * hq
    · linear_combination (-4 * q.x * q.y) * hq
    · linear_combination (-4 * q.x * q.z) * hq
    · linear_combination (-4 * q.x * q.y) * hq
    · linear_combination (4 * q.x ^ 2 + 4 * q.z ^ 2) * hq
    · linear_combination (-4 * q.y * q.z) * hq
    · linear_combination (-4 * q.x * q.z) * hq
    · linear_combination (-4 * q.y * q.z) * hq
    · linear_combination (4 * q.x ^ 2 + 4 * q.y ^ 2) * hq
  · simp only [Matrix3x3.Det]
    linear_combination (4 * q.x ^ 2 + 4 * q.y ^ 2 + 4 * q.z ^ 2) * hq

/-- The scaling factor `S` of a branch of `FromMatrix3x3`: `2·√(4p²) = 4|p|`. -/
theorem sqrt_four_sq (e p : ℝ) (h : e = 4 * (p * p)) : Real.sqrt e * 2 = 4 * |p| := by
  have : e = (2 * p) ^ 2 := by rw [h]; ring
  rw [this, Real.sqrt_sq_eq_abs, abs_mul, abs_two]
  ring

/-- Normalizing a candidate that already is `q` or `-q`, for a unit `q`. -/
theorem normalized_of_eq_or_neg (q c : Quat ℝ)
    (hq : q.s * q.s + q.x * q.x + q.y * q.y + q.z * q.z = 1)
    (h : c = q ∨ c = q.neg) :
    ∃ q', c.Normalized Real.sqrt = .ok q' ∧ (q' = q ∨ q' = q.neg) := by
  refine ⟨c, ?_, h⟩
  apply quat_normalized_of_unit
  rcases h with h | h
  · rw [h]; exact hq
  · rw [h]; simp only [Quat.neg]; linear_combination hq

/-- The four-branch extraction applied to the matrix of a unit quaternion `q`
returns `q` or `-q`. -/
theorem fromMatrix3x3_quatMatrix (q : Quat ℝ)
    (hq : q.s * q.s + q.x * q.x + q.y * q.y + q.z * q.z = 1) :
    ∃ q', Quat.FromMatrix3x3 Real.sqrt
        (⟨1 - 2 * (q.y * q.y + q.z * q.z), 2 * (q.x * q.y - q.s * q.z),
        2 * (q.x * q.z + q.s * q.y),
        2 * (q.x * q.y + q.s * q.z), 1 - 2 * (q.x * q.x + q.z * q.z),
        2 * (q.y * q.z - q.s * q.x),
        2 * (q.x * q.z - q.s * q.y), 2 * (q.y * q.z + q.s * q.x),
        1 - 2 * (q.x * q.x + q.y * q.y)⟩ : Matrix3x3 ℝ)
      = .ok q' ∧ (q' = q ∨ q' = q.neg) := by
  have hrot := isRotation_of_exact (quatMatrix_isExactRotation q hq)
  simp only [Quat.FromMatrix3x3, hrot, Bool.not_true, Bool.false_eq_true, if_false]
  obtain ⟨s, x, y, z⟩ := q
  simp only at hq ⊢
  have sx := mul_self_nonneg x
  have sy := mul_self_nonneg y
  have sz := mul_self_nonneg z
  have ss := mul_self_nonneg s
  split_ifs with h1 h2 h3
  · -- trace > 0: the scalar part dominates
    apply normalized_of_eq_or_neg _ _ hq
    have hs : s ≠ 0 := by
      intro h0; rw [h0] at hq; nlinarith
    rw [sqrt_four_sq _ s (by linear_combination (-4) * hq)]
    rcases lt_or_gt_of_ne hs with hneg | hpos
    · right
      rw [abs_of_neg hneg]
      simp only [Quat.neg, Quat.mk.injEq]
      refine ⟨?_, ?_, ?_, ?_⟩ <;> field_simp <;> ring
    · left
      rw [abs_of_pos hpos]
      simp only [Quat.mk.injEq]
      refine ⟨?_, ?_, ?_, ?_⟩ <;> field_simp <;> ring
  · -- m00 is the largest diagonal entry
    apply normalized_of_eq_or_neg _ _ hq
    have hx : x ≠ 0 := by
      intro h0; rw [h0] at h2; nlinarith [h2.1]
    rw [sqrt_four_sq _ x (by ring)]
    rcases lt_or_gt_of_ne hx with hneg | hpos
    · right
      rw [abs_of_neg hneg]
      simp only [Quat.neg, Quat.mk.injEq]
      refine ⟨?_, ?_, ?_, ?_⟩ <;> field_simp <;> ring
    · left
      rw [abs_of_pos hpos]
      simp only [Quat.mk.injEq]
      refine ⟨?_, ?_, ?_, ?_⟩ <;> field_simp <;> ring
  · -- m11 is the largest diagonal entry
    apply normalized_of_eq_or_neg _ _ hq
    have hy : y ≠ 0 := by
      intro h0; rw [h0] at h3; nlinarith
    rw [sqrt_four_sq _ y (by ring)]
    rcases lt_or_gt_of_ne hy with hneg | hpos
    · right
      rw [abs_of_neg hneg]
      simp only [Quat.neg, Quat.mk.injEq]
      refine ⟨?_, ?_, ?_, ?_⟩ <;> field_simp <;> ring
    · left
      rw [abs_of_pos hpos]
      simp only [Quat.mk.injEq]
      refine ⟨?_, ?_, ?_, ?_⟩ <;> field_simp <;> ring
  · -- m22 is the largest diagonal entry
    apply normalized_of_eq_or_neg _ _ hq
    have hz : z ≠ 0 := by
      intro h0
      rw [h0] at h1 h2 h3 hq
      have hy0 : y = 0 := by
        have : y * y ≤ 0 := by nlinarith
        exact mul_self_eq_zero.mp (le_antisymm this sy)
      rw [hy0] at h1 h2 hq
      have hx0 : x = 0 := by
        by_contra hne
        have : 0 < x * x := lt_of_le_of_ne sx (Ne.symm (mul_self_ne_zero.mpr hne))
        apply h2
        constructor <;> nlinarith
      rw [hx0] at h1 hq
      apply h1
      nlinarith
    rw [sqrt_four_sq _ z (by ring)]
    rcases lt_or_gt_of_ne hz with hneg | hpos
    · right
      rw [abs_of_neg hneg]
      simp only [Quat.neg, Quat.mk.injEq]
      refine ⟨?_, ?_, ?_, ?_⟩ <;> field_simp <;> ring
    · left
      rw [abs_of_pos hpos]
      simp only [Quat.mk.injEq]
      refine ⟨?_, ?_, ?_, ?_⟩ <;> field_simp <;> ring

/-- The test `IsAffine` fails exactly when some bottom-row entry is more than
`TOL` away from `(0,0,0,1)`. -/
theorem isAffine_eq_false_iff (M : Matrix4x4 ℝ) :
    M.IsAffine = false ↔
      (|M.m30| > TOL ∨ |M.m31| > TOL ∨ |M.m32| > TOL ∨ |M.m33 - 1| > TOL) := by
  simp only [Matrix4x4.IsAffine]
  by_cases h0 : |M.m30| > TOL
  · simp [h0]
  by_cases h1 : |M.m31| > TOL
  · simp [h0, h1]
  by_cases h2 : |M.m32| > TOL
  · simp [h0, h1, h2]
  by_cases h3 : |M.m33 - 1| > TOL
  · simp [h0, h1, h2, h3]
  simp [h0, h1, h2, h3]

/-- A cosine visibly below `1` has an arc cosine above `TOL`. -/
theorem TOL_lt_arccos (c : ℝ) (hc0 : -1 ≤ c) (hc : c < 1 - TOL ^ 2 / 2) :
    TOL < Real.arccos c := by
  have tp := TOL_pos
  have hcos : 1 - (TOL : ℝ) ^ 2 / 2 ≤ Real.cos TOL := Real.one_sub_sq_div_two_le_cos
  have hlt : c < Real.cos TOL := lt_of_lt_of_le hc hcos
  have hT : (TOL : ℝ) ≤ Real.pi := by
    have := Real.pi_gt_three
    unfold TOL; norm_num; linarith
  have h := Real.strictAntiOn_arccos ⟨hc0, le_trans hlt.le (Real.cos_le_one _)⟩
    ⟨Real.neg_one_le_cos _, Real.cos_le_one _⟩ hlt
  rwa [Real.arccos_cos tp.le hT] at h

/-- The literal `PI` exceeds `π / 2` by more than `TOL`. -/
theorem pi_div_two_add_TOL_lt_PI : Real.pi / 2 + TOL < (PI : ℝ) := by
  have h := Real.pi_lt_d20
  unfold PI TOL
  norm_num at h ⊢
  linarith

/-- The test `IsRotation` succeeds exactly when every entry of `RᵗR` is within
`TOL` of the identity's and the determinant is within `TOL` of `1`. -/
theorem isRotation_iff (A : Matrix3x3 ℝ) :
    A.IsRotation = true ↔
      (|(A.Transposed.Multiply A).m00 - 1| ≤ TOL ∧ |(A.Transposed.Multiply A).m01 - 0| ≤ TOL ∧
       |(A.Transposed.Multiply A).m02 - 0| ≤ TOL ∧ |(A.Transposed.Multiply A).m10 - 0| ≤ TOL ∧
       |(A.Transposed.Multiply A).m11 - 1| ≤ TOL ∧ |(A.Transposed.Multiply A).m12 - 0| ≤ TOL ∧
       |(A.Transposed.Multiply A).m20 - 0| ≤ TOL ∧ |(A.Transposed.Multiply A).m21 - 0| ≤ TOL ∧
       |(A.Transposed.Multiply A).m22 - 1| ≤ TOL ∧ |A.Det - 1| ≤ TOL) := by
  generalize hB : A.Transposed.Multiply A = B
  simp only [Matrix3x3.IsRotation, hB, Matrix3x3.Identity, gt_iff_lt, ← not_le]
  by_cases h0 : |B.m00 - 1| ≤ TOL <;> simp only [h0, not_true, not_false_eq_true,
    if_true, if_false, false_and, true_and, Bool.false_eq_true]
  by_cases h1 : |B.m01 - 0| ≤ TOL <;> simp only [h1, not_true, not_false_eq_true,
    if_true, if_false, false_and, true_and, Bool.false_eq_true]
  by_cases h2 : |B.m02 - 0| ≤ TOL <;> simp only [h2, not_true, not_false_eq_true,
    if_true, if_false, false_and, true_and, Bool.false_eq_true]
  by_cases h3 : |B.m10 - 0| ≤ TOL <;> simp only [h3, not_true, not_false_eq_true,
    if_true, if_false, false_and, true_and, Bool.false_eq_true]
  by_cases h4 : |B.m11 - 1| ≤ TOL <;> simp only [h4, not_true, not_false_eq_true,
    if_true, if_false, false_and, true_and, Bool.false_eq_true]
  by_cases h5 : |B.m12 - 0| ≤ TOL <;> simp only [h5, not_true, not_false_eq_true,
    if_true, if_false, false_and, true_and, Bool.false_eq_true]
  by_cases h6 : |B.m20 - 0| ≤ TOL <;> simp only [h6, not_true, not_false_eq_true,
    if_true, if_false, false_and, true_and, Bool.false_eq_true]
  by_cases h7 : |B.m21 - 0| ≤ TOL <;> simp only [h7, not_true, not_false_eq_true,
    if_true, if_false, false_and, true_and, Bool.false_eq_true]
  by_cases h8 : |B.m22 - 1| ≤ TOL <;> simp only [h8, not_true, not_false_eq_true,
    if_true, if_false, false_and, true_and, Bool.false_eq_true]
  by_cases h9 : |A.Det - 1| ≤ TOL <;> simp only [h9, not_true, not_false_eq_true,
    if_true, if_false, false_and, true_and, Bool.false_eq_true]

/-- In range `Normalized` returns the quaternion divided by a positive `n` with
`n * n` the squared norm, and the result is a unit. -/
theorem quat_normalized_of_inRange (q : Quat ℝ) (hq : q.InRange) :
    ∃ n : ℝ, 0 < n ∧ n * n = q.s * q.s + q.x * q.x + q.y * q.y + q.z * q.z ∧
      q.Normalized Real.sqrt = .ok ⟨q.s / n, q.x / n, q.y / n, q.z / n⟩ ∧
      q.s / n * (q.s / n) + q.x / n * (q.x / n) + q.y / n * (q.y / n)
        + q.z / n * (q.z / n) = 1 := by
  have hd : 0 < q.s * q.s + q.x * q.x + q.y * q.y + q.z * q.z :=
    lt_of_lt_of_le (by positivity) hq.1
  have hn : 0 < Real.sqrt (q.s * q.s + q.x * q.x + q.y * q.y + q.z * q.z) :=
    Real.sqrt_pos.mpr hd
  have hnn := Real.mul_self_sqrt hd.le
  refine ⟨_, hn, hnn, ?_, ?_⟩
  · rw [quat_normalized_eq_of_inRange q hq, if_neg hn.ne']
  · have h2 : Real.sqrt (q.s * q.s + q.x * q.x + q.y * q.y + q.z * q.z) ^ 2
        = q.s * q.s + q.x * q.x + q.y * q.y + q.z * q.z := by rw [sq]; exact hnn
    field_simp [h2]

/-- For unit quaternions `a` and `b`, the product `a · conj b` is a unit and
composing it with `b` gives `a` back. -/
theorem quat_mul_conj (a b : Quat ℝ)
    (ha : a.s * a.s + a.x * a.x + a.y * a.y + a.z * a.z = 1)
    (hb : b.s * b.s + b.x * b.x + b.y * b.y + b.z * b.z = 1) :
    (a.Multiply ⟨b.s, -b.x, -b.y, -b.z⟩).s * (a.Multiply ⟨b.s, -b.x, -b.y, -b.z⟩).s
      + (a.Multiply ⟨b.s, -b.x, -b.y, -b.z⟩).x * (a.Multiply ⟨b.s, -b.x, -b.y, -b.z⟩).x
      + (a.Multiply ⟨b.s, -b.x, -b.y, -b.z⟩).y * (a.Multiply ⟨b.s, -b.x, -b.y, -b.z⟩).y
      + (a.Multiply ⟨b.s, -b.x, -b.y, -b.z⟩).z * (a.Multiply ⟨b.s, -b.x, -b.y, -b.z⟩).z
      = 1 ∧
    (a.Multiply ⟨b.s, -b.x, -b.y, -b.z⟩).Multiply b = a := by
  constructor
  · simp only [Quat.Multiply]
    linear_combination (b.s * b.s + b.x * b.x + b.y * b.y + b.z * b.z) * ha + hb
  · obtain ⟨as, ax, ay, az⟩ := a
    simp only [Quat.Multiply, Quat.mk.injEq]
    refine ⟨?_, ?_, ?_, ?_⟩
    · linear_combination as * hb
    · linear_combination ax * hb
    · linear_combination ay * hb
    · linear_combination az * hb

/-- Half the literal `PI` is so close to `π / 2` that its cosine is within
`1e-20` of `0` and its sine within `1e-20` of `1`. -/
theorem cos_sin_half_PI_bounds :
    |Real.cos ((PI : ℝ) / 2)| ≤ 1 / 100000000000000000000 ∧
    |Real.sin ((PI : ℝ) / 2) - 1| ≤ 1 / 100000000000000000000 := by
  have hlo : (PI : ℝ) < Real.pi := by
    have := Real.pi_gt_d20; unfold PI; norm_num at this ⊢; linarith
  have hhi : Real.pi < (PI : ℝ) + 1 / 100000000000000000000 := by
    have := Real.pi_lt_d20; unfold PI; norm_num at this ⊢; linarith
  have hδ0 : 0 < Real.pi / 2 - (PI : ℝ) / 2 := by linarith
  have hδ1 : Real.pi / 2 - (PI : ℝ) / 2 < 1 / 100000000000000000000 := by linarith
  have hc : Real.cos ((PI : ℝ) / 2) = Real.sin (Real.pi / 2 - PI / 2) := by
    rw [Real.sin_pi_div_two_sub]
  have hs : Real.sin ((PI : ℝ) / 2) = Real.cos (Real.pi / 2 - PI / 2) := by
    rw [Real.cos_pi_div_two_sub]
  have c1 := Real.cos_le_one (Real.pi / 2 - PI / 2)
  have c2 := Real.one_sub_sq_div_two_le_cos (x := Real.pi / 2 - PI / 2)
  have s1 := Real.sin_lt hδ0
  have s2 : 0 < Real.sin (Real.pi / 2 - PI / 2) :=
    Real.sin_pos_of_pos_of_lt_pi hδ0 (by linarith [Real.pi_gt_three])
  constructor
  · rw [hc, abs_le]
    constructor <;> linarith
  · rw [hs, abs_le]
    constructor
    · nlinarith
    · linarith

/-- The cosine that `ToAxisAngle` reads off the trace of Rodrigues' matrix of a
unit axis is `cos θ`. -/
theorem trace_rodrigues (u : Vec3 ℝ) (θ : ℝ)
    (hu : u.x * u.x + u.y * u.y + u.z * u.z = 1) :
    (Matrix3x3.Trace
      (⟨Real.cos θ + (1 - Real.cos θ) * u.x * u.x,
        (1 - Real.cos θ) * u.x * u.y - Real.sin θ * u.z,
        (1 - Real.cos θ) * u.x * u.z + Real.sin θ * u.y,
        (1 - Real.cos θ) * u.y * u.x + Real.sin θ * u.z,
        Real.cos θ + (1 - Real.cos θ) * u.y * u.y,
        (1 - Real.cos θ) * u.y * u.z - Real.sin θ * u.x,
        (1 - Real.cos θ) * u.z * u.x - Real.sin θ * u.y,
        (1 - Real.cos θ) * u.z * u.y + Real.sin θ * u.x,
        Real.cos θ + (1 - Real.cos θ) * u.z * u.z⟩ : Matrix3x3 ℝ) - 1) * (1 / 2)
      = Real.cos θ := by
  simp only [Matrix3x3.Trace]
  linear_combination ((1 - Real.cos θ) / 2) * hu

/-- What `Normalize` returns on a vector in range is a unit vector. -/
theorem unit_of_normalize (v a : Vec3 ℝ) (hv : v.InRange)
    (h : v.Normalize Real.sqrt = .ok a) :
    a.x * a.x + a.y * a.y + a.z * a.z = 1 := by
  obtain ⟨n, hn, hnn, hN⟩ := normalize_of_inRange v hv
  rw [hN] at h
  cases h
  exact unit_of_div v n hn hnn

/-- Lagrange's identity for unit vectors: `|a × b|² = 1 - (a·b)²`. -/
theorem dot_cross_self (a b : Vec3 ℝ) (ha : a.x * a.x + a.y * a.y + a.z * a.z = 1)
    (hb : b.x * b.x + b.y * b.y + b.z * b.z = 1) :
    Vec3.Dot (Vec3.Cross a b) (Vec3.Cross a b) = 1 - Vec3.Dot a b * Vec3.Dot a b := by
  simp only [Vec3.Dot, Vec3.Cross]
  linear_combination (b.x * b.x + b.y * b.y + b.z * b.z) * ha + hb

/-- The closed-form Euler matrix, with each sine/cosine pair on the unit circle,
is an exact rotation. -/
theorem euler_isExactRotation (cy sy cp sp cr sr : ℝ) (hy : sy * sy + cy * cy = 1)
    (hp : sp * sp + cp * cp = 1) (hr : sr * sr + cr * cr = 1) :
    (⟨cy * cp, cy * sp * sr - sy * cr, cy * sp * cr + sy * sr,
      sy * cp, sy * sp * sr + cy * cr, sy * sp * cr - cy * sr,
      -sp, cp * sr, cp * cr⟩ : Matrix3x3 ℝ).IsExactRotation := by
  constructor
  · simp only [Matrix3x3.Transposed, Matrix3x3.Multiply, Matrix3x3.Identity,
      Matrix3x3.mk.injEq]
    refine ⟨?_, ?_, ?_, ?_, ?_, ?_, ?_, ?_, ?_⟩
    · linear_combination (cp ^ 2) * hy + hp
    · linear_combination (cp * sp * sr) * hy
    · linear_combination (cp * cr * sp) * hy
    · linear_combination (cp * sp * sr) * hy
    · linear_combination (cr ^ 2 + sp ^ 2 * sr ^ 2) * hy + (sr ^ 2) * hp + hr
    · linear_combination (cr * sp ^ 2 * sr - cr * sr) * hy + (cr * sr) * hp
    · linear_combination (cp * cr * sp) * hy
    · linear_combination (cr * sp ^ 2 * sr - cr * sr) * hy + (cr * sr) * hp
    · linear_combination (cr ^ 2 * sp ^ 2 + sr ^ 2) * hy + (cr ^ 2) * hp + hr
  · simp only [Matrix3x3.Det]
    linear_combination (cp ^ 2 * cr ^ 2 + cp ^ 2 * sr ^ 2 + cr ^ 2 * sp ^ 2 + sp ^ 2 * sr ^ 2) * hy + (cr ^ 2 + sr ^ 2) * hp + hr

/-- The identity `sin² + cos² = 1` in the product form used by the lemmas. -/
theorem sin_mul_self_add_cos_mul_self (x : ℝ) :
    Real.sin x * Real.sin x + Real.cos x * Real.cos x = 1 := by
  have h := Real.sin_sq_add_cos_sq x
  rw [sq, sq] at h
  exact h

/-- The value of `ToMatrix3x3` in terms of the normalized quaternion. -/
theorem toMatrix3x3_of_normalized (q0 q : Quat ℝ) (h : q0.Normalized Real.sqrt = .ok q) :
    q0.ToMatrix3x3 Real.sqrt = .ok
      ⟨1 - 2 * (q.y * q.y + q.z * q.z), 2 * (q.x * q.y - q.s * q.z),
        2 * (q.x * q.z + q.s * q.y),
        2 * (q.x * q.y + q.s * q.z), 1 - 2 * (q.x * q.x + q.z * q.z),
        2 * (q.y * q.z - q.s * q.x),
        2 * (q.x * q.z - q.s * q.y), 2 * (q.y * q.z + q.s * q.x),
        1 - 2 * (q.x * q.x + q.y * q.y)⟩ := by
  simp only [Quat.ToMatrix3x3, h, bind, Except.bind, pure, Except.pure]

/-- The product of two unit quaternions is a unit quaternion. -/
theorem quat_mul_unit (p r : Quat ℝ)
    (hp : p.s * p.s + p.x * p.x + p.y * p.y + p.z * p.z = 1)
    (hr : r.s * r.s + r.x * r.x + r.y * r.y + r.z * r.z = 1) :
    (p.Multiply r).s * (p.Multiply r).s + (p.Multiply r).x * (p.Multiply r).x
      + (p.Multiply r).y * (p.Multiply r).y + (p.Multiply r).z * (p.Multiply r).z = 1 := by
  simp only [Quat.Multiply]
  linear_combination (r.s ^ 2 + r.x ^ 2 + r.y ^ 2 + r.z ^ 2) * hp + hr

/-- On unit quaternions the matrix of a product is the product of the
matrices. -/
theorem quatMatrix_mul (p r : Quat ℝ)
    (hp : p.s * p.s + p.x * p.x + p.y * p.y + p.z * p.z = 1)
    (hr : r.s * r.s + r.x * r.x + r.y * r.y + r.z * r.z = 1) :
    (⟨1 - 2 * ((p.Multiply r).y * (p.Multiply r).y + (p.Multiply r).z * (p.Multiply r).z), 2 * ((p.Multiply r).x * (p.Multiply r).y - (p.Multiply r).s * (p.Multiply r).z),
        2 * ((p.Multiply r).x * (p.Multiply r).z + (p.Multiply r).s * (p.Multiply r).y),
        2 * ((p.Multiply r).x * (p.Multiply r).y + (p.Multiply r).s * (p.Multiply r).z), 1 - 2 * ((p.Multiply r).x * (p.Multiply r).x + (p.Multiply r).z * (p.Multiply r).z),
        2 * ((p.Multiply r).y * (p.Multiply r).z - (p.Multiply r).s * (p.Multiply r).x),
        2 * ((p.Multiply r).x * (p.Multiply r).z - (p.Multiply r).s * (p.Multiply r).y), 2 * ((p.Multiply r).y * (p.Multiply r).z + (p.Multiply r).s * (p.Multiply r).x),
        1 - 2 * ((p.Multiply r).x * (p.Multiply r).x + (p.Multiply r).y * (p.Multiply r).y)⟩ :
      Matrix3x3 ℝ)
    = Matrix3x3.Multiply
      (⟨1 - 2 * (p.y * p.y + p.z * p.z), 2 * (p.x * p.y - p.s * p.z),
        2 * (p.x * p.z + p.s * p.y),
        2 * (p.x * p.y + p.s * p.z), 1 - 2 * (p.x * p.x + p.z * p.z),
        2 * (p.y * p.z - p.s * p.x),
        2 * (p.x * p.z - p.s * p.y), 2 * (p.y * p.z + p.s * p.x),
        1 - 2 * (p.x * p.x + p.y * p.y)⟩ : Matrix3x3 ℝ)
      ⟨1 - 2 * (r.y * r.y + r.z * r.z), 2 * (r.x * r.y - r.s * r.z),
        2 * (r.x * r.z + r.s * r.y),
        2 * (r.x * r.y + r.s * r.z), 1 - 2 * (r.x * r.x + r.z * r.z),
        2 * (r.y * r.z - r.s * r.x),
        2 * (r.x * r.z - r.s * r.y), 2 * (r.y * r.z + r.s * r.x),
        1 - 2 * (r.x * r.x + r.y * r.y)⟩ := by
  simp only [Quat.Multiply, Matrix3x3.Multiply, Matrix3x3.mk.injEq]
  refine ⟨?_, ?_, ?_, ?_, ?_, ?_, ?_, ?_, ?_⟩
  · linear_combination (-2 * r.y ^ 2 - 2 * r.z ^ 2) * hp + (-2 * p.y ^ 2 - 2 * p.z ^ 2) * hr
  · linear_combination (-2 * r.s * r.z + 2 * r.x * r.y) * hp + (-2 * p.s * p.z + 2 * p.x * p.y)
      * hr
  · linear_combination (2 * r.s * r.y + 2 * r.x * r.z) * hp + (2 * p.s * p.y + 2 * p.x * p.z) *
      hr
  · linear_combination (2 * r.s * r.z + 2 * r.x * r.y) * hp + (2 * p.s * p.z + 2 * p.x * p.y) *
      hr
  · linear_combination (-2 * r.x ^ 2 - 2 * r.z ^ 2) * hp + (-2 * p.x ^ 2 - 2 * p.z ^ 2) * hr
  · linear_combination (-2 * r.s * r.x + 2 * r.y * r.z) * hp + (-2 * p.s * p.x + 2 * p.y * p.z)
      * hr
  · linear_combination (-2 * r.s * r.y + 2 * r.x * r.z) * hp + (-2 * p.s * p.y + 2 * p.x * p.z)
      * hr
  · linear_combination (2 * r.s * r.x + 2 * r.y * r.z) * hp + (2 * p.s * p.x + 2 * p.y * p.z) *
      hr
  · linear_combination (-2 * r.x ^ 2 - 2 * r.y ^ 2) * hp + (-2 * p.x ^ 2 - 2 * p.y ^ 2) * hr

/-- Normalizing a product of quaternions that is in range gives the product of
the normalized factors. -/
theorem quat_normalized_mul (a b : Quat ℝ) (n m : ℝ) (hn : 0 < n) (hm : 0 < m)
    (hnn : n * n = a.s * a.s + a.x * a.x + a.y * a.y + a.z * a.z)
    (hmm : m * m = b.s * b.s + b.x * b.x + b.y * b.y + b.z * b.z)
    (hab : (a.Multiply b).InRange) :
    (a.Multiply b).Normalized Real.sqrt = .ok
      (Quat.Multiply ⟨a.s / n, a.x / n, a.y / n, a.z / n⟩
        ⟨b.s / m, b.x / m, b.y / m, b.z / m⟩) := by
  have hnm : 0 < n * m := mul_pos hn hm
  have hsq : (a.Multiply b).s * (a.Multiply b).s + (a.Multiply b).x * (a.Multiply b).x
      + (a.Multiply b).y * (a.Multiply b).y + (a.Multiply b).z * (a.Multiply b).z
      = (n * m) * (n * m) := by
    simp only [Quat.Multiply]
    linear_combination (-(b.s * b.s + b.x * b.x + b.y * b.y + b.z * b.z)) * hnn
      - (n * n) * hmm
  have hsqrt : Real.sqrt ((a.Multiply b).s * (a.Multiply b).s
      + (a.Multiply b).x * (a.Multiply b).x
      + (a.Multiply b).y * (a.Multiply b).y + (a.Multiply b).z * (a.Multiply b).z)
      = n * m := by
    rw [hsq, Real.sqrt_mul_self hnm.le]
  rw [quat_normalized_eq_of_inRange _ hab]
  simp only [hsqrt, if_neg hnm.ne', Except.ok.injEq]
  simp only [Quat.Multiply, Quat.mk.injEq]
  refine ⟨?_, ?_, ?_, ?_⟩ <;> field_simp

/-- Column relations read off `RᵗR = I` alone. -/
theorem orthonormal_cols {R : Matrix3x3 ℝ}
    (h : R.Transposed.Multiply R = Matrix3x3.Identity) :
    (R.m00 * R.m00 + R.m10 * R.m10 + R.m20 * R.m20 = 1 ∧
     R.m01 * R.m01 + R.m11 * R.m11 + R.m21 * R.m21 = 1 ∧
     R.m02 * R.m02 + R.m12 * R.m12 + R.m22 * R.m22 = 1) ∧
    (R.m00 * R.m01 + R.m10 * R.m11 + R.m20 * R.m21 = 0 ∧
     R.m00 * R.m02 + R.m10 * R.m12 + R.m20 * R.m22 = 0 ∧
     R.m01 * R.m02 + R.m11 * R.m12 + R.m21 * R.m22 = 0) := by
  simp only [Matrix3x3.Transposed, Matrix3x3.Multiply, Matrix3x3.Identity,
    Matrix3x3.mk.injEq, zero_add] at h
  obtain ⟨a, b, c, -, e, f, -, -, i⟩ := h
  exact ⟨⟨a, e, i⟩, b, c, f⟩

/-- Determinant of the column-normalized block `R·diag(s)` for an orthonormal
`R` of determinant `δ = ±1`. -/
theorem det_normalized_block (R : Matrix3x3 ℝ) (s : Vec3 ℝ) (δ : ℝ) (hD : R.Det = δ)
    (hδ : δ = 1 ∨ δ = -1) (hx : s.x ≠ 0) (hy : s.y ≠ 0) (hz : s.z ≠ 0) :
    Matrix3x3.Det
      (⟨R.m00 * s.x / |s.x|, R.m01 * s.y / |s.y|, R.m02 * s.z / |s.z|,
        R.m10 * s.x / |s.x|, R.m11 * s.y / |s.y|, R.m12 * s.z / |s.z|,
        R.m20 * s.x / |s.x|, R.m21 * s.y / |s.y|, R.m22 * s.z / |s.z|⟩ : Matrix3x3 ℝ)
      = if δ * (s.x * s.y * s.z) < 0 then -1 else 1 := by
  have hd : R.m00 * (R.m11 * R.m22 - R.m12 * R.m21)
      - R.m01 * (R.m10 * R.m22 - R.m12 * R.m20)
      + R.m02 * (R.m10 * R.m21 - R.m11 * R.m20) = δ := by
    simpa [Matrix3x3.Det] using hD
  have key : Matrix3x3.Det
      (⟨R.m00 * s.x / |s.x|, R.m01 * s.y / |s.y|, R.m02 * s.z / |s.z|,
        R.m10 * s.x / |s.x|, R.m11 * s.y / |s.y|, R.m12 * s.z / |s.z|,
        R.m20 * s.x / |s.x|, R.m21 * s.y / |s.y|, R.m22 * s.z / |s.z|⟩ : Matrix3x3 ℝ)
      = δ * (s.x * s.y * s.z) / |s.x * s.y * s.z| := by
    simp only [Matrix3x3.Det, abs_mul]
    linear_combination (s.x * s.y * s.z / (|s.x| * |s.y| * |s.z|)) * hd
  rw [key]
  have hp : s.x * s.y * s.z ≠ 0 := mul_ne_zero (mul_ne_zero hx hy) hz
  rcases hδ with h1 | h1
  · rw [h1, one_mul]
    split_ifs with hneg
    · rw [abs_of_neg hneg]; field_simp
    · have hpos : 0 < s.x * s.y * s.z := lt_of_le_of_ne (not_lt.mp hneg) (Ne.symm hp)
      rw [abs_of_pos hpos]; field_simp
  · rw [h1]
    split_ifs with hneg
    · have hpos : 0 < s.x * s.y * s.z := by linarith
      rw [abs_of_pos hpos]; field_simp
    · have hneg' : s.x * s.y * s.z < 0 :=
        lt_of_le_of_ne (by linarith [not_lt.mp hneg]) hp
      rw [abs_of_neg hneg']; field_simp

/-- What `GetScale` returns on an affine matrix whose block is `R·diag(s)` with
`R` orthonormal of determinant `δ = ±1` and no `|s_i|` below `TOL`. -/
theorem getScale_of_block (M : Matrix4x4 ℝ) (R : Matrix3x3 ℝ) (s : Vec3 ℝ) (δ : ℝ)
    (hA : M.IsAffine = true)
    (hB : (⟨M.m00, M.m01, M.m02, M.m10, M.m11, M.m12, M.m20, M.m21, M.m22⟩ : Matrix3x3 ℝ) =
        ⟨R.m00 * s.x, R.m01 * s.y, R.m02 * s.z,
         R.m10 * s.x, R.m11 * s.y, R.m12 * s.z,
         R.m20 * s.x, R.m21 * s.y, R.m22 * s.z⟩)
    (hO : R.Transposed.Multiply R = Matrix3x3.Identity) (hD : R.Det = δ)
    (hδ : δ = 1 ∨ δ = -1)
    (hx : TOL ≤ |s.x|) (hy : TOL ≤ |s.y|) (hz : TOL ≤ |s.z|)
    (ux : |s.x| ≤ 10 ^ 150) (uy : |s.y| ≤ 10 ^ 150) (uz : |s.z| ≤ 10 ^ 150) :
    M.GetScale Real.sqrt =
      .ok ⟨if δ * (s.x * s.y * s.z) < 0 then -|s.x| else |s.x|, |s.y|, |s.z|⟩ := by
  obtain ⟨⟨c0, c1, c2⟩, -⟩ := orthonormal_cols hO
  have tp := TOL_pos
  have hx0 : s.x ≠ 0 := abs_pos.mp (lt_of_lt_of_le tp hx)
  have hy0 : s.y ≠ 0 := abs_pos.mp (lt_of_lt_of_le tp hy)
  have hz0 : s.z ≠ 0 := abs_pos.mp (lt_of_lt_of_le tp hz)
  have hd := det_normalized_block R s δ hD hδ hx0 hy0 hz0
  have n0 := norm_scaled_col R.m00 R.m10 R.m20 s.x c0 (le_trans range_lo_le_TOL hx) ux
  have n1 := norm_scaled_col R.m01 R.m11 R.m21 s.y c1 (le_trans range_lo_le_TOL hy) uy
  have n2 := norm_scaled_col R.m02 R.m12 R.m22 s.z c2 (le_trans range_lo_le_TOL hz) uz
  simp only [Matrix3x3.mk.injEq] at hB
  obtain ⟨b00, b01, b02, b10, b11, b12, b20, b21, b22⟩ := hB
  have hcond : ¬ (|s.x| < TOL ∨ |s.y| < TOL ∨ |s.z| < TOL) := by
    push_neg; exact ⟨hx, hy, hz⟩
  simp only [Matrix4x4.GetScale, hA, Bool.not_true, Bool.false_eq_true, if_false,
    b00, b01, b02, b10, b11, b12, b20, b21, b22, n0, n1, n2, hd, if_neg hcond]
  by_cases hneg : δ * (s.x * s.y * s.z) < 0
  · simp [hneg, tp]
  · have : ¬ (|(1 : ℝ) + 1| < TOL) := by unfold TOL; norm_num
    simp [hneg, this]

/-- On an affine matrix with a block column whose squared length reaches
`2^1024`, `GetScale` has an infinite component. -/
theorem getScale_of_overflow (M : Matrix4x4 ℝ) (hA : M.IsAffine = true)
    (h : Vec3.Norm Real.sqrt ⟨M.m00, M.m10, M.m20⟩ = .infinite
      ∨ Vec3.Norm Real.sqrt ⟨M.m01, M.m11, M.m21⟩ = .infinite
      ∨ Vec3.Norm Real.sqrt ⟨M.m02, M.m12, M.m22⟩ = .infinite) :
    M.GetScale Real.sqrt = .error .non_finite := by
  simp only [Matrix4x4.GetScale, hA, Bool.not_true, Bool.false_eq_true, if_false]
  cases h0 : Vec3.Norm Real.sqrt ⟨M.m00, M.m10, M.m20⟩ <;>
    cases h1 : Vec3.Norm Real.sqrt ⟨M.m01, M.m11, M.m21⟩ <;>
    cases h2 : Vec3.Norm Real.sqrt ⟨M.m02, M.m12, M.m22⟩ <;>
    simp_all

/-- Flipping the signs of the columns of an orthonormal matrix of determinant
`δ` by `e0`, `e1`, `e2 = ±1` with `δ·e0·e1·e2 = 1` gives an exact rotation. -/
theorem signed_cols_isExactRotation (R : Matrix3x3 ℝ) (e0 e1 e2 δ : ℝ)
    (hO : R.Transposed.Multiply R = Matrix3x3.Identity) (hD : R.Det = δ)
    (h0 : e0 * e0 = 1) (h1 : e1 * e1 = 1) (h2 : e2 * e2 = 1)
    (hprod : δ * (e0 * e1 * e2) = 1) :
    (⟨R.m00 * e0, R.m01 * e1, R.m02 * e2,
      R.m10 * e0, R.m11 * e1, R.m12 * e2,
      R.m20 * e0, R.m21 * e1, R.m22 * e2⟩ : Matrix3x3 ℝ).IsExactRotation := by
  obtain ⟨⟨c0, c1, c2⟩, c01, c02, c12⟩ := orthonormal_cols hO
  have hd : R.m00 * (R.m11 * R.m22 - R.m12 * R.m21)
      - R.m01 * (R.m10 * R.m22 - R.m12 * R.m20)
      + R.m02 * (R.m10 * R.m21 - R.m11 * R.m20) = δ := by
    simpa [Matrix3x3.Det] using hD
  constructor
  · simp only [Matrix3x3.Transposed, Matrix3x3.Multiply, Matrix3x3.Identity,
      Matrix3x3.mk.injEq]
    refine ⟨?_, ?_, ?_, ?_, ?_, ?_, ?_, ?_, ?_⟩
    · linear_combination (e0 * e0) * c0 + h0
    · linear_combination (e0 * e1) * c01
    · linear_combination (e0 * e2) * c02
    · linear_combination (e0 * e1) * c01
    · linear_combination (e1 * e1) * c1 + h1
    · linear_combination (e1 * e2) * c12
    · linear_combination (e0 * e2) * c02
    · linear_combination (e1 * e2) * c12
    · linear_combination (e2 * e2) * c2 + h2
  · simp only [Matrix3x3.Det]
    linear_combination (e0 * e1 * e2) * hd + hprod

/-- `GetRotationScale` returns a matrix exactly when the input is affine, and
then it is the 3×3 block. -/
theorem getRotationScale_eq_ok (M : Matrix4x4 ℝ) (X : Matrix3x3 ℝ)
    (h : M.GetRotationScale = .ok X) :
    M.IsAffine = true ∧ (⟨M.m00, M.m01, M.m02, M.m10, M.m11, M.m12, M.m20, M.m21, M.m22⟩ : Matrix3x3 ℝ) = X := by
  by_cases hA : M.IsAffine = true
  · simp only [Matrix4x4.GetRotationScale, hA, Bool.not_true, Bool.false_eq_true, if_false,
      Except.ok.injEq] at h
    exact ⟨hA, h⟩
  · have hA' : M.IsAffine = false := by simpa using hA
    simp only [Matrix4x4.GetRotationScale, hA', Bool.not_false, if_true] at h
    cases h

/-- What `GetRotation` returns once `GetScale` is known and no scale component is
below `TOL` in magnitude: the block with each column divided by its scale. -/
theorem getRotation_of_getScale (M : Matrix4x4 ℝ) (sc : Vec3 ℝ) (hA : M.IsAffine = true)
    (hS : M.GetScale Real.sqrt = .ok sc)
    (hx : TOL ≤ |sc.x|) (hy : TOL ≤ |sc.y|) (hz : TOL ≤ |sc.z|) :
    M.GetRotation Real.sqrt = .ok
      ⟨M.m00 / sc.x, M.m01 / sc.y, M.m02 / sc.z,
       M.m10 / sc.x, M.m11 / sc.y, M.m12 / sc.z,
       M.m20 / sc.x, M.m21 / sc.y, M.m22 / sc.z⟩ := by
  have hc : ¬ (|sc.x| < TOL ∨ |sc.y| < TOL ∨ |sc.z| < TOL) := by
    push_neg; exact ⟨hx, hy, hz⟩
  simp only [Matrix4x4.GetRotation, hA, Bool.not_true, Bool.false_eq_true, if_false, hS,
    bind, Except.bind, if_neg hc, pure, Except.pure]

/-- The decomposition of an affine matrix with block `R·diag(s)`, `R`
orthonormal, once `GetScale` is known to return `(σ, |s.y|, |s.z|)` with
`|σ| = |s.x|` and the sign of `σ` compensating the orientation: `GetRotation`
is an exact rotation and rescaling its columns gives the block back. -/
theorem block_decomposition (M : Matrix4x4 ℝ) (R : Matrix3x3 ℝ) (s : Vec3 ℝ) (σ : ℝ)
    (hA : M.IsAffine = true)
    (hB : (⟨M.m00, M.m01, M.m02, M.m10, M.m11, M.m12, M.m20, M.m21, M.m22⟩ : Matrix3x3 ℝ) =
        ⟨R.m00 * s.x, R.m01 * s.y, R.m02 * s.z,
         R.m10 * s.x, R.m11 * s.y, R.m12 * s.z,
         R.m20 * s.x, R.m21 * s.y, R.m22 * s.z⟩)
    (hO : R.Transposed.Multiply R = Matrix3x3.Identity)
    (hS : M.GetScale Real.sqrt = .ok ⟨σ, |s.y|, |s.z|⟩)
    (hσ : |σ| = |s.x|)
    (hprod : R.Det * (s.x / σ * (s.y / |s.y|) * (s.z / |s.z|)) = 1)
    (hx : TOL ≤ |s.x|) (hy : TOL ≤ |s.y|) (hz : TOL ≤ |s.z|) :
    ∃ Rot sc, M.GetRotation Real.sqrt = .ok Rot ∧ M.GetScale Real.sqrt = .ok sc ∧
      Rot.IsRotation = true ∧
      Rot.Transposed.Multiply Rot = Matrix3x3.Identity ∧ Rot.Det = 1 ∧
      M.GetRotationScale = .ok
        ⟨Rot.m00 * sc.x, Rot.m01 * sc.y, Rot.m02 * sc.z,
         Rot.m10 * sc.x, Rot.m11 * sc.y, Rot.m12 * sc.z,
         Rot.m20 * sc.x, Rot.m21 * sc.y, Rot.m22 * sc.z⟩ := by
  have tp := TOL_pos
  have ax : |s.x| ≠ 0 := (lt_of_lt_of_le tp hx).ne'
  have ay : |s.y| ≠ 0 := (lt_of_lt_of_le tp hy).ne'
  have az : |s.z| ≠ 0 := (lt_of_lt_of_le tp hz).ne'
  have hσ0 : σ ≠ 0 := by
    intro h0; rw [h0, abs_zero] at hσ; exact ax hσ.symm
  have hσσ : σ * σ = s.x * s.x := by
    rw [← abs_mul_abs_self σ, hσ, abs_mul_abs_self]
  have hRot := getRotation_of_getScale M ⟨σ, |s.y|, |s.z|⟩ hA hS
    (by rw [hσ]; exact hx) (by rw [abs_abs]; exact hy) (by rw [abs_abs]; exact hz)
  have e0 : s.x / σ * (s.x / σ) = 1 := by
    rw [div_mul_div_comm, ← hσσ, div_self (mul_ne_zero hσ0 hσ0)]
  have e1 : s.y / |s.y| * (s.y / |s.y|) = 1 := by
    rw [div_mul_div_comm, abs_mul_abs_self, div_self]
    exact mul_ne_zero (abs_ne_zero.mp ay) (abs_ne_zero.mp ay)
  have e2 : s.z / |s.z| * (s.z / |s.z|) = 1 := by
    rw [div_mul_div_comm, abs_mul_abs_self, div_self]
    exact mul_ne_zero (abs_ne_zero.mp az) (abs_ne_zero.mp az)
  have hex := signed_cols_isExactRotation R (s.x / σ) (s.y / |s.y|) (s.z / |s.z|) R.Det hO rfl
    e0 e1 e2 hprod
  simp only [Matrix3x3.mk.injEq] at hB
  obtain ⟨b00, b01, b02, b10, b11, b12, b20, b21, b22⟩ := hB
  simp only [b00, b01, b02, b10, b11, b12, b20, b21, b22, mul_div_assoc] at hRot
  refine ⟨_, _, hRot, hS, isRotation_of_exact hex, hex.1, hex.2, ?_⟩
  simp only [Matrix4x4.GetRotationScale, hA, Bool.not_true, Bool.false_eq_true, if_false,
    b00, b01, b02, b10, b11, b12, b20, b21, b22, Except.ok.injEq, Matrix3x3.mk.injEq]
  refine ⟨?_, ?_, ?_, ?_, ?_, ?_, ?_, ?_, ?_⟩ <;> field_simp

/-- An exact rotation equals its cofactor matrix. -/
theorem Matrix3x3.IsExactRotation.cofactors {R : Matrix3x3 ℝ} (h : R.IsExactRotation) :
    (R.m11 * R.m22 - R.m12 * R.m21 = R.m00 ∧
     R.m12 * R.m20 - R.m10 * R.m22 = R.m01 ∧
     R.m10 * R.m21 - R.m11 * R.m20 = R.m02) ∧
    (R.m02 * R.m21 - R.m01 * R.m22 = R.m10 ∧
     R.m00 * R.m22 - R.m02 * R.m20 = R.m11 ∧
     R.m01 * R.m20 - R.m00 * R.m21 = R.m12) ∧
    (R.m01 * R.m12 - R.m02 * R.m11 = R.m20 ∧
     R.m02 * R.m10 - R.m00 * R.m12 = R.m21 ∧
     R.m00 * R.m11 - R.m01 * R.m10 = R.m22) := by
  obtain ⟨⟨r00, r11, r22⟩, r01, r02, r12⟩ := h.rows
  have hd := h.det_eq
  refine ⟨⟨?_, ?_, ?_⟩, ⟨?_, ?_, ?_⟩, ⟨?_, ?_, ?_⟩⟩
  · linear_combination R.m00 * hd - (R.m11 * R.m22 - R.m12 * R.m21) * r00 - (R.m02 * R.m21 - R.m01 * R.m22) * r01 - (R.m01 * R.m12 - R.m02 * R.m11) * r02
  · linear_combination R.m01 * hd - (R.m12 * R.m20 - R.m10 * R.m22) * r00 - (R.m00 * R.m22 - R.m02 * R.m20) * r01 - (R.m02 * R.m10 - R.m00 * R.m12) * r02
  · linear_combination R.m02 * hd - (R.m10 * R.m21 - R.m11 * R.m20) * r00 - (R.m01 * R.m20 - R.m00 * R.m21) * r01 - (R.m00 * R.m11 - R.m01 * R.m10) * r02
  · linear_combination R.m10 * hd - (R.m11 * R.m22 - R.m12 * R.m21) * r01 - (R.m02 * R.m21 - R.m01 * R.m22) * r11 - (R.m01 * R.m12 - R.m02 * R.m11) * r12
  · linear_combination R.m11 * hd - (R.m12 * R.m20 - R.m10 * R.m22) * r01 - (R.m00 * R.m22 - R.m02 * R.m20) * r11 - (R.m02 * R.m10 - R.m00 * R.m12) * r12
  · linear_combination R.m12 * hd - (R.m10 * R.m21 - R.m11 * R.m20) * r01 - (R.m01 * R.m20 - R.m00 * R.m21) * r11 - (R.m00 * R.m11 - R.m01 * R.m10) * r12
  · linear_combination R.m20 * hd - (R.m11 * R.m22 - R.m12 * R.m21) * r02 - (R.m02 * R.m21 - R.m01 * R.m22) * r12 - (R.m01 * R.m12 - R.m02 * R.m11) * r22
  · linear_combination R.m21 * hd - (R.m12 * R.m20 - R.m10 * R.m22) * r02 - (R.m00 * R.m22 - R.m02 * R.m20) * r12 - (R.m02 * R.m10 - R.m00 * R.m12) * r22
  · linear_combination R.m22 * hd - (R.m10 * R.m21 - R.m11 * R.m20) * r02 - (R.m01 * R.m20 - R.m00 * R.m21) * r12 - (R.m00 * R.m11 - R.m01 * R.m10) * r22

/-- The products of the components of a candidate built on the pivot
`S = 2·√D`, `D > 0`: the pivot component is `S/4`, the others are `w/S`. -/
theorem pivot_products (D S : ℝ) (hD : 0 < D) (hS : S = Real.sqrt D * 2) :
    S ≠ 0 ∧ (1 / 4 * S) * (1 / 4 * S) = D / 4 ∧
      (∀ w : ℝ, (1 / 4 * S) * (w / S) = w / 4) ∧
      (∀ w w' k : ℝ, w * w' = D * k → (w / S) * (w' / S) = k / 4) := by
  have hpos : 0 < S := by
    rw [hS]
    exact mul_pos (Real.sqrt_pos.mpr hD) (by norm_num)
  have hSS : S * S = 4 * D := by
    rw [hS]
    linear_combination 4 * Real.mul_self_sqrt hD.le
  refine ⟨hpos.ne', ?_, ?_, ?_⟩
  · linear_combination (1 / 16) * hSS
  · intro w
    field_simp
    ring
  · intro w w' k h
    rw [div_mul_div_comm, h, hSS]
    field_simp
    ring

/-- The four-branch extraction on an exact rotation returns a unit quaternion
whose matrix is the input; the pivot of the branch taken is positive. -/
theorem fromMatrix3x3_of_exact (R : Matrix3x3 ℝ) (hR : R.IsExactRotation) :
    ∃ q : Quat ℝ, Quat.FromMatrix3x3 Real.sqrt R = .ok q ∧
      q.s * q.s + q.x * q.x + q.y * q.y + q.z * q.z = 1 ∧
      (⟨1 - 2 * (q.y * q.y + q.z * q.z), 2 * (q.x * q.y - q.s * q.z),
        2 * (q.x * q.z + q.s * q.y),
        2 * (q.x * q.y + q.s * q.z), 1 - 2 * (q.x * q.x + q.z * q.z),
        2 * (q.y * q.z - q.s * q.x),
        2 * (q.x * q.z - q.s * q.y), 2 * (q.y * q.z + q.s * q.x),
        1 - 2 * (q.x * q.x + q.y * q.y)⟩ : Matrix3x3 ℝ) = R := by
  have hrot := isRotation_of_exact hR
  obtain ⟨⟨r00, r11, r22⟩, r01, r02, r12⟩ := hR.rows
  obtain ⟨⟨c00, c11, c22⟩, c01, c02, c12⟩ := hR.cols
  obtain ⟨⟨f00, f01, f02⟩, ⟨f10, f11, f12⟩, ⟨f20, f21, f22⟩⟩ := hR.cofactors
  have key : ∀ c : Quat ℝ, c.s * c.s + c.x * c.x + c.y * c.y + c.z * c.z = 1 →
      (⟨1 - 2 * (c.y * c.y + c.z * c.z), 2 * (c.x * c.y - c.s * c.z),
        2 * (c.x * c.z + c.s * c.y),
        2 * (c.x * c.y + c.s * c.z), 1 - 2 * (c.x * c.x + c.z * c.z),
        2 * (c.y * c.z - c.s * c.x),
        2 * (c.x * c.z - c.s * c.y), 2 * (c.y * c.z + c.s * c.x),
        1 - 2 * (c.x * c.x + c.y * c.y)⟩ : Matrix3x3 ℝ) = R →
      ∃ q : Quat ℝ, c.Normalized Real.sqrt = .ok q ∧
        q.s * q.s + q.x * q.x + q.y * q.y + q.z * q.z = 1 ∧
        (⟨1 - 2 * (q.y * q.y + q.z * q.z), 2 * (q.x * q.y - q.s * q.z),
          2 * (q.x * q.z + q.s * q.y),
          2 * (q.x * q.y + q.s * q.z), 1 - 2 * (q.x * q.x + q.z * q.z),
          2 * (q.y * q.z - q.s * q.x),
          2 * (q.x * q.z - q.s * q.y), 2 * (q.y * q.z + q.s * q.x),
          1 - 2 * (q.x * q.x + q.y * q.y)⟩ : Matrix3x3 ℝ) = R :=
    fun c h1 h2 => ⟨c, quat_normalized_of_unit c h1, h1, h2⟩
  simp only [Quat.FromMatrix3x3, hrot, Bool.not_true, Bool.false_eq_true, if_false]
  obtain ⟨m00, m01, m02, m10, m11, m12, m20, m21, m22⟩ := R
  simp only at r00 r11 r22 r01 r02 r12 c00 c11 c22 c01 c02 c12
  simp only at f00 f01 f02 f10 f11 f12 f20 f21 f22 key ⊢
  split_ifs with h1 h2 h3
  · -- trace > 0: pivot on the scalar part
    have hD : 0 < m00 + m11 + m22 + 1 := by
      linarith
    obtain ⟨-, p0, p1, p2⟩ := pivot_products _ _ hD rfl
    have q01 := p1 (m21 - m12)
    have q02 := p1 (m02 - m20)
    have q03 := p1 (m10 - m01)
    have q11 := p2 (m21 - m12) (m21 - m12) (1 + m00 - m11 - m22)
      (by linear_combination -c00 + r11 + r22 + 2 * f00)
    have q12 := p2 (m21 - m12) (m02 - m20) (m01 + m10)
      (by linear_combination -r01 - c01 + f01 + f10)
    have q13 := p2 (m21 - m12) (m10 - m01) (m02 + m20)
      (by linear_combination -r02 - c02 + f02 + f20)
    have q22 := p2 (m02 - m20) (m02 - m20) (1 - m00 + m11 - m22)
      (by linear_combination r00 - c11 + r22 + 2 * f11)
    have q23 := p2 (m02 - m20) (m10 - m01) (m12 + m21)
      (by linear_combination -r12 - c12 + f12 + f21)
    have q33 := p2 (m10 - m01) (m10 - m01) (1 - m00 - m11 + m22)
      (by linear_combination c00 + c11 - r22 + 2 * f22)
    apply key
    · simp only
      linear_combination p0 + q11 + q22 + q33
    · simp only [Matrix3x3.mk.injEq]
      refine ⟨?_, ?_, ?_, ?_, ?_, ?_, ?_, ?_, ?_⟩
      · linear_combination -2 * q22 - 2 * q33
      · linear_combination 2 * q12 - 2 * q03
      · linear_combination 2 * q13 + 2 * q02
      · linear_combination 2 * q12 + 2 * q03
      · linear_combination -2 * q11 - 2 * q33
      · linear_combination 2 * q23 - 2 * q01
      · linear_combination 2 * q13 - 2 * q02
      · linear_combination 2 * q23 + 2 * q01
      · linear_combination -2 * q11 - 2 * q22
  · -- m00 is the largest diagonal entry
    have hD : 0 < 1 + m00 - m11 - m22 := by
      obtain ⟨ha, hb⟩ := h2
      linarith
    obtain ⟨-, p0, p1, p2⟩ := pivot_products _ _ hD rfl
    have q01 := p1 (m21 - m12)
    have q12 := p1 (m01 + m10)
    have q13 := p1 (m02 + m20)
    have q00 := p2 (m21 - m12) (m21 - m12) (m00 + m11 + m22 + 1)
      (by linear_combination -c00 + r11 + r22 + 2 * f00)
    have q02 := p2 (m21 - m12) (m01 + m10) (m02 - m20)
      (by linear_combination r02 - c02 + f02 - f20)
    have q03 := p2 (m21 - m12) (m02 + m20) (m10 - m01)
      (by linear_combination -r01 + c01 - f01 + f10)
    have q22 := p2 (m01 + m10) (m01 + m10) (1 - m00 + m11 - m22)
      (by linear_combination c00 + c11 - r22 - 2 * f22)
    have q23 := p2 (m01 + m10) (m02 + m20) (m12 + m21)
      (by linear_combination r12 + c12 + f12 + f21)
    have q33 := p2 (m02 + m20) (m02 + m20) (1 - m00 - m11 + m22)
      (by linear_combination r00 - c11 + r22 - 2 * f11)
    apply key
    · simp only
      linear_combination q00 + p0 + q22 + q33
    · simp only [Matrix3x3.mk.injEq]
      refine ⟨?_, ?_, ?_, ?_, ?_, ?_, ?_, ?_, ?_⟩
      · linear_combination -2 * q22 - 2 * q33
      · linear_combination 2 * q12 - 2 * q03
      · linear_combination 2 * q13 + 2 * q02
      · linear_combination 2 * q12 + 2 * q03
      · linear_combination -2 * p0 - 2 * q33
      · linear_combination 2 * q23 - 2 * q01
      · linear_combination 2 * q13 - 2 * q02
      · linear_combination 2 * q23 + 2 * q01
      · linear_combination -2 * p0 - 2 * q22
  · -- m11 is the largest diagonal entry
    have hD : 0 < 1 - m00 + m11 - m22 := by
      rcases not_and_or.mp h2 with h | h <;> linarith
    obtain ⟨-, p0, p1, p2⟩ := pivot_products _ _ hD rfl
    have q02 := p1 (m02 - m20)
    have q12 := p1 (m01 + m10)
    have q23 := p1 (m12 + m21)
    have q00 := p2 (m02 - m20) (m02 - m20) (m00 + m11 + m22 + 1)
      (by linear_combination r00 - c11 + r22 + 2 * f11)
    have q01 := p2 (m02 - m20) (m01 + m10) (m21 - m12)
      (by linear_combination -r12 + c12 - f12 + f21)
    have q03 := p2 (m02 - m20) (m12 + m21) (m10 - m01)
      (by linear_combination r01 - c01 - f01 + f10)
    have q11 := p2 (m01 + m10) (m01 + m10) (1 + m00 - m11 - m22)
      (by linear_combination c00 + c11 - r22 - 2 * f22)
    have q13 := p2 (m01 + m10) (m12 + m21) (m02 + m20)
      (by linear_combination r02 + c02 + f02 + f20)
    have q33 := p2 (m12 + m21) (m12 + m21) (1 - m00 - m11 + m22)
      (by linear_combination -c00 + r11 + r22 - 2 * f00)
    apply key
    · simp only
      linear_combination q00 + q11 + p0 + q33
    · simp only [Matrix3x3.mk.injEq]
      refine ⟨?_, ?_, ?_, ?_, ?_, ?_, ?_, ?_, ?_⟩
      · linear_combination -2 * p0 - 2 * q33
      · linear_combination 2 * q12 - 2 * q03
      · linear_combination 2 * q13 + 2 * q02
      · linear_combination 2 * q12 + 2 * q03
      · linear_combination -2 * q11 - 2 * q33
      · linear_combination 2 * q23 - 2 * q01
      · linear_combination 2 * q13 - 2 * q02
      · linear_combination 2 * q23 + 2 * q01
      · linear_combination -2 * q11 - 2 * p0
  · -- m22 is the largest diagonal entry
    have hD : 0 < 1 - m00 - m11 + m22 := by
      rcases not_and_or.mp h2 with h | h <;> linarith
    obtain ⟨-, p0, p1, p2⟩ := pivot_products _ _ hD rfl
    have q03 := p1 (m10 - m01)
    have q13 := p1 (m02 + m20)
    have q23 := p1 (m12 + m21)
    have q00 := p2 (m10 - m01) (m10 - m01) (m00 + m11 + m22 + 1)
      (by linear_combination c00 + c11 - r22 + 2 * f22)
    have q01 := p2 (m10 - m01) (m02 + m20) (m21 - m12)
      (by linear_combination r12 - c12 - f12 + f21)
    have q02 := p2 (m10 - m01) (m12 + m21) (m02 - m20)
      (by linear_combination -r02 + c02 + f02 - f20)
    have q11 := p2 (m02 + m20) (m02 + m20) (1 + m00 - m11 - m22)
      (by linear_combination r00 - c11 + r22 - 2 * f11)
    have q12 := p2 (m02 + m20) (m12 + m21) (m01 + m10)
      (by linear_combination r01 + c01 + f01 + f10)
    have q22 := p2 (m12 + m21) (m12 + m21) (1 - m00 + m11 - m22)
      (by linear_combination -c00 + r11 + r22 - 2 * f00)
    apply key
    · simp only
      linear_combination q00 + q11 + q22 + p0
    · simp only [Matrix3x3.mk.injEq]
      refine ⟨?_, ?_, ?_, ?_, ?_, ?_, ?_, ?_, ?_⟩
      · linear_combination -2 * q22 - 2 * p0
      · linear_combination 2 * q12 - 2 * q03
      · linear_combination 2 * q13 + 2 * q02
      · linear_combination 2 * q12 + 2 * q03
      · linear_combination -2 * q11 - 2 * p0
      · linear_combination 2 * q23 - 2 * q01
      · linear_combination 2 * q13 - 2 * q02
      · linear_combination 2 * q23 + 2 * q01
      · linear_combination -2 * q11 - 2 * q22
/-- The pivot `S` of the branch that `FromMatrix3x3` takes is never zero. -/
theorem fromMatrix3x3_pivot_ne_zero (R : Matrix3x3 ℝ) :
    (if R.m00 + R.m11 + R.m22 > 0 then Real.sqrt (R.m00 + R.m11 + R.m22 + 1) * 2
      else if R.m00 > R.m11 ∧ R.m00 > R.m22 then
        Real.sqrt (1 + R.m00 - R.m11 - R.m22) * 2
      else if R.m11 > R.m22 then Real.sqrt (1 - R.m00 + R.m11 - R.m22) * 2
      else Real.sqrt (1 - R.m00 - R.m11 + R.m22) * 2) ≠ 0 := by
  split_ifs with h1 h2 h3
  · exact (pivot_products _ _ (by linarith) rfl).1
  · obtain ⟨ha, hb⟩ := h2
    exact (pivot_products _ _ (by linarith) rfl).1
  · refine (pivot_products _ _ ?_ rfl).1
    rcases not_and_or.mp h2 with h | h <;> linarith
  · refine (pivot_products _ _ ?_ rfl).1
    rcases not_and_or.mp h2 with h | h <;> linarith

/-- The function `Normalize` raises exactly when every square underflows, and
then with its one message. -/
theorem normalize_error_iff (v : Vec3 ℝ) :
    ((∃ e, v.Normalize Real.sqrt = .error e) ↔ v.SquaresUnderflow) ∧
    (∀ e, v.Normalize Real.sqrt = .error e
      → e = .invalid_argument "normalize: zero vector") := by
  have hU := underflow_pos
  by_cases hu : v.SquaresUnderflow
  · have hE := normalize_of_underflow v hu.1 hu.2.1 hu.2.2
    refine ⟨⟨fun _ => hu, fun _ => ⟨_, hE⟩⟩, ?_⟩
    intro e he
    rw [hE] at he
    cases he
    rfl
  · have hok : ∃ r, v.Normalize Real.sqrt = .ok r := by
      have hu1 : ¬ (v.x * v.x ≤ DBL_UNDERFLOW ∧ v.y * v.y ≤ DBL_UNDERFLOW
          ∧ v.z * v.z ≤ DBL_UNDERFLOW) := hu
      by_cases ho : DBL_OVERFLOW ≤ Vec3.Dot v v
      · exact ⟨_, normalize_of_overflow v ho⟩
      · have hd : 0 < Vec3.Dot v v := by
          have sx := mul_self_nonneg v.x
          have sy := mul_self_nonneg v.y
          have sz := mul_self_nonneg v.z
          simp only [Vec3.Dot]
          by_contra hle
          apply hu1
          refine ⟨?_, ?_, ?_⟩ <;> linarith
        have hn : Real.sqrt (Vec3.Dot v v) ≠ 0 := (Real.sqrt_pos.mpr hd).ne'
        refine ⟨⟨v.x / Real.sqrt (Vec3.Dot v v), v.y / Real.sqrt (Vec3.Dot v v),
          v.z / Real.sqrt (Vec3.Dot v v)⟩, ?_⟩
        simp only [Vec3.Normalize, Vec3.Norm, if_neg hu1, if_neg ho, if_neg hn]
    obtain ⟨r, hr⟩ := hok
    refine ⟨⟨?_, fun h => absurd h hu⟩, ?_⟩
    · rintro ⟨e, he⟩
      rw [hr] at he
      cases he
    · intro e he
      rw [hr] at he
      cases he

/-- The cross product of unit vectors whose dot product is neither `1` nor `-1`
up to `TOL` is nonzero. -/
theorem cross_ne_zero_of_general (a b : Vec3 ℝ)
    (ha : a.x * a.x + a.y * a.y + a.z * a.z = 1)
    (hb : b.x * b.x + b.y * b.y + b.z * b.z = 1)
    (h1 : TOL ≤ |Vec3.Dot a b - 1|) (h2 : TOL ≤ |Vec3.Dot a b + 1|) :
    Vec3.Cross a b ≠ ⟨0, 0, 0⟩ := by
  intro h
  have tp := TOL_pos
  have e := dot_cross_self a b ha hb
  rw [h] at e
  generalize Vec3.Dot a b = d at e h1 h2
  simp only [Vec3.Dot] at e
  have e2 : (d - 1) * (d + 1) = 0 := by linear_combination e
  rcases mul_eq_zero.mp e2 with h0 | h0
  · rw [h0, abs_zero] at h1
    linarith
  · rw [h0, abs_zero] at h2
    linarith

/-- For a unit `a` the cross product with the reference axis of the antipodal
regime has squared length at least `0.19`: it is in range. -/
theorem cross_arbitrary_inRange (a : Vec3 ℝ) (ha : a.x * a.x + a.y * a.y + a.z * a.z = 1) :
    (Vec3.Cross a (if |a.x| < 9 / 10 then (⟨1, 0, 0⟩ : Vec3 ℝ) else ⟨0, 1, 0⟩)).InRange := by
  have hlo : (1 : ℝ) / 10 ^ 300 ≤ 19 / 100 := by
    rw [div_le_iff₀ (by positivity)]
    have : (1 : ℝ) ≤ 10 ^ 300 := one_le_pow₀ (by norm_num)
    linarith
  have hhi : (1 : ℝ) ≤ 10 ^ 300 := one_le_pow₀ (by norm_num)
  have sx := mul_self_nonneg a.x
  have sy := mul_self_nonneg a.y
  have sz := mul_self_nonneg a.z
  split_ifs with hlt
  · rw [abs_lt] at hlt
    have hxx : a.x * a.x ≤ 81 / 100 := by nlinarith
    constructor
    · simp only [Vec3.Dot, Vec3.Cross]
      nlinarith
    · simp only [Vec3.Dot, Vec3.Cross]
      nlinarith
  · have hxx : 81 / 100 ≤ a.x * a.x := by
      have h9 : 9 / 10 ≤ |a.x| := not_lt.mp hlt
      have := mul_le_mul h9 h9 (by norm_num) (abs_nonneg a.x)
      rw [abs_mul_abs_self] at this
      linarith
    constructor
    · simp only [Vec3.Dot, Vec3.Cross]
      nlinarith
    · simp only [Vec3.Dot, Vec3.Cross]
      nlinarith

/-- In the general regime the cross product of the unit vectors `a`, `b` has
squared length at least `1e-6`: it is in range. -/
theorem cross_inRange_of_general (a b : Vec3 ℝ)
    (ha : a.x * a.x + a.y * a.y + a.z * a.z = 1)
    (hb : b.x * b.x + b.y * b.y + b.z * b.z = 1)
    (h1 : TOL ≤ |Vec3.Dot a b - 1|) (h2 : TOL ≤ |Vec3.Dot a b + 1|) :
    (Vec3.Cross a b).InRange := by
  have tp := TOL_pos
  have e := dot_cross_self a b ha hb
  have hnn : 0 ≤ Vec3.Dot (Vec3.Cross a b) (Vec3.Cross a b) := by
    simp only [Vec3.Dot]
    nlinarith [mul_self_nonneg (Vec3.Cross a b).x, mul_self_nonneg (Vec3.Cross a b).y,
      mul_self_nonneg (Vec3.Cross a b).z]
  rw [Vec3.InRange, e]
  rw [e] at hnn
  generalize Vec3.Dot a b = d at h1 h2 hnn
  have hlo : -1 ≤ d := by nlinarith
  have hhi : d ≤ 1 := by nlinarith
  have k1 : TOL ≤ 1 - d := by
    rw [abs_of_nonpos (by linarith)] at h1
    linarith
  have k2 : TOL ≤ 1 + d := by
    rw [abs_of_nonneg (by linarith)] at h2
    linarith
  have hT : (1 : ℝ) / 10 ^ 300 ≤ TOL * TOL := by
    unfold TOL
    rw [show (1 : ℝ) / 1000000 * (1 / 1000000) = 1 / 10 ^ 12 by norm_num]
    apply one_div_le_one_div_of_le (by positivity)
    norm_num
  have hprod : TOL * TOL ≤ (1 - d) * (1 + d) := mul_le_mul k1 k2 tp.le (by linarith)
  have h10 : (1 : ℝ) ≤ 10 ^ 300 := one_le_pow₀ (by norm_num)
  constructor
  · nlinarith
  · nlinarith [mul_self_nonneg d]

/-- Both axis-angle constructors succeed on the normalization of a vector in
range. -/
theorem axisAngle_ok_of_inRange (w : Vec3 ℝ) (θ : ℝ) (hw : w.InRange) :
    ∃ c, w.Normalize Real.sqrt = .ok c ∧
      (∃ R, Matrix3x3.RotationAxisAngle Real.sqrt Real.cos Real.sin c θ = .ok R) ∧
      (∃ q, Quat.FromAxisAngle Real.sqrt Real.cos Real.sin c θ = .ok q) := by
  obtain ⟨n, hn, hnn, hN⟩ := normalize_of_inRange w hw
  have hc := unit_of_div w n hn hnn
  have hU := normalize_of_unit (⟨w.x / n, w.y / n, w.z / n⟩ : Vec3 ℝ) hc
  refine ⟨_, hN, ⟨_, rotationAxisAngle_of_unit _ θ hc⟩, ?_⟩
  simp only [Quat.FromAxisAngle, hU, bind, Except.bind, pure, Except.pure]
  exact ⟨_, rfl⟩

/-- On inputs in range neither `RotateFromTo` raises. -/
theorem rotateFromTo_ok (u v : Vec3 ℝ) (hu : u.InRange) (hv : v.InRange) :
    (∃ R, Matrix3x3.RotateFromTo Real.sqrt Real.cos Real.sin Real.arccos u v = .ok R) ∧
    (∃ q, Quat.RotateFromTo Real.sqrt Real.cos Real.sin Real.arccos u v = .ok q) := by
  obtain ⟨n, -, -, hNa⟩ := normalize_of_inRange u hu
  obtain ⟨k, -, -, hNb⟩ := normalize_of_inRange v hv
  have ha := unit_of_normalize u _ hu hNa
  have hb := unit_of_normalize v _ hv hNb
  generalize (⟨u.x / n, u.y / n, u.z / n⟩ : Vec3 ℝ) = a at hNa ha
  generalize (⟨v.x / k, v.y / k, v.z / k⟩ : Vec3 ℝ) = b at hNb hb
  simp only [Matrix3x3.RotateFromTo, Quat.RotateFromTo, hNa, hNb, bind, Except.bind, pure,
    Except.pure]
  by_cases h1 : |Vec3.Dot a b - 1| < TOL
  · simp only [if_pos h1]
    exact ⟨⟨_, rfl⟩, ⟨_, rfl⟩⟩
  · simp only [if_neg h1]
    by_cases h2 : |Vec3.Dot a b + 1| < TOL
    · simp only [if_pos h2]
      obtain ⟨c, hc, hR, hq⟩ := axisAngle_ok_of_inRange _ PI (cross_arbitrary_inRange a ha)
      simp only [hc]
      exact ⟨hR, hq⟩
    · simp only [if_neg h2]
      obtain ⟨c, hc, hR, hq⟩ := axisAngle_ok_of_inRange _ (Real.arccos (Vec3.Dot a b))
        (cross_inRange_of_general a b ha hb (not_lt.mp h1) (not_lt.mp h2))
      simp only [hc]
      exact ⟨hR, hq⟩

/-- When the squares of `u` or of `v` all underflow, the zero vector included,
both `RotateFromTo` raise the error of `Normalize`. -/
theorem rotateFromTo_error (u v : Vec3 ℝ) (h : u.SquaresUnderflow ∨ v.SquaresUnderflow) :
    Matrix3x3.RotateFromTo Real.sqrt Real.cos Real.sin Real.arccos u v
      = .error (.invalid_argument "normalize: zero vector") ∧
    Quat.RotateFromTo Real.sqrt Real.cos Real.sin Real.arccos u v
      = .error (.invalid_argument "normalize: zero vector") := by
  cases hNu : u.Normalize Real.sqrt with
  | error e =>
    have he := (normalize_error_iff u).2 e hNu
    rw [he] at hNu
    simp only [Matrix3x3.RotateFromTo, Quat.RotateFromTo, hNu, bind, Except.bind, and_self]
  | ok a =>
    have hv : v.SquaresUnderflow := by
      rcases h with h | h
      · have := normalize_of_underflow u h.1 h.2.1 h.2.2
        rw [hNu] at this
        cases this
      · exact h
    have hz := normalize_of_underflow v hv.1 hv.2.1 hv.2.2
    simp only [Matrix3x3.RotateFromTo, Quat.RotateFromTo, hNu, hz, bind, Except.bind,
      and_self]

end Aux

/-! ## Claims C1 – C10 -/

section Claims

/-- C1 (as stated, refuted): with the rotation by a quarter turn about `z` and
the positive scale `(1e-7, 1, 1)`, `GetRotation (FromTRS t R s)` is the
identity matrix, which is not within `1e-6` of `R`. -/
theorem C1_counterexample :
    (⟨0, -1, 0, 1, 0, 0, 0, 0, 1⟩ : Matrix3x3 ℝ).IsExactRotation ∧
    ((0 : ℝ) < 1 / 10000000 ∧ (0 : ℝ) < 1 ∧ (0 : ℝ) < 1) ∧
    (Matrix4x4.FromTRS (⟨0, 0, 0⟩ : Vec3 ℝ) ⟨0, -1, 0, 1, 0, 0, 0, 0, 1⟩
        ⟨1 / 10000000, 1, 1⟩).GetRotation Real.sqrt = .ok Matrix3x3.Identity ∧
    ¬ Matrix3x3.Near (Matrix3x3.Identity : Matrix3x3 ℝ) ⟨0, -1, 0, 1, 0, 0, 0, 0, 1⟩ := by
  have hR : (⟨0, -1, 0, 1, 0, 0, 0, 0, 1⟩ : Matrix3x3 ℝ).IsExactRotation := by
    constructor <;>
      simp [Matrix3x3.Transposed, Matrix3x3.Multiply, Matrix3x3.Identity, Matrix3x3.Det]
  refine ⟨hR, by norm_num, ?_, ?_⟩
  · have hs := getScale_fromTRS_of_pos (⟨0, 0, 0⟩ : Vec3 ℝ) _
      (⟨1 / 10000000, 1, 1⟩ : Vec3 ℝ) hR (by norm_num) (by norm_num) (by norm_num)
      (by norm_num) (by norm_num) (by norm_num)
    have hsmall : |(1 / 10000000 : ℝ)| < TOL := by
      rw [abs_of_pos (by norm_num)]; unfold TOL; norm_num
    simp only [Matrix4x4.GetRotation, isAffine_fromTRS, Bool.not_true, Bool.false_eq_true,
      if_false, hs, bind, Except.bind, hsmall, true_or, if_true, pure, Except.pure]
  · intro h
    have h00 := h.1
    simp only [Matrix3x3.Identity, TOL] at h00
    norm_num at h00

/-- C1 (amended): for every translation `t`, exact rotation `R` and scale `s`
with all three components at least `1e-6` and at most `1e150`,
`GetRotation (FromTRS t R s)` does not raise and returns `R`, exactly in real
arithmetic and hence within `1e-6` in every entry. -/
theorem C1_getRotation_fromTRS (t : Vec3 ℝ) (R : Matrix3x3 ℝ) (s : Vec3 ℝ)
    (hR : R.IsExactRotation) (hx : TOL ≤ s.x) (hy : TOL ≤ s.y) (hz : TOL ≤ s.z)
    (ux : s.x ≤ 10 ^ 150) (uy : s.y ≤ 10 ^ 150) (uz : s.z ≤ 10 ^ 150) :
    ∃ R', (Matrix4x4.FromTRS t R s).GetRotation Real.sqrt = .ok R' ∧ R' = R ∧
      Matrix3x3.Near R' R := by
  have tp := TOL_pos
  have px : 0 < s.x := lt_of_lt_of_le tp hx
  have py : 0 < s.y := lt_of_lt_of_le tp hy
  have pz : 0 < s.z := lt_of_lt_of_le tp hz
  have hs := getScale_fromTRS_of_pos t R s hR (le_trans range_lo_le_TOL hx)
    (le_trans range_lo_le_TOL hy) (le_trans range_lo_le_TOL hz) ux uy uz
  have hc : ¬ (|s.x| < TOL ∨ |s.y| < TOL ∨ |s.z| < TOL) := by
    rw [abs_of_pos px, abs_of_pos py, abs_of_pos pz]
    push_neg; exact ⟨hx, hy, hz⟩
  refine ⟨R, ?_, rfl, ?_⟩
  · simp only [Matrix4x4.GetRotation, isAffine_fromTRS, Bool.not_true, Bool.false_eq_true,
      if_false, hs, bind, Except.bind, if_neg hc, pure, Except.pure]
    simp only [Matrix4x4.FromTRS, mul_div_assoc, div_self px.ne', div_self py.ne',
      div_self pz.ne', mul_one]
  · simp [Matrix3x3.Near, tp.le]

/-- Witness of `C1_getRotation_fromTRS` at `t = (1,2,3)`, `R = I`, `s = (2,2,2)`. -/
theorem C1_getRotation_fromTRS_witness :
    ∃ R', (Matrix4x4.FromTRS (⟨1, 2, 3⟩ : Vec3 ℝ) Matrix3x3.Identity
        ⟨2, 2, 2⟩).GetRotation Real.sqrt = .ok R' ∧ R' = Matrix3x3.Identity ∧
      Matrix3x3.Near R' Matrix3x3.Identity :=
  C1_getRotation_fromTRS ⟨1, 2, 3⟩ Matrix3x3.Identity ⟨2, 2, 2⟩
    (by constructor <;>
      simp [Matrix3x3.Transposed, Matrix3x3.Multiply, Matrix3x3.Identity, Matrix3x3.Det])
    (by simp only [TOL]; norm_num) (by simp only [TOL]; norm_num)
    (by simp only [TOL]; norm_num) (by norm_num) (by norm_num) (by norm_num)

/-- C2 (as stated, refuted): with `R = I` and the positive scale
`(1e155, 1, 1)` the first block column of `FromTRS t R s` has squared length
`1e310`, beyond the range of a `double`: its norm is `+inf`, and `GetScale`
has an infinite x component instead of `1e155`. -/
theorem C2_counterexample :
    (Matrix3x3.Identity : Matrix3x3 ℝ).IsExactRotation ∧
    ((0 : ℝ) < 10 ^ 155 ∧ (0 : ℝ) < 1 ∧ (0 : ℝ) < 1) ∧
    Vec3.Norm Real.sqrt (⟨1 * 10 ^ 155, 0 * 10 ^ 155, 0 * 10 ^ 155⟩ : Vec3 ℝ) = .infinite ∧
    (Matrix4x4.FromTRS (⟨0, 0, 0⟩ : Vec3 ℝ) Matrix3x3.Identity
        ⟨10 ^ 155, 1, 1⟩).GetScale Real.sqrt = .error .non_finite := by
  have hR : (Matrix3x3.Identity : Matrix3x3 ℝ).IsExactRotation := by
    constructor <;>
      simp [Matrix3x3.Transposed, Matrix3x3.Multiply, Matrix3x3.Identity, Matrix3x3.Det]
  have hN : Vec3.Norm Real.sqrt (⟨1 * 10 ^ 155, 0 * 10 ^ 155, 0 * 10 ^ 155⟩ : Vec3 ℝ)
      = .infinite := by
    apply norm_of_overflow
    simp only [Vec3.Dot, DBL_OVERFLOW]
    norm_num
  refine ⟨hR, ⟨by positivity, by norm_num, by norm_num⟩, hN, ?_⟩
  exact getScale_of_overflow _ (isAffine_fromTRS _ _ _) (Or.inl hN)

/-- C2 (amended): for every translation `t`, exact rotation `R` and scale `s`
with all three components positive and at most `1e150`, neither getter raises
on `M = FromTRS t R s`, `GetTranslation M` is `t` and `GetScale M` is within
`1e-6` of `s`; it is `s` itself when the components are at least `1e-150`. -/
theorem C2_getTranslation_getScale_fromTRS (t : Vec3 ℝ) (R : Matrix3x3 ℝ) (s : Vec3 ℝ)
    (hR : R.IsExactRotation) (hx : 0 < s.x) (hy : 0 < s.y) (hz : 0 < s.z)
    (ux : s.x ≤ 10 ^ 150) (uy : s.y ≤ 10 ^ 150) (uz : s.z ≤ 10 ^ 150) :
    (Matrix4x4.FromTRS t R s).GetTranslation = .ok t ∧
    (∃ sc, (Matrix4x4.FromTRS t R s).GetScale Real.sqrt = .ok sc ∧ sc.Near s) ∧
    (1 / 10 ^ 150 ≤ s.x → 1 / 10 ^ 150 ≤ s.y → 1 / 10 ^ 150 ≤ s.z →
      (Matrix4x4.FromTRS t R s).GetScale Real.sqrt = .ok s) := by
  refine ⟨?_, getScale_fromTRS_near t R s hR hx hy hz ux uy uz,
    fun lx ly lz => getScale_fromTRS_of_pos t R s hR lx ly lz ux uy uz⟩
  simp [Matrix4x4.GetTranslation, isAffine_fromTRS]
  simp [Matrix4x4.FromTRS]

/-- Witness of `C2_getTranslation_getScale_fromTRS` at `t = (1,2,3)`, `R = I`,
`s = (2,2,2)`. -/
theorem C2_getTranslation_getScale_fromTRS_witness :
    (Matrix4x4.FromTRS (⟨1, 2, 3⟩ : Vec3 ℝ) Matrix3x3.Identity ⟨2, 2, 2⟩).GetTranslation
      = .ok ⟨1, 2, 3⟩ ∧
    (Matrix4x4.FromTRS (⟨1, 2, 3⟩ : Vec3 ℝ) Matrix3x3.Identity ⟨2, 2, 2⟩).GetScale Real.sqrt
      = .ok ⟨2, 2, 2⟩ :=
  have h := C2_getTranslation_getScale_fromTRS ⟨1, 2, 3⟩ Matrix3x3.Identity ⟨2, 2, 2⟩
    (by constructor <;>
      simp [Matrix3x3.Transposed, Matrix3x3.Multiply, Matrix3x3.Identity, Matrix3x3.Det])
    (by norm_num) (by norm_num) (by norm_num) (by norm_num) (by norm_num) (by norm_num)
  ⟨h.1, h.2.2 (by norm_num) (by norm_num) (by norm_num)⟩

/-- C4: for every translation `t` and exact rotation `R`, `InverseTR` is defined
on `M = FromTRS t R (1,1,1)` and `M.Multiply (M.InverseTR)` is the identity,
exactly in real arithmetic and hence within `1e-6`. -/
theorem C4_inverseTR_fromTRS (t : Vec3 ℝ) (R : Matrix3x3 ℝ) (hR : R.IsExactRotation) :
    ∃ Minv, (Matrix4x4.FromTRS t R ⟨1, 1, 1⟩).InverseTR = .ok Minv ∧
      (Matrix4x4.FromTRS t R ⟨1, 1, 1⟩).Multiply Minv = Matrix4x4.Identity := by
  obtain ⟨⟨r00, r11, r22⟩, r01, r02, r12⟩ := hR.rows
  simp only [Matrix4x4.InverseTR, Matrix4x4.GetRotationScale, Matrix4x4.GetTranslation,
    isAffine_fromTRS, Bool.not_true, Bool.false_eq_true, if_false, bind, Except.bind,
    pure, Except.pure]
  refine ⟨_, rfl, ?_⟩
  simp only [Matrix4x4.Multiply, Matrix4x4.FromTRS, Matrix4x4.Rotate,
    Matrix4x4.SetTranslation, Matrix4x4.Identity, Matrix3x3.MultiplyVec,
    Matrix3x3.Transposed, Matrix4x4.mk.injEq]
  refine ⟨?_, ?_, ?_, ?_, ?_, ?_, ?_, ?_, ?_, ?_, ?_, ?_, ?_, ?_, ?_, ?_⟩
  · linear_combination r00
  · linear_combination r01
  · linear_combination r02
  · linear_combination -(t.x * (r00) + t.y * (r01) + t.z * (r02))
  · linear_combination r01
  · linear_combination r11
  · linear_combination r12
  · linear_combination -(t.x * (r01) + t.y * (r11) + t.z * (r12))
  · linear_combination r02
  · linear_combination r12
  · linear_combination r22
  · linear_combination -(t.x * (r02) + t.y * (r12) + t.z * (r22))
  · ring
  · ring
  · ring
  · ring

/-- Witness of `C4_inverseTR_fromTRS` at `t = (1,2,3)` and the quarter turn
about `z`. -/
theorem C4_inverseTR_fromTRS_witness :
    ∃ Minv, (Matrix4x4.FromTRS (⟨1, 2, 3⟩ : Vec3 ℝ) ⟨0, -1, 0, 1, 0, 0, 0, 0, 1⟩
        ⟨1, 1, 1⟩).InverseTR = .ok Minv ∧
      (Matrix4x4.FromTRS (⟨1, 2, 3⟩ : Vec3 ℝ) ⟨0, -1, 0, 1, 0, 0, 0, 0, 1⟩
        ⟨1, 1, 1⟩).Multiply Minv = Matrix4x4.Identity :=
  C4_inverseTR_fromTRS ⟨1, 2, 3⟩ ⟨0, -1, 0, 1, 0, 0, 0, 0, 1⟩
    (by constructor <;>
      simp [Matrix3x3.Transposed, Matrix3x3.Multiply, Matrix3x3.Identity, Matrix3x3.Det])

/-- C5: for every unit quaternion `q`, `ToMatrix3x3` and then `FromMatrix3x3` do
not raise, and the result is `q` or `-q`, whichever of the four extraction
branches is taken; the equality is exact in real arithmetic, hence holds
componentwise within `1e-6`. -/
theorem C5_quat_matrix_roundtrip (q : Quat ℝ)
    (hq : q.s * q.s + q.x * q.x + q.y * q.y + q.z * q.z = 1) :
    ∃ R q', q.ToMatrix3x3 Real.sqrt = .ok R ∧ Quat.FromMatrix3x3 Real.sqrt R = .ok q' ∧
      (q' = q ∨ q' = q.neg) := by
  obtain ⟨q', h1, h2⟩ := fromMatrix3x3_quatMatrix q hq
  exact ⟨_, q', toMatrix3x3_of_unit q hq, h1, h2⟩

/-- Witness of `C5_quat_matrix_roundtrip` at the unit quaternion `(0,0,-1,0)`. -/
theorem C5_quat_matrix_roundtrip_witness :
    ∃ R q', (⟨0, 0, -1, 0⟩ : Quat ℝ).ToMatrix3x3 Real.sqrt = .ok R ∧
      Quat.FromMatrix3x3 Real.sqrt R = .ok q' ∧
      (q' = ⟨0, 0, -1, 0⟩ ∨ q' = Quat.neg ⟨0, 0, -1, 0⟩) :=
  C5_quat_matrix_roundtrip ⟨0, 0, -1, 0⟩ (by norm_num)

/-- C6 (as stated, refuted): for the unit axis `(0,1,0)` and the angle `1e-7`
in `(0, π)`, `ToAxisAngle` of `RotationAxisAngle` returns the default axis
`(1,0,0)`, which is within `1e-6` of neither `u` nor `-u`. -/
theorem C6_counterexample :
    (Vec3.Dot (⟨0, 1, 0⟩ : Vec3 ℝ) ⟨0, 1, 0⟩ = 1 ∧
      (0 : ℝ) < 1 / 10000000 ∧ (1 / 10000000 : ℝ) < Real.pi) ∧
    (Matrix3x3.RotationAxisAngle Real.sqrt Real.cos Real.sin ⟨0, 1, 0⟩ (1 / 10000000)
        >>= fun R => R.ToAxisAngle Real.sqrt Real.sin Real.arccos)
      = .ok (⟨1, 0, 0⟩, 1 / 10000000) ∧
    ¬ Vec3.Near (⟨1, 0, 0⟩ : Vec3 ℝ) ⟨0, 1, 0⟩ ∧
    ¬ Vec3.Near (⟨1, 0, 0⟩ : Vec3 ℝ) (Vec3.neg ⟨0, 1, 0⟩) := by
  have hu : (⟨0, 1, 0⟩ : Vec3 ℝ).x * (⟨0, 1, 0⟩ : Vec3 ℝ).x
      + (⟨0, 1, 0⟩ : Vec3 ℝ).y * (⟨0, 1, 0⟩ : Vec3 ℝ).y
      + (⟨0, 1, 0⟩ : Vec3 ℝ).z * (⟨0, 1, 0⟩ : Vec3 ℝ).z = 1 := by norm_num
  have hπ : (1 / 10000000 : ℝ) < Real.pi := by linarith [Real.pi_gt_three]
  have hsmall : |(1 / 10000000 : ℝ)| < TOL := by
    rw [abs_of_pos (by norm_num)]; unfold TOL; norm_num
  refine ⟨⟨by simp [Vec3.Dot], by norm_num, hπ⟩, ?_, ?_, ?_⟩
  · rw [rotationAxisAngle_of_unit ⟨0, 1, 0⟩ (1 / 10000000) hu]
    change Matrix3x3.ToAxisAngle Real.sqrt Real.sin Real.arccos _ = _
    rw [toAxisAngle_rodrigues ⟨0, 1, 0⟩ (1 / 10000000) hu (by norm_num) hπ.le,
      if_pos hsmall]
  · intro h
    have h1 := h.1
    simp only [TOL] at h1
    norm_num at h1
  · intro h
    have h1 := h.1
    simp only [TOL, Vec3.neg] at h1
    norm_num at h1

/-- C6 (amended): for every unit axis `u` and every angle `θ` with
`1e-6 ≤ θ ≤ PI - 1e-6` (the general branch of `ToAxisAngle`),
`RotationAxisAngle u θ` does not raise and `ToAxisAngle` of its result returns
exactly the axis `u` and the angle `θ`. -/
theorem C6_toAxisAngle_roundtrip (u : Vec3 ℝ) (θ : ℝ) (hu : Vec3.Dot u u = 1)
    (h1 : TOL ≤ θ) (h2 : TOL ≤ PI - θ) :
    ∃ R, Matrix3x3.RotationAxisAngle Real.sqrt Real.cos Real.sin u θ = .ok R ∧
      R.ToAxisAngle Real.sqrt Real.sin Real.arccos = .ok (u, θ) := by
  have hu' : u.x * u.x + u.y * u.y + u.z * u.z = 1 := by simpa [Vec3.Dot] using hu
  have tp := TOL_pos
  have hθ0 : 0 < θ := lt_of_lt_of_le tp h1
  have hPI : (PI : ℝ) < Real.pi := by
    have := Real.pi_gt_d20; unfold PI; norm_num at this ⊢; linarith
  have hθπ : θ < Real.pi := by linarith
  have c1 : ¬ (|θ| < TOL) := by rw [abs_of_pos hθ0]; exact not_lt.mpr h1
  have c2 : ¬ (|PI - θ| < TOL) := by
    rw [abs_of_pos (lt_of_lt_of_le tp h2)]; exact not_lt.mpr h2
  refine ⟨_, rotationAxisAngle_of_unit u θ hu', ?_⟩
  rw [toAxisAngle_rodrigues u θ hu' hθ0.le hθπ.le, if_neg c1, if_neg c2]

/-- Witness of `C6_toAxisAngle_roundtrip` at `u = (0,0,1)`, `θ = 1`. -/
theorem C6_toAxisAngle_roundtrip_witness :
    ∃ R, Matrix3x3.RotationAxisAngle Real.sqrt Real.cos Real.sin ⟨0, 0, 1⟩ 1 = .ok R ∧
      R.ToAxisAngle Real.sqrt Real.sin Real.arccos = .ok (⟨0, 0, 1⟩, 1) :=
  C6_toAxisAngle_roundtrip ⟨0, 0, 1⟩ 1 (by simp [Vec3.Dot])
    (by unfold TOL; norm_num) (by unfold TOL PI; norm_num)

/-- C7 (as stated, refuted): the axis `(2^-600, 0, 0)` is nonzero, but its
square underflows, the computed norm is zero and `RotationAxisAngle` raises;
for the axis `(1e200, 0, 0)` the squared length overflows, `Normalize` returns
the zero vector and `RotationAxisAngle axis 1` is `cos 1 · I`, which fails
`IsRotation`. -/
theorem C7_counterexample :
    ((⟨1 / 2 ^ 600, 0, 0⟩ : Vec3 ℝ) ≠ ⟨0, 0, 0⟩ ∧
      Matrix3x3.RotationAxisAngle Real.sqrt Real.cos Real.sin ⟨1 / 2 ^ 600, 0, 0⟩ 1
        = .error (.invalid_argument "normalize: zero vector")) ∧
    ((⟨10 ^ 200, 0, 0⟩ : Vec3 ℝ) ≠ ⟨0, 0, 0⟩ ∧
      Vec3.Normalize Real.sqrt (⟨10 ^ 200, 0, 0⟩ : Vec3 ℝ) = .ok ⟨0, 0, 0⟩ ∧
      Matrix3x3.RotationAxisAngle Real.sqrt Real.cos Real.sin ⟨10 ^ 200, 0, 0⟩ 1
        = .ok ⟨Real.cos 1, 0, 0, 0, Real.cos 1, 0, 0, 0, Real.cos 1⟩ ∧
      (⟨Real.cos 1, 0, 0, 0, Real.cos 1, 0, 0, 0, Real.cos 1⟩ : Matrix3x3 ℝ).IsRotation
        = false) := by
  have hU := underflow_pos
  have hsmall : (1 / 2 ^ 600 : ℝ) * (1 / 2 ^ 600) ≤ DBL_UNDERFLOW := by
    unfold DBL_UNDERFLOW
    norm_num
  have hN1 : Vec3.Normalize Real.sqrt (⟨1 / 2 ^ 600, 0, 0⟩ : Vec3 ℝ)
      = .error (.invalid_argument "normalize: zero vector") := by
    apply normalize_of_underflow
    · exact hsmall
    · simp only [mul_zero]; exact hU.le
    · simp only [mul_zero]; exact hU.le
  have hN2 : Vec3.Normalize Real.sqrt (⟨10 ^ 200, 0, 0⟩ : Vec3 ℝ) = .ok ⟨0, 0, 0⟩ := by
    apply normalize_of_overflow
    simp only [Vec3.Dot, DBL_OVERFLOW]
    norm_num
  refine ⟨⟨?_, ?_⟩, ?_, hN2, ?_, ?_⟩
  · intro h
    simp only [Vec3.mk.injEq] at h
    norm_num at h
  · simp only [Matrix3x3.RotationAxisAngle, hN1, bind, Except.bind]
  · intro h
    simp only [Vec3.mk.injEq] at h
    norm_num at h
  · simp only [Matrix3x3.RotationAxisAngle, hN2, bind, Except.bind, pure, Except.pure,
      mul_zero, add_zero, sub_self]
  · have hc0 := Real.cos_one_pos
    have hc1 := Real.cos_one_le
    cases hrot : (⟨Real.cos 1, 0, 0, 0, Real.cos 1, 0, 0, 0, Real.cos 1⟩ :
        Matrix3x3 ℝ).IsRotation with
    | false => rfl
    | true =>
      exfalso
      have h00 := ((isRotation_iff _).mp hrot).1
      simp only [Matrix3x3.Transposed, Matrix3x3.Multiply, mul_zero, add_zero, zero_add]
        at h00
      rw [abs_le] at h00
      unfold TOL at h00
      nlinarith [h00.1]

/-- C7 (amended): for every axis of length between `1e-150` and `1e150` and
every real angle `θ`, `RotationAxisAngle axis θ` does not raise and its result
passes `IsRotation`; in real arithmetic `RᵗR` is exactly the identity and
`det R` is exactly `1`. -/
theorem C7_rotationAxisAngle_isRotation (axis : Vec3 ℝ) (θ : ℝ) (h : axis.InRange) :
    ∃ R, Matrix3x3.RotationAxisAngle Real.sqrt Real.cos Real.sin axis θ = .ok R ∧
      R.IsRotation = true ∧
      R.Transposed.Multiply R = Matrix3x3.Identity ∧ R.Det = 1 := by
  obtain ⟨n, hn, hnn, hR⟩ := rotationAxisAngle_of_inRange axis θ h
  have hu := unit_of_div axis n hn hnn
  have hex := rodrigues_isExactRotation (Real.cos θ) (Real.sin θ) _ _ _
    (by have := Real.sin_sq_add_cos_sq θ; nlinarith) hu
  exact ⟨_, hR, isRotation_of_exact hex, hex.1, hex.2⟩

/-- Witness of `C7_rotationAxisAngle_isRotation` at axis `(0,0,2)`, angle `1`. -/
theorem C7_rotationAxisAngle_isRotation_witness :
    (⟨0, 0, 2⟩ : Vec3 ℝ).InRange ∧
    ∃ R, Matrix3x3.RotationAxisAngle Real.sqrt Real.cos Real.sin ⟨0, 0, 2⟩ 1 = .ok R ∧
      R.IsRotation = true ∧
      R.Transposed.Multiply R = Matrix3x3.Identity ∧ R.Det = 1 :=
  have h : (⟨0, 0, 2⟩ : Vec3 ℝ).InRange := by
    constructor <;> simp only [Vec3.Dot] <;> norm_num
  ⟨h, C7_rotationAxisAngle_isRotation ⟨0, 0, 2⟩ 1 h⟩

/-- C8: for every yaw and roll in `(-π, π]` and every pitch in `(-π/2, π/2)`
with `|sin pitch| < 1 - 1e-6`, `ToEulerZYX (FromEulerZYX yaw pitch roll)` returns
`(yaw, pitch, roll)`.  `std::atan2 y x` is the argument of `x + i y`. -/
theorem C8_euler_roundtrip (yaw pitch roll : ℝ)
    (hyaw : yaw ∈ Set.Ioc (-Real.pi) Real.pi) (hroll : roll ∈ Set.Ioc (-Real.pi) Real.pi)
    (hpitch : pitch ∈ Set.Ioo (-(Real.pi / 2)) (Real.pi / 2))
    (hsin : |Real.sin pitch| < 1 - TOL) :
    (Matrix3x3.FromEulerZYX Real.cos Real.sin yaw pitch roll).ToEulerZYX Real.arcsin
        (fun y x => Complex.arg ⟨x, y⟩)
      = (yaw, pitch, roll) := by
  have hcp : 0 < Real.cos pitch := Real.cos_pos_of_mem_Ioo hpitch
  have hc : |-Real.sin pitch| < 1 - TOL := by rwa [abs_neg]
  have e1 : Complex.arg ⟨Real.cos yaw * Real.cos pitch, Real.sin yaw * Real.cos pitch⟩
      = yaw := by
    rw [mul_comm (Real.cos yaw), mul_comm (Real.sin yaw)]
    exact arg_mk_cos_sin _ _ hcp hyaw
  have e2 : Complex.arg ⟨Real.cos pitch * Real.cos roll, Real.cos pitch * Real.sin roll⟩
      = roll := arg_mk_cos_sin _ _ hcp hroll
  have e3 : Real.arcsin (Real.sin pitch) = pitch :=
    Real.arcsin_sin hpitch.1.le hpitch.2.le
  simp only [Matrix3x3.ToEulerZYX, Matrix3x3.FromEulerZYX, if_pos hc, neg_neg, e1, e2, e3]

/-- Witness of `C8_euler_roundtrip` at yaw `1`, pitch `0`, roll `-1`. -/
theorem C8_euler_roundtrip_witness :
    (Matrix3x3.FromEulerZYX Real.cos Real.sin 1 0 (-1)).ToEulerZYX Real.arcsin
        (fun y x => Complex.arg ⟨x, y⟩)
      = (1, 0, -1) :=
  C8_euler_roundtrip 1 0 (-1)
    ⟨by linarith [Real.pi_gt_three], by linarith [Real.pi_gt_three]⟩
    ⟨by linarith [Real.pi_gt_three], by linarith [Real.pi_gt_three]⟩
    ⟨by linarith [Real.pi_gt_three], by linarith [Real.pi_gt_three]⟩
    (by rw [Real.sin_zero, abs_zero]; unfold TOL; norm_num)

/-- C9 (as stated, refuted): `u = (2^-600, 0, 0)` is nonzero but its computed
norm is zero, and `u = (1e200, 0, 0)` has an infinite computed norm, so that it
normalizes to the zero vector; in both cases `RotateFromTo u (-u)` raises. -/
theorem C9_counterexample :
    ((⟨1 / 2 ^ 600, 0, 0⟩ : Vec3 ℝ) ≠ ⟨0, 0, 0⟩ ∧
      Matrix3x3.RotateFromTo Real.sqrt Real.cos Real.sin Real.arccos
          ⟨1 / 2 ^ 600, 0, 0⟩ (Vec3.neg ⟨1 / 2 ^ 600, 0, 0⟩)
        = .error (.invalid_argument "normalize: zero vector")) ∧
    ((⟨10 ^ 200, 0, 0⟩ : Vec3 ℝ) ≠ ⟨0, 0, 0⟩ ∧
      Matrix3x3.RotateFromTo Real.sqrt Real.cos Real.sin Real.arccos
          ⟨10 ^ 200, 0, 0⟩ (Vec3.neg ⟨10 ^ 200, 0, 0⟩)
        = .error (.invalid_argument "normalize: zero vector")) := by
  have hU := underflow_pos
  have hsmall : (⟨1 / 2 ^ 600, 0, 0⟩ : Vec3 ℝ).SquaresUnderflow := by
    refine ⟨?_, ?_, ?_⟩
    · unfold DBL_UNDERFLOW
      norm_num
    · simp only [mul_zero]; exact hU.le
    · simp only [mul_zero]; exact hU.le
  have hN2 : Vec3.Normalize Real.sqrt (⟨10 ^ 200, 0, 0⟩ : Vec3 ℝ) = .ok ⟨0, 0, 0⟩ := by
    apply normalize_of_overflow
    simp only [Vec3.Dot, DBL_OVERFLOW]
    norm_num
  have hN3 : Vec3.Normalize Real.sqrt (Vec3.neg (⟨10 ^ 200, 0, 0⟩ : Vec3 ℝ))
      = .ok ⟨0, 0, 0⟩ := by
    apply normalize_of_overflow
    simp only [Vec3.Dot, Vec3.neg, DBL_OVERFLOW]
    norm_num
  have h1 : ¬ (|(0 : ℝ) - 1| < TOL) := by unfold TOL; norm_num
  have h2 : ¬ (|(0 : ℝ) + 1| < TOL) := by unfold TOL; norm_num
  refine ⟨⟨?_, (rotateFromTo_error _ _ (Or.inl hsmall)).1⟩, ?_, ?_⟩
  · intro h
    simp only [Vec3.mk.injEq] at h
    norm_num at h
  · intro h
    simp only [Vec3.mk.injEq] at h
    norm_num at h
  · simp only [Matrix3x3.RotateFromTo, hN2, hN3, bind, Except.bind, Vec3.Dot, mul_zero,
      add_zero, if_neg h1, if_neg h2, Vec3.Cross, sub_self, normalize_zero]

/-- C9 (amended): for every vector `u` of length between `1e-150` and `1e150`,
`RotateFromTo u (-u)` does not raise, its result `R` passes `IsRotation`, and
`R·u` agrees with `-u` in every component within `1e-6` times the length of
`u`; in particular within `1e-6` for unit `u`. -/
theorem C9_rotateFromTo_antipodal (u : Vec3 ℝ) (h : u.InRange) :
    ∃ R, Matrix3x3.RotateFromTo Real.sqrt Real.cos Real.sin Real.arccos u u.neg = .ok R ∧
      R.IsRotation = true ∧
      (|(R.MultiplyVec u).x - u.neg.x| ≤ TOL * Real.sqrt (Vec3.Dot u u) ∧
       |(R.MultiplyVec u).y - u.neg.y| ≤ TOL * Real.sqrt (Vec3.Dot u u) ∧
       |(R.MultiplyVec u).z - u.neg.z| ≤ TOL * Real.sqrt (Vec3.Dot u u)) ∧
      (Vec3.Dot u u = 1 → Vec3.Near (R.MultiplyVec u) u.neg) := by
  obtain ⟨n, hn, hnn, hN⟩ := normalize_of_inRange u h
  have ha := unit_of_div u n hn hnn
  have hNn := normalize_neg u _ hN
  have hdot : Vec3.Dot (⟨u.x / n, u.y / n, u.z / n⟩ : Vec3 ℝ)
      (Vec3.neg ⟨u.x / n, u.y / n, u.z / n⟩) = -1 := by
    simp only [Vec3.Dot, Vec3.neg]; linear_combination -ha
  have hcr := cross_arbitrary_inRange ⟨u.x / n, u.y / n, u.z / n⟩ ha
  have hperp0 : ∀ arb : Vec3 ℝ,
      (Vec3.Cross (⟨u.x / n, u.y / n, u.z / n⟩ : Vec3 ℝ) arb).x * u.x
      + (Vec3.Cross (⟨u.x / n, u.y / n, u.z / n⟩ : Vec3 ℝ) arb).y * u.y
      + (Vec3.Cross (⟨u.x / n, u.y / n, u.z / n⟩ : Vec3 ℝ) arb).z * u.z = 0 := by
    intro arb
    simp only [Vec3.Cross]
    field_simp
    ring
  have hperp1 := hperp0 (if |u.x / n| < 9 / 10 then (⟨1, 0, 0⟩ : Vec3 ℝ) else ⟨0, 1, 0⟩)
  have h1 : ¬ (|(-1 : ℝ) - 1| < TOL) := by unfold TOL; norm_num
  have h2 : |(-1 : ℝ) + 1| < TOL := by simpa using TOL_pos
  have hrun : Matrix3x3.RotateFromTo Real.sqrt Real.cos Real.sin Real.arccos u u.neg
      = (Vec3.Normalize Real.sqrt (Vec3.Cross ⟨u.x / n, u.y / n, u.z / n⟩
          (if |u.x / n| < 9 / 10 then (⟨1, 0, 0⟩ : Vec3 ℝ) else ⟨0, 1, 0⟩))) >>=
        fun axis => Matrix3x3.RotationAxisAngle Real.sqrt Real.cos Real.sin axis (PI : ℝ) := by
    simp only [Matrix3x3.RotateFromTo, hN, hNn, bind, Except.bind, hdot, if_neg h1,
      if_pos h2]
  change (Vec3.Cross ⟨u.x / n, u.y / n, u.z / n⟩
      (if |u.x / n| < 9 / 10 then (⟨1, 0, 0⟩ : Vec3 ℝ) else ⟨0, 1, 0⟩)).InRange at hcr
  rw [hrun]
  generalize Vec3.Cross ⟨u.x / n, u.y / n, u.z / n⟩
      (if |u.x / n| < 9 / 10 then (⟨1, 0, 0⟩ : Vec3 ℝ) else ⟨0, 1, 0⟩) = cr at hcr hperp1 ⊢
  obtain ⟨m, hm, hmm, hM⟩ := normalize_of_inRange cr hcr
  have hw := unit_of_div cr m hm hmm
  have hRw := rotationAxisAngle_of_unit ⟨cr.x / m, cr.y / m, cr.z / m⟩ (PI : ℝ) hw
  rw [hM]
  change ∃ R, Matrix3x3.RotationAxisAngle Real.sqrt Real.cos Real.sin
      ⟨cr.x / m, cr.y / m, cr.z / m⟩ (PI : ℝ) = .ok R ∧ _
  rw [hRw]
  have hperp : cr.x / m * u.x + cr.y / m * u.y + cr.z / m * u.z = 0 := by
    field_simp
    linarith
  have hex := rodrigues_isExactRotation (Real.cos PI) (Real.sin PI) _ _ _
    (by have := Real.sin_sq_add_cos_sq (PI : ℝ); nlinarith) hw
  have hmul := rodrigues_mul_perp (Real.cos PI) (Real.sin PI)
    ⟨cr.x / m, cr.y / m, cr.z / m⟩ u hperp
  obtain ⟨bc, bs⟩ := cos_sin_PI_bounds
  have hnorm : Real.sqrt (Vec3.Dot u u) = n := by
    rw [← hnn, Real.sqrt_mul_self hn.le]
  have hD : u.x * u.x + u.y * u.y + u.z * u.z = n * n := by
    rw [hnn]; simp only [Vec3.Dot]
  have sx := mul_self_nonneg u.x
  have sy := mul_self_nonneg u.y
  have sz := mul_self_nonneg u.z
  have ux : |u.x| ≤ n := abs_le_of_mul_self_le _ _ hn.le (by linarith)
  have uy : |u.y| ≤ n := abs_le_of_mul_self_le _ _ hn.le (by linarith)
  have uz : |u.z| ≤ n := abs_le_of_mul_self_le _ _ hn.le (by linarith)
  have hsmall : 2 * (1 / 100000000000000000000 : ℝ) * n ≤ TOL * n := by
    apply mul_le_mul_of_nonneg_right _ hn.le
    unfold TOL; norm_num
  have key :
      |Real.cos PI * u.x + Real.sin PI * (cr.y / m * u.z - cr.z / m * u.y) - -u.x|
        ≤ TOL * n ∧
      |Real.cos PI * u.y + Real.sin PI * (cr.z / m * u.x - cr.x / m * u.z) - -u.y|
        ≤ TOL * n ∧
      |Real.cos PI * u.z + Real.sin PI * (cr.x / m * u.y - cr.y / m * u.x) - -u.z|
        ≤ TOL * n := by
    have wx := mul_self_nonneg (cr.x / m)
    have wy := mul_self_nonneg (cr.y / m)
    have wz := mul_self_nonneg (cr.z / m)
    refine ⟨?_, ?_, ?_⟩
    · refine le_trans (half_turn_component_bound _ _ _ _ _ n bc bs ux ?_) hsmall
      exact cross_component_bound _ _ _ _ n hn.le (by linarith) (by linarith)
    · refine le_trans (half_turn_component_bound _ _ _ _ _ n bc bs uy ?_) hsmall
      exact cross_component_bound _ _ _ _ n hn.le (by linarith) (by linarith)
    · refine le_trans (half_turn_component_bound _ _ _ _ _ n bc bs uz ?_) hsmall
      exact cross_component_bound _ _ _ _ n hn.le (by linarith) (by linarith)
  refine ⟨_, rfl, isRotation_of_exact hex, ?_, ?_⟩
  · rw [hmul, hnorm]
    exact key
  · intro hunit
    have hn1 : n = 1 := by
      rw [← hnorm, hunit, Real.sqrt_one]
    rw [hmul]
    rw [hn1, mul_one] at key
    exact key

/-- Witness of `C9_rotateFromTo_antipodal` at `u = (1,0,0)`. -/
theorem C9_rotateFromTo_antipodal_witness :
    (⟨1, 0, 0⟩ : Vec3 ℝ).InRange ∧
    ∃ R, Matrix3x3.RotateFromTo Real.sqrt Real.cos Real.sin Real.arccos
        ⟨1, 0, 0⟩ (Vec3.neg ⟨1, 0, 0⟩) = .ok R ∧
      R.IsRotation = true ∧
      (|(R.MultiplyVec ⟨1, 0, 0⟩).x - (Vec3.neg ⟨1, 0, 0⟩).x|
          ≤ TOL * Real.sqrt (Vec3.Dot (⟨1, 0, 0⟩ : Vec3 ℝ) ⟨1, 0, 0⟩) ∧
       |(R.MultiplyVec ⟨1, 0, 0⟩).y - (Vec3.neg ⟨1, 0, 0⟩).y|
          ≤ TOL * Real.sqrt (Vec3.Dot (⟨1, 0, 0⟩ : Vec3 ℝ) ⟨1, 0, 0⟩) ∧
       |(R.MultiplyVec ⟨1, 0, 0⟩).z - (Vec3.neg ⟨1, 0, 0⟩).z|
          ≤ TOL * Real.sqrt (Vec3.Dot (⟨1, 0, 0⟩ : Vec3 ℝ) ⟨1, 0, 0⟩)) ∧
      (Vec3.Dot (⟨1, 0, 0⟩ : Vec3 ℝ) ⟨1, 0, 0⟩ = 1 →
        Vec3.Near (R.MultiplyVec ⟨1, 0, 0⟩) (Vec3.neg ⟨1, 0, 0⟩)) :=
  have h : (⟨1, 0, 0⟩ : Vec3 ℝ).InRange := inRange_of_unit _ (by norm_num)
  ⟨h, C9_rotateFromTo_antipodal ⟨1, 0, 0⟩ h⟩

/-- C10 (as stated, refuted): `u = (2^-600, 0, 0)` is nonzero but its computed
norm is zero, and `u = (1e200, 0, 0)` normalizes to the zero vector because its
squared length overflows; in both cases the two `RotateFromTo u u` raise
instead of returning the identity. -/
theorem C10_counterexample :
    ((⟨1 / 2 ^ 600, 0, 0⟩ : Vec3 ℝ) ≠ ⟨0, 0, 0⟩ ∧
      Matrix3x3.RotateFromTo Real.sqrt Real.cos Real.sin Real.arccos
          ⟨1 / 2 ^ 600, 0, 0⟩ ⟨1 / 2 ^ 600, 0, 0⟩
        = .error (.invalid_argument "normalize: zero vector") ∧
      Quat.RotateFromTo Real.sqrt Real.cos Real.sin Real.arccos
          ⟨1 / 2 ^ 600, 0, 0⟩ ⟨1 / 2 ^ 600, 0, 0⟩
        = .error (.invalid_argument "normalize: zero vector")) ∧
    ((⟨10 ^ 200, 0, 0⟩ : Vec3 ℝ) ≠ ⟨0, 0, 0⟩ ∧
      Matrix3x3.RotateFromTo Real.sqrt Real.cos Real.sin Real.arccos
          ⟨10 ^ 200, 0, 0⟩ ⟨10 ^ 200, 0, 0⟩
        = .error (.invalid_argument "normalize: zero vector") ∧
      Quat.RotateFromTo Real.sqrt Real.cos Real.sin Real.arccos
          ⟨10 ^ 200, 0, 0⟩ ⟨10 ^ 200, 0, 0⟩
        = .error (.invalid_argument "normalize: zero vector")) := by
  have hU := underflow_pos
  have hsmall : (⟨1 / 2 ^ 600, 0, 0⟩ : Vec3 ℝ).SquaresUnderflow := by
    refine ⟨?_, ?_, ?_⟩
    · unfold DBL_UNDERFLOW
      norm_num
    · simp only [mul_zero]; exact hU.le
    · simp only [mul_zero]; exact hU.le
  have hN2 : Vec3.Normalize Real.sqrt (⟨10 ^ 200, 0, 0⟩ : Vec3 ℝ) = .ok ⟨0, 0, 0⟩ := by
    apply normalize_of_overflow
    simp only [Vec3.Dot, DBL_OVERFLOW]
    norm_num
  have h1 : ¬ (|(0 : ℝ) - 1| < TOL) := by unfold TOL; norm_num
  have h2 : ¬ (|(0 : ℝ) + 1| < TOL) := by unfold TOL; norm_num
  have he := rotateFromTo_error _ _ (Or.inl hsmall : (⟨1 / 2 ^ 600, 0, 0⟩ :
    Vec3 ℝ).SquaresUnderflow ∨ (⟨1 / 2 ^ 600, 0, 0⟩ : Vec3 ℝ).SquaresUnderflow)
  refine ⟨⟨?_, he.1, he.2⟩, ?_, ?_, ?_⟩
  · intro h
    simp only [Vec3.mk.injEq] at h
    norm_num at h
  · intro h
    simp only [Vec3.mk.injEq] at h
    norm_num at h
  · simp only [Matrix3x3.RotateFromTo, hN2, bind, Except.bind, Vec3.Dot, mul_zero,
      add_zero, if_neg h1, if_neg h2, Vec3.Cross, sub_self, normalize_zero]
  · simp only [Quat.RotateFromTo, hN2, bind, Except.bind, Vec3.Dot, mul_zero,
      add_zero, if_neg h1, if_neg h2, Vec3.Cross, sub_self, normalize_zero]

/-- C10 (amended): for every vector `u` of length between `1e-150` and `1e150`,
`Matrix3x3::RotateFromTo(u,u)` returns the identity matrix and
`Quat::RotateFromTo(u,u)` returns the identity quaternion `(1,0,0,0)`. -/
theorem C10_rotateFromTo_self (u : Vec3 ℝ) (h : u.InRange) :
    Matrix3x3.RotateFromTo Real.sqrt Real.cos Real.sin Real.arccos u u
      = .ok Matrix3x3.Identity ∧
    Quat.RotateFromTo Real.sqrt Real.cos Real.sin Real.arccos u u = .ok ⟨1, 0, 0, 0⟩ := by
  obtain ⟨n, hn, hnn, hN⟩ := normalize_of_inRange u h
  have hu := unit_of_div u n hn hnn
  have hdot : Vec3.Dot (⟨u.x / n, u.y / n, u.z / n⟩ : Vec3 ℝ) ⟨u.x / n, u.y / n, u.z / n⟩
      = 1 := by simpa [Vec3.Dot] using hu
  have hc : |(1 : ℝ) - 1| < TOL := by simpa using TOL_pos
  constructor
  · simp only [Matrix3x3.RotateFromTo, hN, bind, Except.bind, hdot, hc, if_true, pure,
      Except.pure]
  · simp only [Quat.RotateFromTo, hN, bind, Except.bind, hdot, hc, if_true, pure,
      Except.pure, Quat.default]

/-- Witness of `C10_rotateFromTo_self` at `u = (0,3,4)`. -/
theorem C10_rotateFromTo_self_witness :
    (⟨0, 3, 4⟩ : Vec3 ℝ).InRange ∧
    Matrix3x3.RotateFromTo Real.sqrt Real.cos Real.sin Real.arccos ⟨0, 3, 4⟩ ⟨0, 3, 4⟩
      = .ok Matrix3x3.Identity ∧
    Quat.RotateFromTo Real.sqrt Real.cos Real.sin Real.arccos ⟨0, 3, 4⟩ ⟨0, 3, 4⟩
      = .ok ⟨1, 0, 0, 0⟩ :=
  have h : (⟨0, 3, 4⟩ : Vec3 ℝ).InRange := by
    constructor <;> simp only [Vec3.Dot] <;> norm_num
  ⟨h, C10_rotateFromTo_self ⟨0, 3, 4⟩ h⟩

/-- C11: on every `Matrix4x4` some bottom-row entry of which is more than `1e-6`
away from `(0,0,0,1)`, `IsAffine` is false and each of `GetTranslation`,
`GetScale`, `GetRotation`, `GetRotationQuat`, `GetRotationScale`, `InverseTR`
and `InverseTRS` raises (a `runtime_error`) and returns no value. -/
theorem C11_affine_only_operations_raise (M : Matrix4x4 ℝ)
    (h : |M.m30| > TOL ∨ |M.m31| > TOL ∨ |M.m32| > TOL ∨ |M.m33 - 1| > TOL) :
    M.IsAffine = false ∧
    M.GetTranslation
      = .error (.runtime_error "Matrix is not affine (bottom row is not 0001)") ∧
    M.GetScale Real.sqrt
      = .error (.runtime_error "Matrix is not affine (bottom row is not 0001)") ∧
    M.GetRotation Real.sqrt
      = .error (.runtime_error "Matrix is not affine (bottom row is not 0001)") ∧
    M.GetRotationQuat Real.sqrt
      = .error (.runtime_error "Matrix is not affine (bottom row is not 0001)") ∧
    M.GetRotationScale
      = .error (.runtime_error "Matrix is not affine (bottom row is not 0001)") ∧
    M.InverseTR
      = .error (.runtime_error "InverseTR: Matrix is not affine (bottom row is not 0001)") ∧
    M.InverseTRS Real.sqrt
      = .error
          (.runtime_error "InverseTRS: Matrix is not affine (bottom row is not 0001)") := by
  have hA : M.IsAffine = false := (isAffine_eq_false_iff M).mpr h
  refine ⟨hA, ?_, ?_, ?_, ?_, ?_, ?_, ?_⟩
  · simp only [Matrix4x4.GetTranslation, hA, Bool.not_false, if_true]
  · simp only [Matrix4x4.GetScale, hA, Bool.not_false, if_true]
  · simp only [Matrix4x4.GetRotation, hA, Bool.not_false, if_true]
  · simp only [Matrix4x4.GetRotationQuat, hA, Bool.not_false, if_true]
  · simp only [Matrix4x4.GetRotationScale, hA, Bool.not_false, if_true]
  · simp only [Matrix4x4.InverseTR, hA, Bool.not_false, if_true]
  · simp only [Matrix4x4.InverseTRS, hA, Bool.not_false, if_true]

/-- Witness of `C11_affine_only_operations_raise` at the matrix with the identity
block and bottom row `(0,0,0,2)`. -/
theorem C11_affine_only_operations_raise_witness :
    (⟨1, 0, 0, 0, 0, 1, 0, 0, 0, 0, 1, 0, 0, 0, 0, 2⟩ : Matrix4x4 ℝ).IsAffine = false ∧
    (⟨1, 0, 0, 0, 0, 1, 0, 0, 0, 0, 1, 0, 0, 0, 0, 2⟩ : Matrix4x4 ℝ).GetTranslation
      = .error (.runtime_error "Matrix is not affine (bottom row is not 0001)") :=
  have h := C11_affine_only_operations_raise
    (⟨1, 0, 0, 0, 0, 1, 0, 0, 0, 0, 1, 0, 0, 0, 0, 2⟩ : Matrix4x4 ℝ)
    (Or.inr (Or.inr (Or.inr (by
      show |(2 : ℝ) - 1| > TOL
      unfold TOL; norm_num))))
  ⟨h.1, h.2.1⟩

/-- C12 (code at the failing input): the mirror matrix `diag(-1,1,1,1)` is affine
and its three block columns have norm `1`, yet `GetScale` reports the x scale
as `-1` and `InverseTRS`, which tests `s.x < TOL` without taking the magnitude,
raises "Scale too close to zero". -/
theorem C12_inverseTRS_raises_on_reflection :
    (⟨-1, 0, 0, 0, 0, 1, 0, 0, 0, 0, 1, 0, 0, 0, 0, 1⟩ : Matrix4x4 ℝ).IsAffine = true ∧
    ((TOL : ℝ) ≤ 1 ∧
     Vec3.Norm Real.sqrt (⟨-1, 0, 0⟩ : Vec3 ℝ) = .finite 1 ∧
     Vec3.Norm Real.sqrt (⟨0, 1, 0⟩ : Vec3 ℝ) = .finite 1 ∧
     Vec3.Norm Real.sqrt (⟨0, 0, 1⟩ : Vec3 ℝ) = .finite 1) ∧
    (⟨-1, 0, 0, 0, 0, 1, 0, 0, 0, 0, 1, 0, 0, 0, 0, 1⟩ : Matrix4x4 ℝ).GetScale Real.sqrt
      = .ok ⟨-1, 1, 1⟩ ∧
    (⟨-1, 0, 0, 0, 0, 1, 0, 0, 0, 0, 1, 0, 0, 0, 0, 1⟩ : Matrix4x4 ℝ).InverseTRS Real.sqrt
      = .error (.runtime_error "Matrix4x4::InverseTRS: Scale too close to zero") := by
  have hM : (⟨-1, 0, 0, 0, 0, 1, 0, 0, 0, 0, 1, 0, 0, 0, 0, 1⟩ : Matrix4x4 ℝ)
      = Matrix4x4.FromTRS ⟨0, 0, 0⟩ Matrix3x3.Identity ⟨-1, 1, 1⟩ := by
    simp [Matrix4x4.FromTRS, Matrix3x3.Identity]
  have hR : (Matrix3x3.Identity : Matrix3x3 ℝ).IsExactRotation := by
    constructor <;>
      simp [Matrix3x3.Transposed, Matrix3x3.Multiply, Matrix3x3.Identity, Matrix3x3.Det]
  have hT1 : (TOL : ℝ) ≤ 1 := by unfold TOL; norm_num
  have hs := getScale_fromTRS_of_large (⟨0, 0, 0⟩ : Vec3 ℝ) Matrix3x3.Identity
    (⟨-1, 1, 1⟩ : Vec3 ℝ) hR (by simpa using hT1) (by simpa using hT1)
    (by simpa using hT1) (by norm_num) (by norm_num) (by norm_num)
  have hnorm : ∀ w : Vec3 ℝ, w.x * w.x + w.y * w.y + w.z * w.z = 1 →
      Vec3.Norm Real.sqrt w = .finite 1 := by
    intro w hw
    have hd : Vec3.Dot w w = 1 := by simpa [Vec3.Dot] using hw
    rw [norm_of_inRange w (inRange_of_unit w hw), hd, Real.sqrt_one]
  have hs' : (Matrix4x4.FromTRS (⟨0, 0, 0⟩ : Vec3 ℝ) Matrix3x3.Identity
      ⟨-1, 1, 1⟩).GetScale Real.sqrt = .ok ⟨-1, 1, 1⟩ := by
    rw [hs]; norm_num
  have hneg : (-1 : ℝ) < TOL := by unfold TOL; norm_num
  refine ⟨?_, ⟨hT1, ?_, ?_, ?_⟩, ?_, ?_⟩
  · rw [hM]; exact isAffine_fromTRS _ _ _
  · exact hnorm _ (by norm_num)
  · exact hnorm _ (by norm_num)
  · exact hnorm _ (by norm_num)
  · rw [hM]; exact hs'
  · rw [hM]
    simp only [Matrix4x4.InverseTRS, isAffine_fromTRS, Bool.not_true, Bool.false_eq_true,
      if_false, hs', bind, Except.bind, hneg, true_or, if_true]

/-- C13 (code at the failing input): the matrix `0.9999999 · I` passes
`IsRotation` (`RᵗR` and `det` are within `1e-6` of `I` and `1`), its angle
`acos(1 - 1.5e-7)` is neither below `1e-6` nor within `1e-6` of `PI`, so the
general branch runs; the matrix is symmetric, the axis before normalization is
`(0,0,0)`, and `ToAxisAngle` raises from `Vec3::Normalize`. -/
theorem C13_toAxisAngle_raises_on_scaled_identity :
    (⟨9999999 / 10000000, 0, 0, 0, 9999999 / 10000000, 0, 0, 0, 9999999 / 10000000⟩ :
      Matrix3x3 ℝ).IsRotation = true ∧
    (⟨9999999 / 10000000, 0, 0, 0, 9999999 / 10000000, 0, 0, 0, 9999999 / 10000000⟩ :
      Matrix3x3 ℝ).ToAxisAngle Real.sqrt Real.sin Real.arccos
      = .error (.invalid_argument "normalize: zero vector") := by
  have hrot : (⟨9999999 / 10000000, 0, 0, 0, 9999999 / 10000000, 0, 0, 0,
      9999999 / 10000000⟩ : Matrix3x3 ℝ).IsRotation = true := by
    rw [isRotation_iff]
    simp only [Matrix3x3.Transposed, Matrix3x3.Multiply, Matrix3x3.Det, TOL]
    refine ⟨?_, ?_, ?_, ?_, ?_, ?_, ?_, ?_, ?_, ?_⟩ <;> rw [abs_le] <;>
      constructor <;> norm_num
  refine ⟨hrot, ?_⟩
  have hc : ((9999999 / 10000000 + 9999999 / 10000000 + 9999999 / 10000000 - 1) * (1 / 2)
      : ℝ) = 19999997 / 20000000 := by norm_num
  have hlow : TOL < Real.arccos (19999997 / 20000000) :=
    TOL_lt_arccos _ (by norm_num) (by unfold TOL; norm_num)
  have hhigh : Real.arccos (19999997 / 20000000) ≤ Real.pi / 2 :=
    Real.arccos_le_pi_div_two.mpr (by norm_num)
  have c1 : ¬ (|Real.arccos (19999997 / 20000000)| < TOL) := by
    rw [abs_of_pos (lt_trans TOL_pos hlow)]; exact not_lt.mpr hlow.le
  have c2 : ¬ (|PI - Real.arccos (19999997 / 20000000)| < TOL) := by
    have := pi_div_two_add_TOL_lt_PI
    rw [abs_of_pos (by linarith [TOL_pos]), not_lt]
    linarith
  simp only [Matrix3x3.ToAxisAngle, hrot, Bool.not_true, Bool.false_eq_true, if_false,
    Matrix3x3.Trace, hc, if_neg c1, if_neg c2, sub_self, zero_div, normalize_zero,
    bind, Except.bind]

/-- C14: for exact rotations `initial` and `final`, `RotateToTarget` does not
raise and returns `R_delta = final · initialᵗ`, which satisfies
`R_delta · initial = final`; if either input fails `IsRotation` it raises. -/
theorem C14_rotateToTarget (initial final : Matrix3x3 ℝ) :
    (initial.IsExactRotation → final.IsExactRotation →
      Matrix3x3.RotateToTarget initial final = .ok (final.Multiply initial.Transposed) ∧
      (final.Multiply initial.Transposed).Multiply initial = final) ∧
    (initial.IsRotation = false ∨ final.IsRotation = false →
      ∃ msg, Matrix3x3.RotateToTarget initial final = .error (.invalid_argument msg)) := by
  constructor
  · intro hi hf
    have ri := isRotation_of_exact hi
    have rf := isRotation_of_exact hf
    obtain ⟨⟨c0, c1, c2⟩, c01, c02, c12⟩ := hi.cols
    refine ⟨?_, ?_⟩
    · simp only [Matrix3x3.RotateToTarget, ri, rf, Bool.not_true, Bool.false_eq_true,
        if_false]
    obtain ⟨f00, f01, f02, f10, f11, f12, f20, f21, f22⟩ := final
    simp only [Matrix3x3.Multiply, Matrix3x3.Transposed, Matrix3x3.mk.injEq]
    refine ⟨?_, ?_, ?_, ?_, ?_, ?_, ?_, ?_, ?_⟩
    · linear_combination f00 * c0 + f01 * c01 + f02 * c02
    · linear_combination f00 * c01 + f01 * c1 + f02 * c12
    · linear_combination f00 * c02 + f01 * c12 + f02 * c2
    · linear_combination f10 * c0 + f11 * c01 + f12 * c02
    · linear_combination f10 * c01 + f11 * c1 + f12 * c12
    · linear_combination f10 * c02 + f11 * c12 + f12 * c2
    · linear_combination f20 * c0 + f21 * c01 + f22 * c02
    · linear_combination f20 * c01 + f21 * c1 + f22 * c12
    · linear_combination f20 * c02 + f21 * c12 + f22 * c2
  · intro h
    by_cases hi : initial.IsRotation = true
    · have hf : final.IsRotation = false := by
        rcases h with h | h
        · rw [hi] at h; cases h
        · exact h
      exact ⟨"RotateToTarget: finalRot is not a rotation",
        by simp only [Matrix3x3.RotateToTarget, hi, hf, Bool.not_true,
          Bool.not_false, Bool.false_eq_true, if_false, if_true]⟩
    · have hi' : initial.IsRotation = false := by simpa using hi
      exact ⟨"RotateToTarget: initialRot is not a rotation",
        by simp only [Matrix3x3.RotateToTarget, hi', Bool.not_false, if_true]⟩

/-- Witness of `C14_rotateToTarget`: the quarter turn about `z` as both inputs,
and the zero matrix as a non-rotation input. -/
theorem C14_rotateToTarget_witness :
    (Matrix3x3.RotateToTarget (⟨0, -1, 0, 1, 0, 0, 0, 0, 1⟩ : Matrix3x3 ℝ)
        ⟨0, -1, 0, 1, 0, 0, 0, 0, 1⟩
      = .ok ((⟨0, -1, 0, 1, 0, 0, 0, 0, 1⟩ : Matrix3x3 ℝ).Multiply
          (Matrix3x3.Transposed ⟨0, -1, 0, 1, 0, 0, 0, 0, 1⟩)) ∧
     ((⟨0, -1, 0, 1, 0, 0, 0, 0, 1⟩ : Matrix3x3 ℝ).Multiply
          (Matrix3x3.Transposed ⟨0, -1, 0, 1, 0, 0, 0, 0, 1⟩)).Multiply
        ⟨0, -1, 0, 1, 0, 0, 0, 0, 1⟩ = ⟨0, -1, 0, 1, 0, 0, 0, 0, 1⟩) ∧
    (∃ msg, Matrix3x3.RotateToTarget (⟨0, 0, 0, 0, 0, 0, 0, 0, 0⟩ : Matrix3x3 ℝ)
        ⟨0, -1, 0, 1, 0, 0, 0, 0, 1⟩ = .error (.invalid_argument msg)) :=
  ⟨(C14_rotateToTarget ⟨0, -1, 0, 1, 0, 0, 0, 0, 1⟩ ⟨0, -1, 0, 1, 0, 0, 0, 0, 1⟩).1
      (by constructor <;>
        simp [Matrix3x3.Transposed, Matrix3x3.Multiply, Matrix3x3.Identity, Matrix3x3.Det])
      (by constructor <;>
        simp [Matrix3x3.Transposed, Matrix3x3.Multiply, Matrix3x3.Identity, Matrix3x3.Det]),
   (C14_rotateToTarget ⟨0, 0, 0, 0, 0, 0, 0, 0, 0⟩ ⟨0, -1, 0, 1, 0, 0, 0, 0, 1⟩).2
      (Or.inl (by
        have h : |(0 + 0 * 0 + 0 * 0 + 0 * 0 : ℝ) - 1| > TOL := by
          norm_num [TOL]
        simp only [Matrix3x3.IsRotation, Matrix3x3.Transposed, Matrix3x3.Multiply,
          Matrix3x3.Identity, h, if_true]))⟩

/-- C15 (as stated, refuted): `qi = (2^-600, 0, 0, 0)` is nonzero but its
computed norm is zero, so that `RotateToTarget qi qf` raises; and
`qi = (1e200, 0, 0, 0)` normalizes to the zero quaternion because its squared
norm overflows, so that the final `Normalized` raises. -/
theorem C15_counterexample :
    ((⟨1 / 2 ^ 600, 0, 0, 0⟩ : Quat ℝ) ≠ ⟨0, 0, 0, 0⟩ ∧
      (⟨1, 0, 0, 0⟩ : Quat ℝ) ≠ ⟨0, 0, 0, 0⟩ ∧
      Quat.RotateToTarget Real.sqrt ⟨1 / 2 ^ 600, 0, 0, 0⟩ ⟨1, 0, 0, 0⟩
        = .error (.invalid_argument "Quat::Normalized: zero norm")) ∧
    ((⟨10 ^ 200, 0, 0, 0⟩ : Quat ℝ) ≠ ⟨0, 0, 0, 0⟩ ∧
      (⟨10 ^ 200, 0, 0, 0⟩ : Quat ℝ).Normalized Real.sqrt = .ok ⟨0, 0, 0, 0⟩ ∧
      Quat.RotateToTarget Real.sqrt ⟨10 ^ 200, 0, 0, 0⟩ ⟨1, 0, 0, 0⟩
        = .error (.invalid_argument "Quat::Normalized: zero norm")) := by
  have hU := underflow_pos
  have hN1 : (⟨1 / 2 ^ 600, 0, 0, 0⟩ : Quat ℝ).Normalized Real.sqrt
      = .error (.invalid_argument "Quat::Normalized: zero norm") := by
    apply quat_normalized_of_underflow
    · unfold DBL_UNDERFLOW
      norm_num
    · simp only [mul_zero]; exact hU.le
    · simp only [mul_zero]; exact hU.le
    · simp only [mul_zero]; exact hU.le
  have hN2 : (⟨10 ^ 200, 0, 0, 0⟩ : Quat ℝ).Normalized Real.sqrt = .ok ⟨0, 0, 0, 0⟩ := by
    apply quat_normalized_of_overflow
    simp only [DBL_OVERFLOW]
    norm_num
  have hN3 : (⟨1, 0, 0, 0⟩ : Quat ℝ).Normalized Real.sqrt = .ok ⟨1, 0, 0, 0⟩ :=
    quat_normalized_of_unit _ (by norm_num)
  have hN0 : (⟨0, 0, 0, 0⟩ : Quat ℝ).Normalized Real.sqrt
      = .error (.invalid_argument "Quat::Normalized: zero norm") := by
    apply quat_normalized_of_underflow <;> simp only [mul_zero] <;> exact hU.le
  refine ⟨⟨?_, ?_, ?_⟩, ?_, hN2, ?_⟩
  · intro h
    simp only [Quat.mk.injEq] at h
    norm_num at h
  · intro h
    simp only [Quat.mk.injEq] at h
    norm_num at h
  · simp only [Quat.RotateToTarget, hN1, bind, Except.bind]
  · intro h
    simp only [Quat.mk.injEq] at h
    norm_num at h
  · simp only [Quat.RotateToTarget, hN2, hN3, bind, Except.bind, Quat.Multiply, neg_zero,
      mul_zero, zero_mul, sub_self, add_zero, hN0]

/-- C15 (amended): for quaternions `qi` and `qf` of norm between `1e-150` and
`1e150`, `RotateToTarget qi qf` does not raise, its result `d` is a unit
quaternion, and `d` composed with the normalized `qi` is the normalized `qf`. -/
theorem C15_quat_rotateToTarget (qi qf : Quat ℝ) (hi : qi.InRange) (hf : qf.InRange) :
    ∃ d ni nf, Quat.RotateToTarget Real.sqrt qi qf = .ok d ∧
      qi.Normalized Real.sqrt = .ok ni ∧ qf.Normalized Real.sqrt = .ok nf ∧
      d.s * d.s + d.x * d.x + d.y * d.y + d.z * d.z = 1 ∧
      d.Multiply ni = nf := by
  obtain ⟨n, -, -, hNi, hui⟩ := quat_normalized_of_inRange qi hi
  obtain ⟨m, -, -, hNf, huf⟩ := quat_normalized_of_inRange qf hf
  obtain ⟨hd, hmul⟩ := quat_mul_conj ⟨qf.s / m, qf.x / m, qf.y / m, qf.z / m⟩
    ⟨qi.s / n, qi.x / n, qi.y / n, qi.z / n⟩ huf hui
  refine ⟨_, _, _, ?_, hNi, hNf, hd, hmul⟩
  simp only [Quat.RotateToTarget, hNi, hNf, bind, Except.bind]
  exact quat_normalized_of_unit _ hd

/-- Witness of `C15_quat_rotateToTarget` at `qi = (2,0,0,0)`, `qf = (0,0,3,0)`. -/
theorem C15_quat_rotateToTarget_witness :
    ((⟨2, 0, 0, 0⟩ : Quat ℝ).InRange ∧ (⟨0, 0, 3, 0⟩ : Quat ℝ).InRange) ∧
    ∃ d ni nf, Quat.RotateToTarget Real.sqrt (⟨2, 0, 0, 0⟩ : Quat ℝ) ⟨0, 0, 3, 0⟩ = .ok d ∧
      (⟨2, 0, 0, 0⟩ : Quat ℝ).Normalized Real.sqrt = .ok ni ∧
      (⟨0, 0, 3, 0⟩ : Quat ℝ).Normalized Real.sqrt = .ok nf ∧
      d.s * d.s + d.x * d.x + d.y * d.y + d.z * d.z = 1 ∧
      d.Multiply ni = nf :=
  have h1 : (⟨2, 0, 0, 0⟩ : Quat ℝ).InRange := by
    constructor <;> norm_num
  have h2 : (⟨0, 0, 3, 0⟩ : Quat ℝ).InRange := by
    constructor <;> norm_num
  ⟨⟨h1, h2⟩, C15_quat_rotateToTarget ⟨2, 0, 0, 0⟩ ⟨0, 0, 3, 0⟩ h1 h2⟩

/-- C16: with `w = M[3][0]·p.x + M[3][1]·p.y + M[3][2]·p.z + M[3][3]`,
`TransformPoint p` raises if and only if `|w| < 1e-6`, and otherwise returns the
first three components of `M·(p,1)`, each divided by `w`. -/
theorem C16_transformPoint (M : Matrix4x4 ℝ) (p : Vec3 ℝ) :
    ((∃ e, M.TransformPoint p = .error e) ↔ |(M.m30 * p.x + M.m31 * p.y + M.m32 * p.z + M.m33)| < TOL) ∧
    M.TransformPoint p =
      if |(M.m30 * p.x + M.m31 * p.y + M.m32 * p.z + M.m33)| < TOL then
        .error (.runtime_error "Matrix4x4::TransformPoint: w component is zero")
      else
        .ok ⟨(M.m00 * p.x + M.m01 * p.y + M.m02 * p.z + M.m03) / (M.m30 * p.x + M.m31 * p.y + M.m32 * p.z + M.m33),
             (M.m10 * p.x + M.m11 * p.y + M.m12 * p.z + M.m13) / (M.m30 * p.x + M.m31 * p.y + M.m32 * p.z + M.m33),
             (M.m20 * p.x + M.m21 * p.y + M.m22 * p.z + M.m23) / (M.m30 * p.x + M.m31 * p.y + M.m32 * p.z + M.m33)⟩ := by
  have hval : M.TransformPoint p =
      if |(M.m30 * p.x + M.m31 * p.y + M.m32 * p.z + M.m33)| < TOL then
        .error (.runtime_error "Matrix4x4::TransformPoint: w component is zero")
      else
        .ok ⟨(M.m00 * p.x + M.m01 * p.y + M.m02 * p.z + M.m03) / (M.m30 * p.x + M.m31 * p.y + M.m32 * p.z + M.m33),
             (M.m10 * p.x + M.m11 * p.y + M.m12 * p.z + M.m13) / (M.m30 * p.x + M.m31 * p.y + M.m32 * p.z + M.m33),
             (M.m20 * p.x + M.m21 * p.y + M.m22 * p.z + M.m23) / (M.m30 * p.x + M.m31 * p.y + M.m32 * p.z + M.m33)⟩ := by
    simp only [Matrix4x4.TransformPoint, Matrix4x4.MultiplyVec, mul_one]
  refine ⟨?_, hval⟩
  rw [hval]
  by_cases h : |(M.m30 * p.x + M.m31 * p.y + M.m32 * p.z + M.m33)| < TOL
  · rw [if_pos h]
    exact ⟨fun _ => h, fun _ => ⟨_, rfl⟩⟩
  · rw [if_neg h]
    constructor
    · rintro ⟨e, he⟩
      cases he
    · intro h'
      exact absurd h' h

/-- C17 (as stated, refuted): the vector `(2^-600, 0, 0)` and the quaternion
`(2^-600, 0, 0, 0)` are nonzero, yet their squares underflow, the computed norm
is zero and `Normalize` / `Normalized` raise; the vector `(1e200, 0, 0)` has an
infinite computed norm and normalizes to the zero vector, whose norm is not
`1`. -/
theorem C17_counterexample :
    ((⟨1 / 2 ^ 600, 0, 0⟩ : Vec3 ℝ) ≠ ⟨0, 0, 0⟩ ∧
      Vec3.Norm Real.sqrt (⟨1 / 2 ^ 600, 0, 0⟩ : Vec3 ℝ) = .finite 0 ∧
      Vec3.Normalize Real.sqrt (⟨1 / 2 ^ 600, 0, 0⟩ : Vec3 ℝ)
        = .error (.invalid_argument "normalize: zero vector")) ∧
    ((⟨1 / 2 ^ 600, 0, 0, 0⟩ : Quat ℝ) ≠ ⟨0, 0, 0, 0⟩ ∧
      (⟨1 / 2 ^ 600, 0, 0, 0⟩ : Quat ℝ).Normalized Real.sqrt
        = .error (.invalid_argument "Quat::Normalized: zero norm")) ∧
    ((⟨10 ^ 200, 0, 0⟩ : Vec3 ℝ) ≠ ⟨0, 0, 0⟩ ∧
      Vec3.Norm Real.sqrt (⟨10 ^ 200, 0, 0⟩ : Vec3 ℝ) = .infinite ∧
      Vec3.Normalize Real.sqrt (⟨10 ^ 200, 0, 0⟩ : Vec3 ℝ) = .ok ⟨0, 0, 0⟩ ∧
      Vec3.Norm Real.sqrt (⟨0, 0, 0⟩ : Vec3 ℝ) = .finite 0) := by
  have hU := underflow_pos
  have hsmall : (1 / 2 ^ 600 : ℝ) * (1 / 2 ^ 600) ≤ DBL_UNDERFLOW := by
    unfold DBL_UNDERFLOW
    norm_num
  have h0 : (0 : ℝ) * 0 ≤ DBL_UNDERFLOW := by simp only [mul_zero]; exact hU.le
  have hbig : DBL_OVERFLOW ≤ Vec3.Dot (⟨10 ^ 200, 0, 0⟩ : Vec3 ℝ) ⟨10 ^ 200, 0, 0⟩ := by
    simp only [Vec3.Dot, DBL_OVERFLOW]
    norm_num
  refine ⟨⟨?_, norm_of_underflow _ hsmall h0 h0, normalize_of_underflow _ hsmall h0 h0⟩,
    ⟨?_, quat_normalized_of_underflow _ hsmall h0 h0 h0⟩,
    ?_, norm_of_overflow _ hbig, normalize_of_overflow _ hbig, norm_of_underflow _ h0 h0 h0⟩
  · intro h
    simp only [Vec3.mk.injEq] at h
    norm_num at h
  · intro h
    simp only [Quat.mk.injEq] at h
    norm_num at h
  · intro h
    simp only [Vec3.mk.injEq] at h
    norm_num at h

/-- C17 (amended): `Vec3::Normalize` raises if and only if the computed norm is
exactly zero, which holds if and only if every square of a component
underflows (at most `2^-1075`), the zero vector included; `Quat::Normalized`
raises if and only if every square of a component underflows; for a vector or
quaternion of length between `1e-150` and `1e150` the result has norm `1` and is
a positive multiple of the input. -/
theorem C17_normalize (v : Vec3 ℝ) (q : Quat ℝ) :
    ((∃ e, v.Normalize Real.sqrt = .error e) ↔ v.Norm Real.sqrt = .finite 0) ∧
    (v.Norm Real.sqrt = .finite 0 ↔ v.SquaresUnderflow) ∧
    (v = ⟨0, 0, 0⟩ → v.SquaresUnderflow) ∧
    (v.InRange → ∃ r k, v.Normalize Real.sqrt = .ok r ∧ r.Norm Real.sqrt = .finite 1 ∧
      0 < k ∧ r = ⟨k * v.x, k * v.y, k * v.z⟩) ∧
    ((∃ e, q.Normalized Real.sqrt = .error e) ↔ q.SquaresUnderflow) ∧
    (q = ⟨0, 0, 0, 0⟩ → q.SquaresUnderflow) ∧
    (q.InRange → ∃ r k, q.Normalized Real.sqrt = .ok r ∧
      r.s * r.s + r.x * r.x + r.y * r.y + r.z * r.z = 1 ∧
      0 < k ∧ r = ⟨k * q.s, k * q.x, k * q.y, k * q.z⟩) := by
  have hU := underflow_pos
  have hvec : v.InRange → ∃ r k, v.Normalize Real.sqrt = .ok r ∧
      r.Norm Real.sqrt = .finite 1 ∧ 0 < k ∧ r = ⟨k * v.x, k * v.y, k * v.z⟩ := by
    intro hv
    obtain ⟨n, hn, hnn, hN⟩ := normalize_of_inRange v hv
    have hu := unit_of_div v n hn hnn
    refine ⟨_, 1 / n, hN, ?_, by positivity, ?_⟩
    · have hd : Vec3.Dot (⟨v.x / n, v.y / n, v.z / n⟩ : Vec3 ℝ)
          ⟨v.x / n, v.y / n, v.z / n⟩ = 1 := by simpa [Vec3.Dot] using hu
      rw [norm_of_inRange _ (inRange_of_unit _ hu), hd, Real.sqrt_one]
    · simp only [Vec3.mk.injEq]
      refine ⟨?_, ?_, ?_⟩ <;> ring
  have hquat : q.InRange → ∃ r k, q.Normalized Real.sqrt = .ok r ∧
      r.s * r.s + r.x * r.x + r.y * r.y + r.z * r.z = 1 ∧
      0 < k ∧ r = ⟨k * q.s, k * q.x, k * q.y, k * q.z⟩ := by
    intro hq
    obtain ⟨n, hn, -, hN, hu⟩ := quat_normalized_of_inRange q hq
    refine ⟨_, 1 / n, hN, hu, by positivity, ?_⟩
    simp only [Quat.mk.injEq]
    refine ⟨?_, ?_, ?_, ?_⟩ <;> ring
  have hnorm : v.Norm Real.sqrt = .finite 0 ↔ v.SquaresUnderflow := by
    constructor
    · intro h0
      by_contra hu
      have hu1 : ¬ (v.x * v.x ≤ DBL_UNDERFLOW ∧ v.y * v.y ≤ DBL_UNDERFLOW
          ∧ v.z * v.z ≤ DBL_UNDERFLOW) := hu
      by_cases ho : DBL_OVERFLOW ≤ Vec3.Dot v v
      · rw [norm_of_overflow v ho] at h0
        cases h0
      · have hd : 0 < Vec3.Dot v v := by
          have sx := mul_self_nonneg v.x
          have sy := mul_self_nonneg v.y
          have sz := mul_self_nonneg v.z
          simp only [Vec3.Dot]
          by_contra hle
          apply hu1
          refine ⟨?_, ?_, ?_⟩ <;> linarith
        simp only [Vec3.Norm, if_neg hu1, if_neg ho, Ext.finite.injEq] at h0
        exact (Real.sqrt_pos.mpr hd).ne' h0
    · intro hu
      exact norm_of_underflow v hu.1 hu.2.1 hu.2.2
  have hverr : (∃ e, v.Normalize Real.sqrt = .error e) ↔ v.Norm Real.sqrt = .finite 0 :=
    (normalize_error_iff v).1.trans hnorm.symm
  have hqerr : (∃ e, q.Normalized Real.sqrt = .error e) ↔ q.SquaresUnderflow := by
    constructor
    · rintro ⟨e, he⟩
      by_contra hu
      have hu1 : ¬ (q.s * q.s ≤ DBL_UNDERFLOW ∧ q.x * q.x ≤ DBL_UNDERFLOW
          ∧ q.y * q.y ≤ DBL_UNDERFLOW ∧ q.z * q.z ≤ DBL_UNDERFLOW) := hu
      by_cases ho : DBL_OVERFLOW ≤ q.s * q.s + q.x * q.x + q.y * q.y + q.z * q.z
      · rw [quat_normalized_of_overflow q ho] at he
        cases he
      · have hd : 0 < q.s * q.s + q.x * q.x + q.y * q.y + q.z * q.z := by
          have ss := mul_self_nonneg q.s
          have sx := mul_self_nonneg q.x
          have sy := mul_self_nonneg q.y
          have sz := mul_self_nonneg q.z
          by_contra hle
          apply hu1
          refine ⟨?_, ?_, ?_, ?_⟩ <;> linarith
        have hn : Real.sqrt (q.s * q.s + q.x * q.x + q.y * q.y + q.z * q.z) ≠ 0 :=
          (Real.sqrt_pos.mpr hd).ne'
        simp only [Quat.Normalized, if_neg hu1, if_neg ho, if_neg hn] at he
        cases he
    · intro hu
      exact ⟨_, quat_normalized_of_underflow q hu.1 hu.2.1 hu.2.2.1 hu.2.2.2⟩
  refine ⟨hverr, hnorm, ?_, hvec, hqerr, ?_, hquat⟩
  · intro hv
    rw [hv]
    refine ⟨?_, ?_, ?_⟩ <;> simp only [mul_zero] <;> exact hU.le
  · intro hq
    rw [hq]
    refine ⟨?_, ?_, ?_, ?_⟩ <;> simp only [mul_zero] <;> exact hU.le

/-- Witness of `C17_normalize` at `v = (0,3,4)` and `q = (2,0,0,0)`. -/
theorem C17_normalize_witness :
    ((⟨0, 3, 4⟩ : Vec3 ℝ).InRange ∧ (⟨2, 0, 0, 0⟩ : Quat ℝ).InRange) ∧
    (∃ r k, (⟨0, 3, 4⟩ : Vec3 ℝ).Normalize Real.sqrt = .ok r ∧
      r.Norm Real.sqrt = .finite 1 ∧ 0 < k ∧ r = ⟨k * 0, k * 3, k * 4⟩) ∧
    (∃ r k, (⟨2, 0, 0, 0⟩ : Quat ℝ).Normalized Real.sqrt = .ok r ∧
      r.s * r.s + r.x * r.x + r.y * r.y + r.z * r.z = 1 ∧
      0 < k ∧ r = ⟨k * 2, k * 0, k * 0, k * 0⟩) :=
  have h1 : (⟨0, 3, 4⟩ : Vec3 ℝ).InRange := by
    constructor <;> simp only [Vec3.Dot] <;> norm_num
  have h2 : (⟨2, 0, 0, 0⟩ : Quat ℝ).InRange := by
    constructor <;> norm_num
  ⟨⟨h1, h2⟩, (C17_normalize ⟨0, 3, 4⟩ ⟨2, 0, 0, 0⟩).2.2.2.1 h1,
   (C17_normalize ⟨0, 3, 4⟩ ⟨2, 0, 0, 0⟩).2.2.2.2.2.2 h2⟩

/-- C18: `M = FromTRS (1,2,3) Identity (2,2,2)` transforms the point `(0,0,0)` to
`(1,2,3)` and the point `(1,0,0)` to `(3,2,3)`. -/
theorem C18_fromTRS_transformPoint :
    (Matrix4x4.FromTRS (⟨1, 2, 3⟩ : Vec3 ℝ) Matrix3x3.Identity ⟨2, 2, 2⟩).TransformPoint
        ⟨0, 0, 0⟩ = .ok ⟨1, 2, 3⟩ ∧
    (Matrix4x4.FromTRS (⟨1, 2, 3⟩ : Vec3 ℝ) Matrix3x3.Identity ⟨2, 2, 2⟩).TransformPoint
        ⟨1, 0, 0⟩ = .ok ⟨3, 2, 3⟩ := by
  have hw : ¬ (|(0 * 0 + 0 * 0 + 0 * 0 + 1 * 1 : ℝ)| < TOL) := by
    norm_num [TOL]
  have hw' : ¬ (|(0 * 1 + 0 * 0 + 0 * 0 + 1 * 1 : ℝ)| < TOL) := by
    norm_num [TOL]
  constructor
  · simp only [Matrix4x4.TransformPoint, Matrix4x4.MultiplyVec, Matrix4x4.FromTRS,
      Matrix3x3.Identity, if_neg hw]
    norm_num
  · simp only [Matrix4x4.TransformPoint, Matrix4x4.MultiplyVec, Matrix4x4.FromTRS,
      Matrix3x3.Identity, if_neg hw']
    norm_num

/-- C19: `RotationAxisAngle (0,0,1) (π/2)` applied to `(1,0,0)` is `(0,1,0)`:
exactly for the real `π / 2`, and within `1e-6` in every component for half the
literal `PI` of the source. -/
theorem C19_quarter_turn_about_z :
    (∃ R, Matrix3x3.RotationAxisAngle Real.sqrt Real.cos Real.sin ⟨0, 0, 1⟩ (Real.pi / 2)
        = .ok R ∧
      R.MultiplyVec ⟨1, 0, 0⟩ = ⟨0, 1, 0⟩ ∧
      Vec3.Near (R.MultiplyVec ⟨1, 0, 0⟩) ⟨0, 1, 0⟩) ∧
    (∃ R, Matrix3x3.RotationAxisAngle Real.sqrt Real.cos Real.sin ⟨0, 0, 1⟩ (PI / 2)
        = .ok R ∧
      Vec3.Near (R.MultiplyVec ⟨1, 0, 0⟩) ⟨0, 1, 0⟩) := by
  have hu : (⟨0, 0, 1⟩ : Vec3 ℝ).x * (⟨0, 0, 1⟩ : Vec3 ℝ).x
      + (⟨0, 0, 1⟩ : Vec3 ℝ).y * (⟨0, 0, 1⟩ : Vec3 ℝ).y
      + (⟨0, 0, 1⟩ : Vec3 ℝ).z * (⟨0, 0, 1⟩ : Vec3 ℝ).z = 1 := by norm_num
  have tp := TOL_pos
  constructor
  · refine ⟨_, rotationAxisAngle_of_unit ⟨0, 0, 1⟩ (Real.pi / 2) hu, ?_, ?_⟩
    · simp [Matrix3x3.MultiplyVec]
    · simp [Matrix3x3.MultiplyVec, Vec3.Near, tp.le]
  · refine ⟨_, rotationAxisAngle_of_unit ⟨0, 0, 1⟩ (PI / 2) hu, ?_⟩
    obtain ⟨bc, bs⟩ := cos_sin_half_PI_bounds
    have hT : (1 / 100000000000000000000 : ℝ) ≤ TOL := by unfold TOL; norm_num
    simp only [Matrix3x3.MultiplyVec, Vec3.Near, mul_zero, mul_one, add_zero, sub_zero,
      zero_mul, zero_add, sub_self, abs_zero]
    exact ⟨le_trans bc hT, le_trans bs hT, tp.le⟩

/-- C20: `FromAxisAngle (0,1,0) π` rotates `(1,0,0)` to `(-1,0,0)`: exactly for the
real `π`, and within `1e-6` in every component for the literal `PI` of the
source. -/
theorem C20_half_turn_about_y :
    (∃ q, Quat.FromAxisAngle Real.sqrt Real.cos Real.sin ⟨0, 1, 0⟩ Real.pi = .ok q ∧
      q.Rotate ⟨1, 0, 0⟩ = ⟨-1, 0, 0⟩ ∧
      Vec3.Near (q.Rotate ⟨1, 0, 0⟩) ⟨-1, 0, 0⟩) ∧
    (∃ q, Quat.FromAxisAngle Real.sqrt Real.cos Real.sin ⟨0, 1, 0⟩ PI = .ok q ∧
      Vec3.Near (q.Rotate ⟨1, 0, 0⟩) ⟨-1, 0, 0⟩) := by
  have hu : (⟨0, 1, 0⟩ : Vec3 ℝ).x * (⟨0, 1, 0⟩ : Vec3 ℝ).x
      + (⟨0, 1, 0⟩ : Vec3 ℝ).y * (⟨0, 1, 0⟩ : Vec3 ℝ).y
      + (⟨0, 1, 0⟩ : Vec3 ℝ).z * (⟨0, 1, 0⟩ : Vec3 ℝ).z = 1 := by norm_num
  have hN := normalize_of_unit ⟨0, 1, 0⟩ hu
  have tp := TOL_pos
  have hval : ∀ φ : ℝ, Quat.FromAxisAngle Real.sqrt Real.cos Real.sin ⟨0, 1, 0⟩ φ
      = .ok ⟨Real.cos (φ / 2), 0, Real.sin (φ / 2), 0⟩ := by
    intro φ
    have e : 1 / 2 * φ = φ / 2 := by ring
    simp only [Quat.FromAxisAngle, hN, bind, Except.bind, pure, Except.pure, e, zero_mul,
      one_mul]
  have hrot : ∀ c s : ℝ, Quat.Rotate ⟨c, 0, s, 0⟩ (⟨1, 0, 0⟩ : Vec3 ℝ)
      = ⟨1 - 2 * (s * s), 0, -(2 * (c * s))⟩ := by
    intro c s
    simp only [Quat.Rotate, Vec3.Cross, Vec3.mk.injEq]
    refine ⟨?_, ?_, ?_⟩ <;> ring
  constructor
  · refine ⟨_, hval Real.pi, ?_, ?_⟩
    · rw [hrot, Real.cos_pi_div_two, Real.sin_pi_div_two]; norm_num
    · rw [hrot, Real.cos_pi_div_two, Real.sin_pi_div_two]
      simp only [Vec3.Near]
      norm_num
      exact tp.le
  · refine ⟨_, hval PI, ?_⟩
    rw [hrot]
    obtain ⟨bc, bs⟩ := cos_sin_half_PI_bounds
    have hsc := Real.sin_sq_add_cos_sq ((PI : ℝ) / 2)
    have hs1 := Real.sin_le_one ((PI : ℝ) / 2)
    have hs0 := Real.neg_one_le_sin ((PI : ℝ) / 2)
    rw [abs_le] at bc
    simp only [Vec3.Near, sub_self, abs_zero]
    unfold TOL
    refine ⟨?_, by norm_num, ?_⟩
    · rw [abs_le]
      constructor <;> nlinarith
    · rw [abs_le]
      constructor <;> nlinarith

/-- C21 (code at the failing input): the rotation about `z` by `5e-7` passes
`IsRotation`, its angle `acos((trace - 1)/2)` is `5e-7`, below `1e-6`, and
`ToAxisAngle` returns the axis `(1,0,0)` together with the angle `5e-7`: the
angle is returned as computed, not set to `0`. -/
theorem C21_toAxisAngle_small_angle_kept :
    ∃ R, Matrix3x3.RotationAxisAngle Real.sqrt Real.cos Real.sin ⟨0, 0, 1⟩ (1 / 2000000)
        = .ok R ∧
      R.IsRotation = true ∧
      Real.arccos ((R.Trace - 1) * (1 / 2)) = 1 / 2000000 ∧
      |Real.arccos ((R.Trace - 1) * (1 / 2))| < TOL ∧
      R.ToAxisAngle Real.sqrt Real.sin Real.arccos = .ok (⟨1, 0, 0⟩, 1 / 2000000) ∧
      (1 / 2000000 : ℝ) ≠ 0 := by
  have hu : (⟨0, 0, 1⟩ : Vec3 ℝ).x * (⟨0, 0, 1⟩ : Vec3 ℝ).x
      + (⟨0, 0, 1⟩ : Vec3 ℝ).y * (⟨0, 0, 1⟩ : Vec3 ℝ).y
      + (⟨0, 0, 1⟩ : Vec3 ℝ).z * (⟨0, 0, 1⟩ : Vec3 ℝ).z = 1 := by norm_num
  have hπ : (1 / 2000000 : ℝ) ≤ Real.pi := by linarith [Real.pi_gt_three]
  have h0 : (0 : ℝ) ≤ 1 / 2000000 := by norm_num
  have hsmall : |(1 / 2000000 : ℝ)| < TOL := by
    rw [abs_of_pos (by norm_num)]; unfold TOL; norm_num
  have hex := rodrigues_isExactRotation (Real.cos (1 / 2000000)) (Real.sin (1 / 2000000))
    0 0 1 (by have := Real.sin_sq_add_cos_sq (1 / 2000000 : ℝ); nlinarith) (by norm_num)
  have hacos : Real.arccos (Real.cos (1 / 2000000)) = 1 / 2000000 :=
    Real.arccos_cos h0 hπ
  refine ⟨_, rotationAxisAngle_of_unit ⟨0, 0, 1⟩ (1 / 2000000) hu, isRotation_of_exact hex,
    ?_, ?_, ?_, by norm_num⟩
  · rw [trace_rodrigues ⟨0, 0, 1⟩ (1 / 2000000) hu, hacos]
  · rw [trace_rodrigues ⟨0, 0, 1⟩ (1 / 2000000) hu, hacos]
    exact hsmall
  · rw [toAxisAngle_rodrigues ⟨0, 0, 1⟩ (1 / 2000000) hu h0 hπ, if_pos hsmall]

/-- C22 (code at the failing input): for the unit axis `u = (0, 3/5, -4/5)` the
half-turn `RotationAxisAngle u π` is `2uuᵗ - I`; `ToAxisAngle` takes the
angle≈π branch and returns the axis `(0, 3/5, 4/5)`, which is neither `u` nor
`-u` and is not fixed by the rotation. -/
theorem C22_toAxisAngle_half_turn_wrong_axis :
    Vec3.Dot (⟨0, 3 / 5, -4 / 5⟩ : Vec3 ℝ) ⟨0, 3 / 5, -4 / 5⟩ = 1 ∧
    Matrix3x3.RotationAxisAngle Real.sqrt Real.cos Real.sin ⟨0, 3 / 5, -4 / 5⟩ Real.pi
      = .ok ⟨-1, 0, 0, 0, -7 / 25, -24 / 25, 0, -24 / 25, 7 / 25⟩ ∧
    (⟨-1, 0, 0, 0, -7 / 25, -24 / 25, 0, -24 / 25, 7 / 25⟩ : Matrix3x3 ℝ).ToAxisAngle Real.sqrt Real.sin Real.arccos
      = .ok (⟨0, 3 / 5, 4 / 5⟩, Real.pi) ∧
    ¬ Vec3.Near (⟨0, 3 / 5, 4 / 5⟩ : Vec3 ℝ) ⟨0, 3 / 5, -4 / 5⟩ ∧
    ¬ Vec3.Near (⟨0, 3 / 5, 4 / 5⟩ : Vec3 ℝ) (Vec3.neg ⟨0, 3 / 5, -4 / 5⟩) ∧
    (⟨-1, 0, 0, 0, -7 / 25, -24 / 25, 0, -24 / 25, 7 / 25⟩ : Matrix3x3 ℝ).MultiplyVec ⟨0, 3 / 5, 4 / 5⟩ = ⟨0, -117 / 125, -44 / 125⟩ := by
  have hu : (⟨0, 3 / 5, -4 / 5⟩ : Vec3 ℝ).x * (⟨0, 3 / 5, -4 / 5⟩ : Vec3 ℝ).x
      + (⟨0, 3 / 5, -4 / 5⟩ : Vec3 ℝ).y * (⟨0, 3 / 5, -4 / 5⟩ : Vec3 ℝ).y
      + (⟨0, 3 / 5, -4 / 5⟩ : Vec3 ℝ).z * (⟨0, 3 / 5, -4 / 5⟩ : Vec3 ℝ).z = 1 := by
    norm_num
  have hval := rotationAxisAngle_of_unit ⟨0, 3 / 5, -4 / 5⟩ Real.pi hu
  have hRm : (⟨Real.cos Real.pi + (1 - Real.cos Real.pi) * (⟨0, 3 / 5, -4 / 5⟩ : Vec3 ℝ).x
          * (⟨0, 3 / 5, -4 / 5⟩ : Vec3 ℝ).x,
        (1 - Real.cos Real.pi) * (⟨0, 3 / 5, -4 / 5⟩ : Vec3 ℝ).x
          * (⟨0, 3 / 5, -4 / 5⟩ : Vec3 ℝ).y
          - Real.sin Real.pi * (⟨0, 3 / 5, -4 / 5⟩ : Vec3 ℝ).z,
        (1 - Real.cos Real.pi) * (⟨0, 3 / 5, -4 / 5⟩ : Vec3 ℝ).x
          * (⟨0, 3 / 5, -4 / 5⟩ : Vec3 ℝ).z
          + Real.sin Real.pi * (⟨0, 3 / 5, -4 / 5⟩ : Vec3 ℝ).y,
        (1 - Real.cos Real.pi) * (⟨0, 3 / 5, -4 / 5⟩ : Vec3 ℝ).y
          * (⟨0, 3 / 5, -4 / 5⟩ : Vec3 ℝ).x
          + Real.sin Real.pi * (⟨0, 3 / 5, -4 / 5⟩ : Vec3 ℝ).z,
        Real.cos Real.pi + (1 - Real.cos Real.pi) * (⟨0, 3 / 5, -4 / 5⟩ : Vec3 ℝ).y
          * (⟨0, 3 / 5, -4 / 5⟩ : Vec3 ℝ).y,
        (1 - Real.cos Real.pi) * (⟨0, 3 / 5, -4 / 5⟩ : Vec3 ℝ).y
          * (⟨0, 3 / 5, -4 / 5⟩ : Vec3 ℝ).z
          - Real.sin Real.pi * (⟨0, 3 / 5, -4 / 5⟩ : Vec3 ℝ).x,
        (1 - Real.cos Real.pi) * (⟨0, 3 / 5, -4 / 5⟩ : Vec3 ℝ).z
          * (⟨0, 3 / 5, -4 / 5⟩ : Vec3 ℝ).x
          - Real.sin Real.pi * (⟨0, 3 / 5, -4 / 5⟩ : Vec3 ℝ).y,
        (1 - Real.cos Real.pi) * (⟨0, 3 / 5, -4 / 5⟩ : Vec3 ℝ).z
          * (⟨0, 3 / 5, -4 / 5⟩ : Vec3 ℝ).y
          + Real.sin Real.pi * (⟨0, 3 / 5, -4 / 5⟩ : Vec3 ℝ).x,
        Real.cos Real.pi + (1 - Real.cos Real.pi) * (⟨0, 3 / 5, -4 / 5⟩ : Vec3 ℝ).z
          * (⟨0, 3 / 5, -4 / 5⟩ : Vec3 ℝ).z⟩ : Matrix3x3 ℝ)
      = ⟨-1, 0, 0, 0, -7 / 25, -24 / 25, 0, -24 / 25, 7 / 25⟩ := by
    simp only [Real.cos_pi, Real.sin_pi, Matrix3x3.mk.injEq]
    norm_num
  have c1 : ¬ (|Real.pi| < TOL) := by
    rw [abs_of_pos Real.pi_pos, not_lt]
    have := Real.pi_gt_three
    unfold TOL; norm_num; linarith
  have c2 : |(PI : ℝ) - Real.pi| < TOL := by
    have h1 := Real.pi_gt_d20
    have h2 := Real.pi_lt_d20
    rw [abs_lt]
    unfold PI TOL
    norm_num at h1 h2 ⊢
    constructor <;> linarith
  have hy : Real.sqrt ((-1 + (1 - -1) * (3 / 5) * (3 / 5) + 1) * (1 / 2)) = 3 / 5 := by
    rw [show (((-1 : ℝ) + (1 - -1) * (3 / 5) * (3 / 5) + 1) * (1 / 2)) = (3 / 5) ^ 2 by
      norm_num]
    exact Real.sqrt_sq (by norm_num)
  have hz : Real.sqrt ((-1 + (1 - -1) * (-4 / 5) * (-4 / 5) + 1) * (1 / 2)) = 4 / 5 := by
    rw [show (((-1 : ℝ) + (1 - -1) * (-4 / 5) * (-4 / 5) + 1) * (1 / 2)) = (4 / 5) ^ 2 by
      norm_num]
    exact Real.sqrt_sq (by norm_num)
  have hx : Real.sqrt ((-1 + (1 - -1) * 0 * 0 + 1) * (1 / 2)) = 0 := by
    rw [show (((-1 : ℝ) + (1 - -1) * 0 * 0 + 1) * (1 / 2)) = 0 by norm_num]
    exact Real.sqrt_zero
  have hn : (⟨0, 3 / 5, 4 / 5⟩ : Vec3 ℝ).Normalize Real.sqrt = .ok ⟨0, 3 / 5, 4 / 5⟩ :=
    normalize_of_unit _ (by norm_num)
  refine ⟨by simp only [Vec3.Dot]; norm_num, ?_, ?_, ?_, ?_, ?_⟩
  · rw [hval, hRm]
  · rw [← hRm, toAxisAngle_rodrigues ⟨0, 3 / 5, -4 / 5⟩ Real.pi hu Real.pi_pos.le le_rfl,
      if_neg c1, if_pos c2]
    simp only [Real.cos_pi, Real.sin_pi, hx, hy, hz]
    have f1 : ¬ ((1 - -1) * 0 * (3 / 5) - 0 * (-4 / 5)
        + ((1 - -1) * (3 / 5) * 0 + 0 * (-4 / 5)) < (0 : ℝ)) := by norm_num
    have f2 : ¬ ((1 - -1) * 0 * (-4 / 5) + 0 * (3 / 5)
        + ((1 - -1) * (-4 / 5) * 0 - 0 * (3 / 5)) < (0 : ℝ)) := by norm_num
    simp only [if_neg f1, if_neg f2, hn, bind, Except.bind, pure, Except.pure]
  · intro h
    have h3 := h.2.2
    simp only [TOL] at h3
    rw [abs_le] at h3
    norm_num at h3
  · intro h
    have h2 := h.2.1
    simp only [TOL, Vec3.neg] at h2
    rw [abs_le] at h2
    norm_num at h2
  · simp only [Matrix3x3.MultiplyVec, Vec3.mk.injEq]
    norm_num

/-- C23 (as stated, refuted): `u = (1e200, 0, 0)` and `v = (0, 1, 0)` are
nonzero; the squared length of `u` overflows, so that `u` normalizes to the
zero vector `a`; with `b = v` the dot product `d = 0` is in the general regime,
the cross product `a × b` is zero and `RotateFromTo u v` raises. -/
theorem C23_counterexample :
    (⟨10 ^ 200, 0, 0⟩ : Vec3 ℝ) ≠ ⟨0, 0, 0⟩ ∧ (⟨0, 1, 0⟩ : Vec3 ℝ) ≠ ⟨0, 0, 0⟩ ∧
    Vec3.Normalize Real.sqrt (⟨10 ^ 200, 0, 0⟩ : Vec3 ℝ) = .ok ⟨0, 0, 0⟩ ∧
    Vec3.Normalize Real.sqrt (⟨0, 1, 0⟩ : Vec3 ℝ) = .ok ⟨0, 1, 0⟩ ∧
    TOL ≤ |Vec3.Dot (⟨0, 0, 0⟩ : Vec3 ℝ) ⟨0, 1, 0⟩ - 1| ∧
    TOL ≤ |Vec3.Dot (⟨0, 0, 0⟩ : Vec3 ℝ) ⟨0, 1, 0⟩ + 1| ∧
    Matrix3x3.RotateFromTo Real.sqrt Real.cos Real.sin Real.arccos
        ⟨10 ^ 200, 0, 0⟩ ⟨0, 1, 0⟩
      = .error (.invalid_argument "normalize: zero vector") := by
  have hN1 : Vec3.Normalize Real.sqrt (⟨10 ^ 200, 0, 0⟩ : Vec3 ℝ) = .ok ⟨0, 0, 0⟩ := by
    apply normalize_of_overflow
    simp only [Vec3.Dot, DBL_OVERFLOW]
    norm_num
  have hN2 : Vec3.Normalize Real.sqrt (⟨0, 1, 0⟩ : Vec3 ℝ) = .ok ⟨0, 1, 0⟩ :=
    normalize_of_unit _ (by norm_num)
  have hd : Vec3.Dot (⟨0, 0, 0⟩ : Vec3 ℝ) ⟨0, 1, 0⟩ = 0 := by
    simp only [Vec3.Dot]
    norm_num
  have h1 : ¬ (|(0 : ℝ) - 1| < TOL) := by unfold TOL; norm_num
  have h2 : ¬ (|(0 : ℝ) + 1| < TOL) := by unfold TOL; norm_num
  refine ⟨?_, ?_, hN1, hN2, ?_, ?_, ?_⟩
  · intro h
    simp only [Vec3.mk.injEq] at h
    norm_num at h
  · intro h
    simp only [Vec3.mk.injEq] at h
    norm_num at h
  · rw [hd]; exact not_lt.mp h1
  · rw [hd]; exact not_lt.mp h2
  · simp only [Matrix3x3.RotateFromTo, hN1, hN2, bind, Except.bind, hd, if_neg h1,
      if_neg h2, Vec3.Cross, mul_zero, zero_mul, sub_self, normalize_zero]

/-- C23 (amended): for `u`, `v` of length between `1e-150` and `1e150` with
normalizations `a`, `b` whose dot product `d` satisfies `|d - 1| ≥ 1e-6` and
`|d + 1| ≥ 1e-6`, `RotateFromTo u v` does not raise, its result `R` passes
`IsRotation`, and `R · a = b` exactly. -/
theorem C23_rotateFromTo_general (u v a b : Vec3 ℝ) (hu : u.InRange) (hv : v.InRange)
    (ha : u.Normalize Real.sqrt = .ok a) (hb : v.Normalize Real.sqrt = .ok b)
    (h1 : TOL ≤ |Vec3.Dot a b - 1|) (h2 : TOL ≤ |Vec3.Dot a b + 1|) :
    ∃ R, Matrix3x3.RotateFromTo Real.sqrt Real.cos Real.sin Real.arccos u v = .ok R ∧
      R.IsRotation = true ∧ R.MultiplyVec a = b := by
  have tp := TOL_pos
  have ua := unit_of_normalize u a hu ha
  have ub := unit_of_normalize v b hv hb
  have hlag := dot_cross_self a b ua ub
  have hcr0 : 0 ≤ Vec3.Dot (Vec3.Cross a b) (Vec3.Cross a b) := by
    simp only [Vec3.Dot]
    nlinarith [mul_self_nonneg (Vec3.Cross a b).x, mul_self_nonneg (Vec3.Cross a b).y,
      mul_self_nonneg (Vec3.Cross a b).z]
  have hd1 : Vec3.Dot a b ≠ 1 := by
    intro h; rw [h, sub_self, abs_zero] at h1; linarith
  have hd2 : Vec3.Dot a b ≠ -1 := by
    intro h; rw [h, neg_add_cancel, abs_zero] at h2; linarith
  have hdle : Vec3.Dot a b * Vec3.Dot a b ≤ 1 := by linarith
  have hlo : -1 ≤ Vec3.Dot a b := by nlinarith
  have hhi : Vec3.Dot a b ≤ 1 := by nlinarith
  have hcrpos : 0 < Vec3.Dot (Vec3.Cross a b) (Vec3.Cross a b) := by
    rw [hlag]
    have p1 : 0 < 1 - Vec3.Dot a b := lt_of_le_of_ne (by linarith) (fun h => hd1 (by linarith))
    have p2 : 0 < 1 + Vec3.Dot a b := lt_of_le_of_ne (by linarith) (fun h => hd2 (by linarith))
    nlinarith [mul_pos p1 p2]
  have hcr : (Vec3.Cross a b).InRange :=
    cross_inRange_of_general a b ua ub h1 h2
  have hperp0 : (Vec3.Cross a b).x * a.x + (Vec3.Cross a b).y * a.y
      + (Vec3.Cross a b).z * a.z = 0 := by
    simp only [Vec3.Cross]; ring
  have hmulx : Vec3.Dot a b * a.x
      + ((Vec3.Cross a b).y * a.z - (Vec3.Cross a b).z * a.y) = b.x := by
    simp only [Vec3.Dot, Vec3.Cross]; linear_combination b.x * ua
  have hmuly : Vec3.Dot a b * a.y
      + ((Vec3.Cross a b).z * a.x - (Vec3.Cross a b).x * a.z) = b.y := by
    simp only [Vec3.Dot, Vec3.Cross]; linear_combination b.y * ua
  have hmulz : Vec3.Dot a b * a.z
      + ((Vec3.Cross a b).x * a.y - (Vec3.Cross a b).y * a.x) = b.z := by
    simp only [Vec3.Dot, Vec3.Cross]; linear_combination b.z * ua
  have c1 : ¬ (|Vec3.Dot a b - 1| < TOL) := not_lt.mpr h1
  have c2 : ¬ (|Vec3.Dot a b + 1| < TOL) := not_lt.mpr h2
  have hrun : Matrix3x3.RotateFromTo Real.sqrt Real.cos Real.sin Real.arccos u v
      = (Vec3.Normalize Real.sqrt (Vec3.Cross a b)) >>= fun axis =>
          Matrix3x3.RotationAxisAngle Real.sqrt Real.cos Real.sin axis
            (Real.arccos (Vec3.Dot a b)) := by
    simp only [Matrix3x3.RotateFromTo, ha, hb, bind, Except.bind, if_neg c1, if_neg c2]
  rw [hrun]
  generalize Vec3.Cross a b = cr at hcr hperp0 hmulx hmuly hmulz hlag hcrpos ⊢
  generalize Vec3.Dot a b = d at hlag hlo hhi hmulx hmuly hmulz ⊢
  obtain ⟨k, hk, hkk, hM⟩ := normalize_of_inRange cr hcr
  have hw := unit_of_div cr k hk hkk
  have hRw := rotationAxisAngle_of_unit ⟨cr.x / k, cr.y / k, cr.z / k⟩ (Real.arccos d) hw
  rw [hM]
  change ∃ R, Matrix3x3.RotationAxisAngle Real.sqrt Real.cos Real.sin
      ⟨cr.x / k, cr.y / k, cr.z / k⟩ (Real.arccos d) = .ok R ∧ _
  rw [hRw]
  have hcos : Real.cos (Real.arccos d) = d := Real.cos_arccos hlo hhi
  have hk2 : 1 - d ^ 2 = k * k := by rw [hkk, hlag]; ring
  have hsin : Real.sin (Real.arccos d) = k := by
    rw [Real.sin_arccos, hk2, Real.sqrt_mul_self hk.le]
  have hsc : Real.sin (Real.arccos d) * Real.sin (Real.arccos d)
      + Real.cos (Real.arccos d) * Real.cos (Real.arccos d) = 1 := by
    have h := Real.sin_sq_add_cos_sq (Real.arccos d)
    rw [sq, sq] at h
    exact h
  have hex := rodrigues_isExactRotation (Real.cos (Real.arccos d))
    (Real.sin (Real.arccos d)) (cr.x / k) (cr.y / k) (cr.z / k) hsc hw
  have hperp : cr.x / k * a.x + cr.y / k * a.y + cr.z / k * a.z = 0 := by
    field_simp
    linarith
  have hmul := rodrigues_mul_perp (Real.cos (Real.arccos d)) (Real.sin (Real.arccos d))
    ⟨cr.x / k, cr.y / k, cr.z / k⟩ a hperp
  refine ⟨_, rfl, isRotation_of_exact hex, ?_⟩
  rw [hmul, hcos, hsin]
  obtain ⟨bx, by', bz⟩ := b
  simp only [Vec3.mk.injEq]
  simp only at hmulx hmuly hmulz
  refine ⟨?_, ?_, ?_⟩
  · rw [← hmulx]; field_simp
  · rw [← hmuly]; field_simp
  · rw [← hmulz]; field_simp

/-- Witness of `C23_rotateFromTo_general` at `u = (1,0,0)`, `v = (0,1,0)`. -/
theorem C23_rotateFromTo_general_witness :
    ((⟨1, 0, 0⟩ : Vec3 ℝ).InRange ∧ (⟨0, 1, 0⟩ : Vec3 ℝ).InRange) ∧
    ∃ R, Matrix3x3.RotateFromTo Real.sqrt Real.cos Real.sin Real.arccos
        ⟨1, 0, 0⟩ ⟨0, 1, 0⟩ = .ok R ∧
      R.IsRotation = true ∧ R.MultiplyVec ⟨1, 0, 0⟩ = ⟨0, 1, 0⟩ :=
  have h1 : (⟨1, 0, 0⟩ : Vec3 ℝ).InRange := inRange_of_unit _ (by norm_num)
  have h2 : (⟨0, 1, 0⟩ : Vec3 ℝ).InRange := inRange_of_unit _ (by norm_num)
  ⟨⟨h1, h2⟩, C23_rotateFromTo_general ⟨1, 0, 0⟩ ⟨0, 1, 0⟩ ⟨1, 0, 0⟩ ⟨0, 1, 0⟩ h1 h2
    (normalize_of_unit _ (by norm_num)) (normalize_of_unit _ (by norm_num))
    (by norm_num [Vec3.Dot, TOL]) (by norm_num [Vec3.Dot, TOL])⟩

/-- C24: for all real yaw, pitch, roll the three axis rotations are defined and
`FromEulerZYX yaw pitch roll` equals the product
`RotationAxisAngle (0,0,1) yaw · RotationAxisAngle (0,1,0) pitch ·
RotationAxisAngle (1,0,0) roll` (in either association); it is an exact
rotation and passes `IsRotation`. -/
theorem C24_fromEulerZYX_product (yaw pitch roll : ℝ) :
    ∃ Rz Ry Rx,
      Matrix3x3.RotationAxisAngle Real.sqrt Real.cos Real.sin ⟨0, 0, 1⟩ yaw = .ok Rz ∧
      Matrix3x3.RotationAxisAngle Real.sqrt Real.cos Real.sin ⟨0, 1, 0⟩ pitch = .ok Ry ∧
      Matrix3x3.RotationAxisAngle Real.sqrt Real.cos Real.sin ⟨1, 0, 0⟩ roll = .ok Rx ∧
      Matrix3x3.FromEulerZYX Real.cos Real.sin yaw pitch roll = (Rz.Multiply Ry).Multiply Rx ∧
      Matrix3x3.FromEulerZYX Real.cos Real.sin yaw pitch roll = Rz.Multiply (Ry.Multiply Rx) ∧
      (Matrix3x3.FromEulerZYX Real.cos Real.sin yaw pitch roll).IsRotation = true ∧
      (Matrix3x3.FromEulerZYX Real.cos Real.sin yaw pitch roll).IsExactRotation := by
  have hex := euler_isExactRotation (Real.cos yaw) (Real.sin yaw) (Real.cos pitch)
    (Real.sin pitch) (Real.cos roll) (Real.sin roll) (sin_mul_self_add_cos_mul_self yaw)
    (sin_mul_self_add_cos_mul_self pitch) (sin_mul_self_add_cos_mul_self roll)
  refine ⟨_, _, _, rotationAxisAngle_of_unit ⟨0, 0, 1⟩ yaw (by norm_num),
    rotationAxisAngle_of_unit ⟨0, 1, 0⟩ pitch (by norm_num),
    rotationAxisAngle_of_unit ⟨1, 0, 0⟩ roll (by norm_num), ?_, ?_,
    isRotation_of_exact hex, hex⟩
  · simp only [Matrix3x3.FromEulerZYX, Matrix3x3.Multiply, Matrix3x3.mk.injEq]
    refine ⟨?_, ?_, ?_, ?_, ?_, ?_, ?_, ?_, ?_⟩ <;> ring
  · simp only [Matrix3x3.FromEulerZYX, Matrix3x3.Multiply, Matrix3x3.mk.injEq]
    refine ⟨?_, ?_, ?_, ?_, ?_, ?_, ?_, ?_, ?_⟩ <;> ring

/-- C25 (as stated, refuted): the affine matrix `diag(-1e155, 3, 4, 1)` has
the block `I·diag(s)` with `s = (-1e155, 3, 4)` and every `|s_i| ≥ 1e-6`; the
squared length `1e310` of its first block column is beyond the range of a
`double`, the column norm is `+inf`, and `GetScale` has an infinite x component
instead of `-1e155`. -/
theorem C25_counterexample :
    (⟨-10 ^ 155, 0, 0, 0, 0, 3, 0, 0, 0, 0, 4, 0, 0, 0, 0, 1⟩ : Matrix4x4 ℝ).GetRotationScale
      = .ok
        ⟨(Matrix3x3.Identity : Matrix3x3 ℝ).m00 * -10 ^ 155,
          (Matrix3x3.Identity : Matrix3x3 ℝ).m01 * 3,
          (Matrix3x3.Identity : Matrix3x3 ℝ).m02 * 4,
          (Matrix3x3.Identity : Matrix3x3 ℝ).m10 * -10 ^ 155,
          (Matrix3x3.Identity : Matrix3x3 ℝ).m11 * 3,
          (Matrix3x3.Identity : Matrix3x3 ℝ).m12 * 4,
          (Matrix3x3.Identity : Matrix3x3 ℝ).m20 * -10 ^ 155,
          (Matrix3x3.Identity : Matrix3x3 ℝ).m21 * 3,
          (Matrix3x3.Identity : Matrix3x3 ℝ).m22 * 4⟩ ∧
    (Matrix3x3.Identity : Matrix3x3 ℝ).IsExactRotation ∧
    (TOL ≤ |(-10 ^ 155 : ℝ)| ∧ TOL ≤ |(3 : ℝ)| ∧ TOL ≤ |(4 : ℝ)|) ∧
    Vec3.Norm Real.sqrt (⟨-10 ^ 155, 0, 0⟩ : Vec3 ℝ) = .infinite ∧
    (⟨-10 ^ 155, 0, 0, 0, 0, 3, 0, 0, 0, 0, 4, 0, 0, 0, 0, 1⟩ : Matrix4x4 ℝ).GetScale
      Real.sqrt = .error .non_finite := by
  have hR : (Matrix3x3.Identity : Matrix3x3 ℝ).IsExactRotation := by
    constructor <;>
      simp [Matrix3x3.Transposed, Matrix3x3.Multiply, Matrix3x3.Identity, Matrix3x3.Det]
  have hA : (⟨-10 ^ 155, 0, 0, 0, 0, 3, 0, 0, 0, 0, 4, 0, 0, 0, 0, 1⟩ :
      Matrix4x4 ℝ).IsAffine = true := by
    simp [Matrix4x4.IsAffine, TOL]
  have hN : Vec3.Norm Real.sqrt (⟨-10 ^ 155, 0, 0⟩ : Vec3 ℝ) = .infinite := by
    apply norm_of_overflow
    simp only [Vec3.Dot, DBL_OVERFLOW]
    norm_num
  have hT : (TOL : ℝ) ≤ 1 := by unfold TOL; norm_num
  have hbig : (1 : ℝ) ≤ 10 ^ 155 := one_le_pow₀ (by norm_num)
  refine ⟨?_, hR, ⟨?_, ?_, ?_⟩, hN, getScale_of_overflow _ hA (Or.inl hN)⟩
  · simp only [Matrix4x4.GetRotationScale, hA, Bool.not_true, Bool.false_eq_true, if_false,
      Matrix3x3.Identity, one_mul, zero_mul]
  · rw [abs_neg, abs_of_pos (by positivity)]
    linarith
  · rw [abs_of_pos (by norm_num)]
    linarith
  · rw [abs_of_pos (by norm_num)]
    linarith

/-- C25 (amended): for every affine `M` whose 3×3 block is `R·diag(s)` with `R`
an exact rotation and every `|s_i|` between `1e-6` and `1e150`, `GetScale M` is
`(σ·|s.x|, |s.y|, |s.z|)` with `σ = -1` if `s.x·s.y·s.z < 0` and `σ = 1`
otherwise; the `y` and `z` components are not negative. -/
theorem C25_getScale_sign_convention (M : Matrix4x4 ℝ) (R : Matrix3x3 ℝ) (s : Vec3 ℝ)
    (hB : M.GetRotationScale = .ok
        ⟨R.m00 * s.x, R.m01 * s.y, R.m02 * s.z,
         R.m10 * s.x, R.m11 * s.y, R.m12 * s.z,
         R.m20 * s.x, R.m21 * s.y, R.m22 * s.z⟩)
    (hR : R.IsExactRotation)
    (hx : TOL ≤ |s.x|) (hy : TOL ≤ |s.y|) (hz : TOL ≤ |s.z|)
    (ux : |s.x| ≤ 10 ^ 150) (uy : |s.y| ≤ 10 ^ 150) (uz : |s.z| ≤ 10 ^ 150) :
    ∃ sc, M.GetScale Real.sqrt = .ok sc ∧
      sc = ⟨(if s.x * s.y * s.z < 0 then -1 else 1) * |s.x|, |s.y|, |s.z|⟩ ∧
      0 ≤ sc.y ∧ 0 ≤ sc.z := by
  obtain ⟨hA, hblk⟩ := getRotationScale_eq_ok M _ hB
  have h := getScale_of_block M R s 1 hA hblk hR.1 hR.2 (Or.inl rfl) hx hy hz ux uy uz
  rw [one_mul] at h
  refine ⟨_, h, ?_, abs_nonneg _, abs_nonneg _⟩
  by_cases hneg : s.x * s.y * s.z < 0
  · simp only [if_pos hneg, neg_one_mul]
  · simp only [if_neg hneg, one_mul]

/-- Witness of `C25_getScale_sign_convention` at the mirror matrix
`diag(-2, 3, 4, 1)`, with `R = I` and `s = (-2, 3, 4)`. -/
theorem C25_getScale_sign_convention_witness :
    ∃ sc, (⟨-2, 0, 0, 0, 0, 3, 0, 0, 0, 0, 4, 0, 0, 0, 0, 1⟩ : Matrix4x4 ℝ).GetScale Real.sqrt
        = .ok sc ∧
      sc = ⟨(if (-2 : ℝ) * 3 * 4 < 0 then -1 else 1) * |(-2 : ℝ)|, |(3 : ℝ)|, |(4 : ℝ)|⟩ ∧
      0 ≤ sc.y ∧ 0 ≤ sc.z :=
  C25_getScale_sign_convention ⟨-2, 0, 0, 0, 0, 3, 0, 0, 0, 0, 4, 0, 0, 0, 0, 1⟩
    Matrix3x3.Identity ⟨-2, 3, 4⟩
    (by simp [Matrix4x4.GetRotationScale, Matrix4x4.IsAffine, Matrix3x3.Identity, TOL])
    (by constructor <;>
      simp [Matrix3x3.Transposed, Matrix3x3.Multiply, Matrix3x3.Identity, Matrix3x3.Det])
    (by simp only [TOL]; rw [abs_of_neg (by norm_num)]; norm_num)
    (by simp only [TOL]; rw [abs_of_pos (by norm_num)]; norm_num)
    (by simp only [TOL]; rw [abs_of_pos (by norm_num)]; norm_num)
    (by rw [abs_of_neg (by norm_num)]; norm_num)
    (by rw [abs_of_pos (by norm_num)]; norm_num)
    (by rw [abs_of_pos (by norm_num)]; norm_num)

/-- C26 (as stated, refuted): the affine matrix `diag(1e155, 1, 1, 1)` has the
block `I·diag(s)` with `s = (1e155, 1, 1)`, `I` orthonormal and every
`|s_i| ≥ 1e-6`; the norm of its first block column is `+inf`, so that
`GetScale` has an infinite component and there is no rotation `Rot` and finite
scale `sc` that `GetRotation` and `GetScale` return. -/
theorem C26_counterexample :
    (⟨10 ^ 155, 0, 0, 0, 0, 1, 0, 0, 0, 0, 1, 0, 0, 0, 0, 1⟩ : Matrix4x4 ℝ).GetRotationScale
      = .ok
        ⟨(Matrix3x3.Identity : Matrix3x3 ℝ).m00 * 10 ^ 155,
          (Matrix3x3.Identity : Matrix3x3 ℝ).m01 * 1,
          (Matrix3x3.Identity : Matrix3x3 ℝ).m02 * 1,
          (Matrix3x3.Identity : Matrix3x3 ℝ).m10 * 10 ^ 155,
          (Matrix3x3.Identity : Matrix3x3 ℝ).m11 * 1,
          (Matrix3x3.Identity : Matrix3x3 ℝ).m12 * 1,
          (Matrix3x3.Identity : Matrix3x3 ℝ).m20 * 10 ^ 155,
          (Matrix3x3.Identity : Matrix3x3 ℝ).m21 * 1,
          (Matrix3x3.Identity : Matrix3x3 ℝ).m22 * 1⟩ ∧
    ((Matrix3x3.Identity : Matrix3x3 ℝ).Transposed.Multiply Matrix3x3.Identity
        = Matrix3x3.Identity ∧ (Matrix3x3.Identity : Matrix3x3 ℝ).Det = 1) ∧
    (TOL ≤ |(10 ^ 155 : ℝ)| ∧ TOL ≤ |(1 : ℝ)| ∧ TOL ≤ |(1 : ℝ)|) ∧
    Vec3.Norm Real.sqrt (⟨10 ^ 155, 0, 0⟩ : Vec3 ℝ) = .infinite ∧
    (⟨10 ^ 155, 0, 0, 0, 0, 1, 0, 0, 0, 0, 1, 0, 0, 0, 0, 1⟩ : Matrix4x4 ℝ).GetScale
      Real.sqrt = .error .non_finite ∧
    ¬ ∃ Rot sc,
      (⟨10 ^ 155, 0, 0, 0, 0, 1, 0, 0, 0, 0, 1, 0, 0, 0, 0, 1⟩ : Matrix4x4 ℝ).GetRotation
        Real.sqrt = .ok Rot ∧
      (⟨10 ^ 155, 0, 0, 0, 0, 1, 0, 0, 0, 0, 1, 0, 0, 0, 0, 1⟩ : Matrix4x4 ℝ).GetScale
        Real.sqrt = .ok sc := by
  have hR : (Matrix3x3.Identity : Matrix3x3 ℝ).IsExactRotation := by
    constructor <;>
      simp [Matrix3x3.Transposed, Matrix3x3.Multiply, Matrix3x3.Identity, Matrix3x3.Det]
  have hA : (⟨10 ^ 155, 0, 0, 0, 0, 1, 0, 0, 0, 0, 1, 0, 0, 0, 0, 1⟩ :
      Matrix4x4 ℝ).IsAffine = true := by
    simp [Matrix4x4.IsAffine, TOL]
  have hN : Vec3.Norm Real.sqrt (⟨10 ^ 155, 0, 0⟩ : Vec3 ℝ) = .infinite := by
    apply norm_of_overflow
    simp only [Vec3.Dot, DBL_OVERFLOW]
    norm_num
  have hS := getScale_of_overflow _ hA (Or.inl hN)
  have hT : (TOL : ℝ) ≤ 1 := by unfold TOL; norm_num
  have hbig : (1 : ℝ) ≤ 10 ^ 155 := one_le_pow₀ (by norm_num)
  refine ⟨?_, hR, ⟨?_, ?_, ?_⟩, hN, hS, ?_⟩
  · simp only [Matrix4x4.GetRotationScale, hA, Bool.not_true, Bool.false_eq_true, if_false,
      Matrix3x3.Identity, one_mul, zero_mul, mul_one]
  · rw [abs_of_pos (by positivity)]
    linarith
  · rw [abs_of_pos (by norm_num)]
    exact hT
  · rw [abs_of_pos (by norm_num)]
    exact hT
  · rintro ⟨Rot, sc, -, hsc⟩
    rw [hS] at hsc
    cases hsc

/-- C26 (amended): for every affine `M` whose 3×3 block is `R·diag(s)` with `R`
orthonormal (`RᵗR = I`, `det R = ±1`) and every `|s_i|` between `1e-6` and
`1e150`, `GetRotation M` does not raise and is orthonormal with determinant `+1`
(it passes `IsRotation`), also when the block is a reflection, and its columns
rescaled by the components of `GetScale M` give the block of `M` back. -/
theorem C26_getRotation_decomposition (M : Matrix4x4 ℝ) (R : Matrix3x3 ℝ) (s : Vec3 ℝ)
    (hB : M.GetRotationScale = .ok
        ⟨R.m00 * s.x, R.m01 * s.y, R.m02 * s.z,
         R.m10 * s.x, R.m11 * s.y, R.m12 * s.z,
         R.m20 * s.x, R.m21 * s.y, R.m22 * s.z⟩)
    (hO : R.Transposed.Multiply R = Matrix3x3.Identity)
    (hD : R.Det = 1 ∨ R.Det = -1)
    (hx : TOL ≤ |s.x|) (hy : TOL ≤ |s.y|) (hz : TOL ≤ |s.z|)
    (ux : |s.x| ≤ 10 ^ 150) (uy : |s.y| ≤ 10 ^ 150) (uz : |s.z| ≤ 10 ^ 150) :
    ∃ Rot sc, M.GetRotation Real.sqrt = .ok Rot ∧ M.GetScale Real.sqrt = .ok sc ∧
      Rot.IsRotation = true ∧
      Rot.Transposed.Multiply Rot = Matrix3x3.Identity ∧ Rot.Det = 1 ∧
      M.GetRotationScale = .ok
        ⟨Rot.m00 * sc.x, Rot.m01 * sc.y, Rot.m02 * sc.z,
         Rot.m10 * sc.x, Rot.m11 * sc.y, Rot.m12 * sc.z,
         Rot.m20 * sc.x, Rot.m21 * sc.y, Rot.m22 * sc.z⟩ := by
  obtain ⟨hA, hblk⟩ := getRotationScale_eq_ok M _ hB
  have hS := getScale_of_block M R s R.Det hA hblk hO rfl hD hx hy hz ux uy uz
  have tp := TOL_pos
  have ax : |s.x| ≠ 0 := (lt_of_lt_of_le tp hx).ne'
  have ay : |s.y| ≠ 0 := (lt_of_lt_of_le tp hy).ne'
  have az : |s.z| ≠ 0 := (lt_of_lt_of_le tp hz).ne'
  have hδ : |R.Det| = 1 := by
    rcases hD with h | h <;> rw [h] <;> simp
  have habs : |s.x| * |s.y| * |s.z| = |R.Det * (s.x * s.y * s.z)| := by
    rw [abs_mul, hδ, one_mul, abs_mul, abs_mul]
  have hQ0 : R.Det * (s.x * s.y * s.z) ≠ 0 := by
    intro h0
    rw [h0, abs_zero] at habs
    exact mul_ne_zero (mul_ne_zero ax ay) az habs
  by_cases hneg : R.Det * (s.x * s.y * s.z) < 0
  · rw [if_pos hneg] at hS
    rw [abs_of_neg hneg] at habs
    refine block_decomposition M R s (-|s.x|) hA hblk hO hS (by rw [abs_neg, abs_abs]) ?_
      hx hy hz
    field_simp
    linear_combination habs
  · rw [if_neg hneg] at hS
    have hpos : 0 < R.Det * (s.x * s.y * s.z) :=
      lt_of_le_of_ne (not_lt.mp hneg) (Ne.symm hQ0)
    rw [abs_of_pos hpos] at habs
    refine block_decomposition M R s (|s.x|) hA hblk hO hS (abs_abs _) ?_ hx hy hz
    field_simp
    linear_combination -habs

/-- Witness of `C26_getRotation_decomposition` at the mirror matrix
`diag(-2, 3, 4, 1)`, read as `R = diag(-1,1,1)` (a reflection) and
`s = (2, 3, 4)`. -/
theorem C26_getRotation_decomposition_witness :
    ∃ Rot sc, (⟨-2, 0, 0, 0, 0, 3, 0, 0, 0, 0, 4, 0, 0, 0, 0, 1⟩ : Matrix4x4 ℝ).GetRotation
        Real.sqrt = .ok Rot ∧
      (⟨-2, 0, 0, 0, 0, 3, 0, 0, 0, 0, 4, 0, 0, 0, 0, 1⟩ : Matrix4x4 ℝ).GetScale Real.sqrt
        = .ok sc ∧
      Rot.IsRotation = true ∧
      Rot.Transposed.Multiply Rot = Matrix3x3.Identity ∧ Rot.Det = 1 ∧
      (⟨-2, 0, 0, 0, 0, 3, 0, 0, 0, 0, 4, 0, 0, 0, 0, 1⟩ : Matrix4x4 ℝ).GetRotationScale
        = .ok
        ⟨Rot.m00 * sc.x, Rot.m01 * sc.y, Rot.m02 * sc.z,
         Rot.m10 * sc.x, Rot.m11 * sc.y, Rot.m12 * sc.z,
         Rot.m20 * sc.x, Rot.m21 * sc.y, Rot.m22 * sc.z⟩ :=
  C26_getRotation_decomposition ⟨-2, 0, 0, 0, 0, 3, 0, 0, 0, 0, 4, 0, 0, 0, 0, 1⟩
    ⟨-1, 0, 0, 0, 1, 0, 0, 0, 1⟩ ⟨2, 3, 4⟩
    (by simp [Matrix4x4.GetRotationScale, Matrix4x4.IsAffine, TOL])
    (by simp [Matrix3x3.Transposed, Matrix3x3.Multiply, Matrix3x3.Identity])
    (Or.inr (by simp [Matrix3x3.Det]))
    (by simp only [TOL]; rw [abs_of_pos (by norm_num)]; norm_num)
    (by simp only [TOL]; rw [abs_of_pos (by norm_num)]; norm_num)
    (by simp only [TOL]; rw [abs_of_pos (by norm_num)]; norm_num)
    (by rw [abs_of_pos (by norm_num)]; norm_num)
    (by rw [abs_of_pos (by norm_num)]; norm_num)
    (by rw [abs_of_pos (by norm_num)]; norm_num)

/-- C27: for every unit quaternion `q` and every vector `v`, the sandwich product
`q · (0,v) · conj q` has scalar part `0` and its vector part is `q.Rotate v`,
the cross-product formula. -/
theorem C27_rotate_eq_sandwich (q : Quat ℝ) (v : Vec3 ℝ)
    (hq : q.s * q.s + q.x * q.x + q.y * q.y + q.z * q.z = 1) :
    (q.Multiply ⟨0, v.x, v.y, v.z⟩).Multiply ⟨q.s, -q.x, -q.y, -q.z⟩
      = ⟨0, (q.Rotate v).x, (q.Rotate v).y, (q.Rotate v).z⟩ := by
  simp only [Quat.Multiply, Quat.Rotate, Vec3.Cross, Quat.mk.injEq]
  refine ⟨?_, ?_, ?_, ?_⟩
  · ring
  · linear_combination v.x * hq
  · linear_combination v.y * hq
  · linear_combination v.z * hq

/-- Witness of `C27_rotate_eq_sandwich` at `q = (0,0,1,0)`, `v = (1,2,3)`. -/
theorem C27_rotate_eq_sandwich_witness :
    ((⟨0, 0, 1, 0⟩ : Quat ℝ).Multiply ⟨0, 1, 2, 3⟩).Multiply ⟨0, -0, -1, -0⟩
      = ⟨0, ((⟨0, 0, 1, 0⟩ : Quat ℝ).Rotate ⟨1, 2, 3⟩).x,
          ((⟨0, 0, 1, 0⟩ : Quat ℝ).Rotate ⟨1, 2, 3⟩).y,
          ((⟨0, 0, 1, 0⟩ : Quat ℝ).Rotate ⟨1, 2, 3⟩).z⟩ :=
  C27_rotate_eq_sandwich ⟨0, 0, 1, 0⟩ ⟨1, 2, 3⟩ (by norm_num)

/-- C28 (as stated, refuted): the affine matrix `diag(-1e155, 3, 4, 1)` with
translation `(5, 6, 7)` has block columns of norm `+inf`, `3` and `4`, all at
least `1e-6`; `GetScale` has an infinite component, and `SetRotation R`, which
multiplies the entries of `R` by it, does not produce a matrix of finite
numbers. -/
theorem C28_counterexample :
    (⟨-10 ^ 155, 0, 0, 5, 0, 3, 0, 6, 0, 0, 4, 7, 0, 0, 0, 1⟩ : Matrix4x4 ℝ).IsAffine = true ∧
    (⟨0, -1, 0, 1, 0, 0, 0, 0, 1⟩ : Matrix3x3 ℝ).IsExactRotation ∧
    (Vec3.Norm Real.sqrt (⟨-10 ^ 155, 0, 0⟩ : Vec3 ℝ) = .infinite ∧
      Vec3.Norm Real.sqrt (⟨0, 3, 0⟩ : Vec3 ℝ) = .finite 3 ∧
      Vec3.Norm Real.sqrt (⟨0, 0, 4⟩ : Vec3 ℝ) = .finite 4) ∧
    (⟨-10 ^ 155, 0, 0, 5, 0, 3, 0, 6, 0, 0, 4, 7, 0, 0, 0, 1⟩ : Matrix4x4 ℝ).GetScale
      Real.sqrt = .error .non_finite ∧
    (⟨-10 ^ 155, 0, 0, 5, 0, 3, 0, 6, 0, 0, 4, 7, 0, 0, 0, 1⟩ : Matrix4x4 ℝ).SetRotation
      Real.sqrt ⟨0, -1, 0, 1, 0, 0, 0, 0, 1⟩ = .error .non_finite := by
  have hR : (⟨0, -1, 0, 1, 0, 0, 0, 0, 1⟩ : Matrix3x3 ℝ).IsExactRotation := by
    constructor <;>
      simp [Matrix3x3.Transposed, Matrix3x3.Multiply, Matrix3x3.Identity, Matrix3x3.Det]
  have hA : (⟨-10 ^ 155, 0, 0, 5, 0, 3, 0, 6, 0, 0, 4, 7, 0, 0, 0, 1⟩ :
      Matrix4x4 ℝ).IsAffine = true := by
    simp [Matrix4x4.IsAffine, TOL]
  have hN : Vec3.Norm Real.sqrt (⟨-10 ^ 155, 0, 0⟩ : Vec3 ℝ) = .infinite := by
    apply norm_of_overflow
    simp only [Vec3.Dot, DBL_OVERFLOW]
    norm_num
  have hN1 : Vec3.Norm Real.sqrt (⟨0, 3, 0⟩ : Vec3 ℝ) = .finite 3 := by
    have h := norm_scaled_col 0 1 0 3 (by norm_num)
      (by rw [abs_of_pos (by norm_num)]; norm_num)
      (by rw [abs_of_pos (by norm_num)]; norm_num)
    simpa using h
  have hN2 : Vec3.Norm Real.sqrt (⟨0, 0, 4⟩ : Vec3 ℝ) = .finite 4 := by
    have h := norm_scaled_col 0 0 1 4 (by norm_num)
      (by rw [abs_of_pos (by norm_num)]; norm_num)
      (by rw [abs_of_pos (by norm_num)]; norm_num)
    simpa using h
  have hS := getScale_of_overflow _ hA (Or.inl hN)
  refine ⟨hA, hR, ⟨hN, hN1, hN2⟩, hS, ?_⟩
  simp only [Matrix4x4.SetRotation, hS, bind, Except.bind]

/-- C28 (amended): for every affine `M` whose three block columns have norm
between `1e-6` and `1e150` and every exact rotation `R`, `SetRotation R` does
not raise and afterwards `GetRotation` is `R`, `GetScale` is what it was before
the call, and the translation column and the bottom row are unchanged. -/
theorem C28_setRotation_frame (M : Matrix4x4 ℝ) (R : Matrix3x3 ℝ) (n0 n1 n2 : ℝ)
    (hA : M.IsAffine = true)
    (hN0 : Vec3.Norm Real.sqrt ⟨M.m00, M.m10, M.m20⟩ = .finite n0)
    (hN1 : Vec3.Norm Real.sqrt ⟨M.m01, M.m11, M.m21⟩ = .finite n1)
    (hN2 : Vec3.Norm Real.sqrt ⟨M.m02, M.m12, M.m22⟩ = .finite n2)
    (h0 : TOL ≤ n0) (h1 : TOL ≤ n1) (h2 : TOL ≤ n2)
    (u0 : n0 ≤ 10 ^ 150) (u1 : n1 ≤ 10 ^ 150) (u2 : n2 ≤ 10 ^ 150)
    (hR : R.IsExactRotation) :
    ∃ sc M', M.GetScale Real.sqrt = .ok sc ∧ M.SetRotation Real.sqrt R = .ok M' ∧
      M'.GetRotation Real.sqrt = .ok R ∧ M'.GetScale Real.sqrt = .ok sc ∧
      (M'.m03 = M.m03 ∧ M'.m13 = M.m13 ∧ M'.m23 = M.m23) ∧
      (M'.m30 = M.m30 ∧ M'.m31 = M.m31 ∧ M'.m32 = M.m32 ∧ M'.m33 = M.m33) := by
  have tp := TOL_pos
  have p0 : 0 < n0 := lt_of_lt_of_le tp h0
  have p1 : 0 < n1 := lt_of_lt_of_le tp h1
  have p2 : 0 < n2 := lt_of_lt_of_le tp h2
  have hcond : ¬ (n0 < TOL ∨ n1 < TOL ∨ n2 < TOL) := by
    push_neg; exact ⟨h0, h1, h2⟩
  obtain ⟨sx, hsx, hS⟩ : ∃ sx, (sx = n0 ∨ sx = -n0) ∧
      M.GetScale Real.sqrt = .ok ⟨sx, n1, n2⟩ := by
    simp only [Matrix4x4.GetScale, hA, Bool.not_true, Bool.false_eq_true, if_false, hN0,
      hN1, hN2, if_neg hcond]
    split_ifs with hdet
    · exact ⟨-n0, Or.inr rfl, rfl⟩
    · exact ⟨n0, Or.inl rfl, rfl⟩
  have habs : |sx| = n0 := by
    rcases hsx with h | h
    · rw [h, abs_of_pos p0]
    · rw [h, abs_neg, abs_of_pos p0]
  have hSet : M.SetRotation Real.sqrt R = .ok
      ⟨R.m00 * sx, R.m01 * n1, R.m02 * n2, M.m03,
       R.m10 * sx, R.m11 * n1, R.m12 * n2, M.m13,
       R.m20 * sx, R.m21 * n1, R.m22 * n2, M.m23,
       M.m30, M.m31, M.m32, M.m33⟩ := by
    simp only [Matrix4x4.SetRotation, hS, bind, Except.bind, pure, Except.pure]
  have hA' : (⟨R.m00 * sx, R.m01 * n1, R.m02 * n2, M.m03,
       R.m10 * sx, R.m11 * n1, R.m12 * n2, M.m13,
       R.m20 * sx, R.m21 * n1, R.m22 * n2, M.m23,
       M.m30, M.m31, M.m32, M.m33⟩ : Matrix4x4 ℝ).IsAffine = true := by
    simp only [Matrix4x4.IsAffine] at hA ⊢
    exact hA
  have hS0 := getScale_of_block
    ⟨R.m00 * sx, R.m01 * n1, R.m02 * n2, M.m03,
       R.m10 * sx, R.m11 * n1, R.m12 * n2, M.m13,
       R.m20 * sx, R.m21 * n1, R.m22 * n2, M.m23,
       M.m30, M.m31, M.m32, M.m33⟩ R ⟨sx, n1, n2⟩ 1 hA' rfl hR.1 hR.2 (Or.inl rfl)
    (by rw [habs]; exact h0) (by rw [abs_of_pos p1]; exact h1)
    (by rw [abs_of_pos p2]; exact h2)
    (by rw [habs]; exact u0) (by rw [abs_of_pos p1]; exact u1)
    (by rw [abs_of_pos p2]; exact u2)
  have hS' : (⟨R.m00 * sx, R.m01 * n1, R.m02 * n2, M.m03,
       R.m10 * sx, R.m11 * n1, R.m12 * n2, M.m13,
       R.m20 * sx, R.m21 * n1, R.m22 * n2, M.m23,
       M.m30, M.m31, M.m32, M.m33⟩ : Matrix4x4 ℝ).GetScale Real.sqrt = .ok ⟨sx, n1, n2⟩ := by
    rw [hS0, abs_of_pos p1, abs_of_pos p2, one_mul]
    rcases hsx with h | h
    · have hp : ¬ (sx * n1 * n2 < 0) := by
        rw [h]; exact not_lt.mpr (by positivity)
      rw [if_neg hp, h, abs_of_pos p0]
    · have hp : sx * n1 * n2 < 0 := by
        rw [h]; nlinarith [mul_pos (mul_pos p0 p1) p2]
      rw [if_pos hp, h, abs_neg, abs_of_pos p0]
  have hRot := getRotation_of_getScale
    ⟨R.m00 * sx, R.m01 * n1, R.m02 * n2, M.m03,
       R.m10 * sx, R.m11 * n1, R.m12 * n2, M.m13,
       R.m20 * sx, R.m21 * n1, R.m22 * n2, M.m23,
       M.m30, M.m31, M.m32, M.m33⟩ ⟨sx, n1, n2⟩ hA' hS'
    (by rw [habs]; exact h0) (by rw [abs_of_pos p1]; exact h1)
    (by rw [abs_of_pos p2]; exact h2)
  have hsx0 : sx ≠ 0 := by
    intro h; rw [h, abs_zero] at habs; exact p0.ne habs
  refine ⟨_, _, hS, hSet, ?_, hS', ⟨rfl, rfl, rfl⟩, ⟨rfl, rfl, rfl, rfl⟩⟩
  rw [hRot]
  simp only [mul_div_assoc, div_self hsx0, div_self p1.ne', div_self p2.ne', mul_one]

/-- Witness of `C28_setRotation_frame` at `M = diag(-2, 3, 4, 1)` with translation
`(5, 6, 7)` and `R` the quarter turn about `z`. -/
theorem C28_setRotation_frame_witness :
    (Vec3.Norm Real.sqrt (⟨-2, 0, 0⟩ : Vec3 ℝ) = .finite 2 ∧
      Vec3.Norm Real.sqrt (⟨0, 3, 0⟩ : Vec3 ℝ) = .finite 3 ∧
      Vec3.Norm Real.sqrt (⟨0, 0, 4⟩ : Vec3 ℝ) = .finite 4) ∧
    ∃ sc M', (⟨-2, 0, 0, 5, 0, 3, 0, 6, 0, 0, 4, 7, 0, 0, 0, 1⟩ : Matrix4x4 ℝ).GetScale
        Real.sqrt = .ok sc ∧
      (⟨-2, 0, 0, 5, 0, 3, 0, 6, 0, 0, 4, 7, 0, 0, 0, 1⟩ : Matrix4x4 ℝ).SetRotation
        Real.sqrt ⟨0, -1, 0, 1, 0, 0, 0, 0, 1⟩ = .ok M' ∧
      M'.GetRotation Real.sqrt = .ok ⟨0, -1, 0, 1, 0, 0, 0, 0, 1⟩ ∧
      M'.GetScale Real.sqrt = .ok sc ∧
      (M'.m03 = 5 ∧ M'.m13 = 6 ∧ M'.m23 = 7) ∧
      (M'.m30 = 0 ∧ M'.m31 = 0 ∧ M'.m32 = 0 ∧ M'.m33 = 1) :=
  have e0 : Vec3.Norm Real.sqrt (⟨-2, 0, 0⟩ : Vec3 ℝ) = .finite 2 := by
    have h := norm_scaled_col 1 0 0 (-2) (by norm_num)
      (by rw [abs_of_neg (by norm_num)]; norm_num)
      (by rw [abs_of_neg (by norm_num)]; norm_num)
    rw [abs_of_neg (by norm_num)] at h
    simpa using h
  have e1 : Vec3.Norm Real.sqrt (⟨0, 3, 0⟩ : Vec3 ℝ) = .finite 3 := by
    have h := norm_scaled_col 0 1 0 3 (by norm_num)
      (by rw [abs_of_pos (by norm_num)]; norm_num)
      (by rw [abs_of_pos (by norm_num)]; norm_num)
    simpa using h
  have e2 : Vec3.Norm Real.sqrt (⟨0, 0, 4⟩ : Vec3 ℝ) = .finite 4 := by
    have h := norm_scaled_col 0 0 1 4 (by norm_num)
      (by rw [abs_of_pos (by norm_num)]; norm_num)
      (by rw [abs_of_pos (by norm_num)]; norm_num)
    simpa using h
  ⟨⟨e0, e1, e2⟩,
    C28_setRotation_frame ⟨-2, 0, 0, 5, 0, 3, 0, 6, 0, 0, 4, 7, 0, 0, 0, 1⟩
      ⟨0, -1, 0, 1, 0, 0, 0, 0, 1⟩ 2 3 4
      (by simp [Matrix4x4.IsAffine, TOL]) e0 e1 e2
      (by simp only [TOL]; norm_num) (by simp only [TOL]; norm_num)
      (by simp only [TOL]; norm_num) (by norm_num) (by norm_num) (by norm_num)
      (by constructor <;>
        simp [Matrix3x3.Transposed, Matrix3x3.Multiply, Matrix3x3.Identity,
          Matrix3x3.Det])⟩

/-- C29 (as stated, refuted): the axis `(2^-600, 0, 0)` is nonzero, but its
computed norm is zero and both constructors raise; the axis `(1e200, 0, 0)`
normalizes to the zero vector because its squared length overflows, and
`FromAxisAngle axis π` is then `(cos (π/2), 0, 0, 0)`, the zero quaternion,
which is not a unit. -/
theorem C29_counterexample :
    ((⟨1 / 2 ^ 600, 0, 0⟩ : Vec3 ℝ) ≠ ⟨0, 0, 0⟩ ∧
      Quat.FromAxisAngle Real.sqrt Real.cos Real.sin ⟨1 / 2 ^ 600, 0, 0⟩ 1
        = .error (.invalid_argument "normalize: zero vector") ∧
      Matrix3x3.RotationAxisAngle Real.sqrt Real.cos Real.sin ⟨1 / 2 ^ 600, 0, 0⟩ 1
        = .error (.invalid_argument "normalize: zero vector")) ∧
    ((⟨10 ^ 200, 0, 0⟩ : Vec3 ℝ) ≠ ⟨0, 0, 0⟩ ∧
      Quat.FromAxisAngle Real.sqrt Real.cos Real.sin ⟨10 ^ 200, 0, 0⟩ Real.pi
        = .ok ⟨0, 0, 0, 0⟩ ∧
      (0 : ℝ) * 0 + 0 * 0 + 0 * 0 + 0 * 0 ≠ 1) := by
  have hU := underflow_pos
  have hN1 : Vec3.Normalize Real.sqrt (⟨1 / 2 ^ 600, 0, 0⟩ : Vec3 ℝ)
      = .error (.invalid_argument "normalize: zero vector") := by
    apply normalize_of_underflow
    · unfold DBL_UNDERFLOW
      norm_num
    · simp only [mul_zero]; exact hU.le
    · simp only [mul_zero]; exact hU.le
  have hN2 : Vec3.Normalize Real.sqrt (⟨10 ^ 200, 0, 0⟩ : Vec3 ℝ) = .ok ⟨0, 0, 0⟩ := by
    apply normalize_of_overflow
    simp only [Vec3.Dot, DBL_OVERFLOW]
    norm_num
  have hc : Real.cos (1 / 2 * Real.pi) = 0 := by
    rw [show (1 : ℝ) / 2 * Real.pi = Real.pi / 2 by ring]
    exact Real.cos_pi_div_two
  refine ⟨⟨?_, ?_, ?_⟩, ?_, ?_, ?_⟩
  · intro h
    simp only [Vec3.mk.injEq] at h
    norm_num at h
  · simp only [Quat.FromAxisAngle, hN1, bind, Except.bind]
  · simp only [Matrix3x3.RotationAxisAngle, hN1, bind, Except.bind]
  · intro h
    simp only [Vec3.mk.injEq] at h
    norm_num at h
  · simp only [Quat.FromAxisAngle, hN2, bind, Except.bind, pure, Except.pure, hc, zero_mul]
  · norm_num

/-- C29 (amended): for every axis of length between `1e-150` and `1e150` and
every real `φ`, `Quat::FromAxisAngle axis φ` is a unit quaternion and its
`ToMatrix3x3` is the matrix `Matrix3x3::RotationAxisAngle axis φ`; none of the
three calls raises. -/
theorem C29_fromAxisAngle_agrees (axis : Vec3 ℝ) (φ : ℝ) (h : axis.InRange) :
    ∃ q R, Quat.FromAxisAngle Real.sqrt Real.cos Real.sin axis φ = .ok q ∧
      q.s * q.s + q.x * q.x + q.y * q.y + q.z * q.z = 1 ∧
      q.ToMatrix3x3 Real.sqrt = .ok R ∧
      Matrix3x3.RotationAxisAngle Real.sqrt Real.cos Real.sin axis φ = .ok R := by
  obtain ⟨n, hn, hnn, hN⟩ := normalize_of_inRange axis h
  have hu := unit_of_div axis n hn hnn
  have hcs := sin_mul_self_add_cos_mul_self (1 / 2 * φ)
  have hφ : φ = 2 * (1 / 2 * φ) := by ring
  have hc : Real.cos φ = 2 * Real.cos (1 / 2 * φ) * Real.cos (1 / 2 * φ) - 1 := by
    conv_lhs => rw [hφ]
    rw [Real.cos_two_mul]; ring
  have hs : Real.sin φ = 2 * Real.sin (1 / 2 * φ) * Real.cos (1 / 2 * φ) := by
    conv_lhs => rw [hφ]
    rw [Real.sin_two_mul]
  have hq : (⟨Real.cos (1 / 2 * φ), axis.x / n * Real.sin (1 / 2 * φ),
        axis.y / n * Real.sin (1 / 2 * φ), axis.z / n * Real.sin (1 / 2 * φ)⟩ : Quat ℝ).s
        * (⟨Real.cos (1 / 2 * φ), axis.x / n * Real.sin (1 / 2 * φ),
        axis.y / n * Real.sin (1 / 2 * φ), axis.z / n * Real.sin (1 / 2 * φ)⟩ : Quat ℝ).s
      + (⟨Real.cos (1 / 2 * φ), axis.x / n * Real.sin (1 / 2 * φ),
        axis.y / n * Real.sin (1 / 2 * φ), axis.z / n * Real.sin (1 / 2 * φ)⟩ : Quat ℝ).x
        * (⟨Real.cos (1 / 2 * φ), axis.x / n * Real.sin (1 / 2 * φ),
        axis.y / n * Real.sin (1 / 2 * φ), axis.z / n * Real.sin (1 / 2 * φ)⟩ : Quat ℝ).x
      + (⟨Real.cos (1 / 2 * φ), axis.x / n * Real.sin (1 / 2 * φ),
        axis.y / n * Real.sin (1 / 2 * φ), axis.z / n * Real.sin (1 / 2 * φ)⟩ : Quat ℝ).y
        * (⟨Real.cos (1 / 2 * φ), axis.x / n * Real.sin (1 / 2 * φ),
        axis.y / n * Real.sin (1 / 2 * φ), axis.z / n * Real.sin (1 / 2 * φ)⟩ : Quat ℝ).y
      + (⟨Real.cos (1 / 2 * φ), axis.x / n * Real.sin (1 / 2 * φ),
        axis.y / n * Real.sin (1 / 2 * φ), axis.z / n * Real.sin (1 / 2 * φ)⟩ : Quat ℝ).z
        * (⟨Real.cos (1 / 2 * φ), axis.x / n * Real.sin (1 / 2 * φ),
        axis.y / n * Real.sin (1 / 2 * φ), axis.z / n * Real.sin (1 / 2 * φ)⟩ : Quat ℝ).z
      = 1 := by
    simp only
    linear_combination (Real.sin (1 / 2 * φ) * Real.sin (1 / 2 * φ)) * hu + hcs
  have hF : Quat.FromAxisAngle Real.sqrt Real.cos Real.sin axis φ
      = .ok ⟨Real.cos (1 / 2 * φ), axis.x / n * Real.sin (1 / 2 * φ),
        axis.y / n * Real.sin (1 / 2 * φ), axis.z / n * Real.sin (1 / 2 * φ)⟩ := by
    simp only [Quat.FromAxisAngle, hN, bind, Except.bind, pure, Except.pure]
  refine ⟨_, _, hF, hq, toMatrix3x3_of_unit _ hq, ?_⟩
  simp only [Matrix3x3.RotationAxisAngle, hN, bind, Except.bind, pure, Except.pure,
    Except.ok.injEq, Matrix3x3.mk.injEq]
  refine ⟨?_, ?_, ?_, ?_, ?_, ?_, ?_, ?_, ?_⟩
  · linear_combination -((-1 + (axis.x / n) ^ 2) * hc + (-2 * (axis.y / n) ^ 2 - 2 * (axis.z /
      n) ^ 2) * hcs + (-2 + 2 * Real.cos (1 / 2 * φ) ^ 2) * hu)
  · linear_combination -(((axis.x / n) * (axis.y / n)) * hc + ((axis.z / n)) * hs + (2 * (axis.x
      / n) * (axis.y / n)) * hcs)
  · linear_combination -(((axis.x / n) * (axis.z / n)) * hc + (-(axis.y / n)) * hs + (2 *
      (axis.x / n) * (axis.z / n)) * hcs)
  · linear_combination -(((axis.x / n) * (axis.y / n)) * hc + (-(axis.z / n)) * hs + (2 *
      (axis.x / n) * (axis.y / n)) * hcs)
  · linear_combination -((-1 + (axis.y / n) ^ 2) * hc + (-2 * (axis.x / n) ^ 2 - 2 * (axis.z /
      n) ^ 2) * hcs + (-2 + 2 * Real.cos (1 / 2 * φ) ^ 2) * hu)
  · linear_combination -(((axis.y / n) * (axis.z / n)) * hc + ((axis.x / n)) * hs + (2 * (axis.y
      / n) * (axis.z / n)) * hcs)
  · linear_combination -(((axis.x / n) * (axis.z / n)) * hc + ((axis.y / n)) * hs + (2 * (axis.x
      / n) * (axis.z / n)) * hcs)
  · linear_combination -(((axis.y / n) * (axis.z / n)) * hc + (-(axis.x / n)) * hs + (2 *
      (axis.y / n) * (axis.z / n)) * hcs)
  · linear_combination -((-1 + (axis.z / n) ^ 2) * hc + (-2 * (axis.x / n) ^ 2 - 2 * (axis.y /
      n) ^ 2) * hcs + (-2 + 2 * Real.cos (1 / 2 * φ) ^ 2) * hu)

/-- Witness of `C29_fromAxisAngle_agrees` at axis `(0,0,2)`, angle `1`. -/
theorem C29_fromAxisAngle_agrees_witness :
    (⟨0, 0, 2⟩ : Vec3 ℝ).InRange ∧
    ∃ q R, Quat.FromAxisAngle Real.sqrt Real.cos Real.sin ⟨0, 0, 2⟩ 1 = .ok q ∧
      q.s * q.s + q.x * q.x + q.y * q.y + q.z * q.z = 1 ∧
      q.ToMatrix3x3 Real.sqrt = .ok R ∧
      Matrix3x3.RotationAxisAngle Real.sqrt Real.cos Real.sin ⟨0, 0, 2⟩ 1 = .ok R :=
  have h : (⟨0, 0, 2⟩ : Vec3 ℝ).InRange := by
    constructor <;> simp only [Vec3.Dot] <;> norm_num
  ⟨h, C29_fromAxisAngle_agrees ⟨0, 0, 2⟩ 1 h⟩

/-- C30 (as stated, refuted): `a = (2^-600, 0, 0, 0)` is nonzero but its computed
norm is zero and `a.ToMatrix3x3` raises; with `a = (0, 1e200, 0, 0)` and
`b = (0, 0, 1, 0)` the squared norms of `a` and of `a·b = (0, 0, 0, 1e200)`
overflow, both normalize to the zero quaternion with matrix `I`, and the matrix
of `a·b` is `I` while the product of the matrices is `diag(-1, 1, -1)`. -/
theorem C30_counterexample :
    ((⟨1 / 2 ^ 600, 0, 0, 0⟩ : Quat ℝ) ≠ ⟨0, 0, 0, 0⟩ ∧
      (⟨1 / 2 ^ 600, 0, 0, 0⟩ : Quat ℝ).ToMatrix3x3 Real.sqrt
        = .error (.invalid_argument "Quat::Normalized: zero norm")) ∧
    ((⟨0, 10 ^ 200, 0, 0⟩ : Quat ℝ) ≠ ⟨0, 0, 0, 0⟩ ∧
      (⟨0, 0, 1, 0⟩ : Quat ℝ) ≠ ⟨0, 0, 0, 0⟩ ∧
      (⟨0, 10 ^ 200, 0, 0⟩ : Quat ℝ).ToMatrix3x3 Real.sqrt = .ok Matrix3x3.Identity ∧
      (⟨0, 0, 1, 0⟩ : Quat ℝ).ToMatrix3x3 Real.sqrt = .ok ⟨-1, 0, 0, 0, 1, 0, 0, 0, -1⟩ ∧
      ((⟨0, 10 ^ 200, 0, 0⟩ : Quat ℝ).Multiply ⟨0, 0, 1, 0⟩).ToMatrix3x3 Real.sqrt
        = .ok Matrix3x3.Identity ∧
      (Matrix3x3.Identity : Matrix3x3 ℝ).Multiply ⟨-1, 0, 0, 0, 1, 0, 0, 0, -1⟩
        ≠ Matrix3x3.Identity) := by
  have hU := underflow_pos
  have hN1 : (⟨1 / 2 ^ 600, 0, 0, 0⟩ : Quat ℝ).Normalized Real.sqrt
      = .error (.invalid_argument "Quat::Normalized: zero norm") := by
    apply quat_normalized_of_underflow
    · unfold DBL_UNDERFLOW
      norm_num
    · simp only [mul_zero]; exact hU.le
    · simp only [mul_zero]; exact hU.le
    · simp only [mul_zero]; exact hU.le
  have hN2 : (⟨0, 10 ^ 200, 0, 0⟩ : Quat ℝ).Normalized Real.sqrt = .ok ⟨0, 0, 0, 0⟩ := by
    apply quat_normalized_of_overflow
    simp only [DBL_OVERFLOW]
    norm_num
  have hN3 : (⟨0, 0, 1, 0⟩ : Quat ℝ).Normalized Real.sqrt = .ok ⟨0, 0, 1, 0⟩ :=
    quat_normalized_of_unit _ (by norm_num)
  have hmul : (⟨0, 10 ^ 200, 0, 0⟩ : Quat ℝ).Multiply ⟨0, 0, 1, 0⟩ = ⟨0, 0, 0, 10 ^ 200⟩ := by
    simp only [Quat.Multiply, Quat.mk.injEq]
    norm_num
  have hN4 : (⟨0, 0, 0, 10 ^ 200⟩ : Quat ℝ).Normalized Real.sqrt = .ok ⟨0, 0, 0, 0⟩ := by
    apply quat_normalized_of_overflow
    simp only [DBL_OVERFLOW]
    norm_num
  refine ⟨⟨?_, ?_⟩, ?_, ?_, ?_, ?_, ?_, ?_⟩
  · intro h
    simp only [Quat.mk.injEq] at h
    norm_num at h
  · simp only [Quat.ToMatrix3x3, hN1, bind, Except.bind]
  · intro h
    simp only [Quat.mk.injEq] at h
    norm_num at h
  · intro h
    simp only [Quat.mk.injEq] at h
    norm_num at h
  · rw [toMatrix3x3_of_normalized _ _ hN2]
    simp only [Matrix3x3.Identity, Except.ok.injEq, Matrix3x3.mk.injEq]
    norm_num
  · rw [toMatrix3x3_of_normalized _ _ hN3]
    simp only [Except.ok.injEq, Matrix3x3.mk.injEq]
    norm_num
  · rw [hmul, toMatrix3x3_of_normalized _ _ hN4]
    simp only [Matrix3x3.Identity, Except.ok.injEq, Matrix3x3.mk.injEq]
    norm_num
  · intro h
    simp only [Matrix3x3.Multiply, Matrix3x3.Identity, Matrix3x3.mk.injEq] at h
    norm_num at h

/-- C30 (amended): for quaternions `a` and `b` of norm between `1e-75` and
`1e75` (squared norm between `1e-150` and `1e150`), none of the three
`ToMatrix3x3` calls raises, the matrix of `a.Multiply b` is the product of the
matrices of `a` and `b`, and it passes `IsRotation`. -/
theorem C30_quat_matrix_homomorphism (a b : Quat ℝ)
    (ha : 1 / 10 ^ 150 ≤ a.s * a.s + a.x * a.x + a.y * a.y + a.z * a.z ∧
      a.s * a.s + a.x * a.x + a.y * a.y + a.z * a.z ≤ 10 ^ 150)
    (hb : 1 / 10 ^ 150 ≤ b.s * b.s + b.x * b.x + b.y * b.y + b.z * b.z ∧
      b.s * b.s + b.x * b.x + b.y * b.y + b.z * b.z ≤ 10 ^ 150) :
    ∃ Ra Rb Rab, a.ToMatrix3x3 Real.sqrt = .ok Ra ∧ b.ToMatrix3x3 Real.sqrt = .ok Rb ∧
      (a.Multiply b).ToMatrix3x3 Real.sqrt = .ok Rab ∧
      Rab = Ra.Multiply Rb ∧ Rab.IsRotation = true := by
  have e1 : (1 : ℝ) / 10 ^ 300 = 1 / 10 ^ 150 * (1 / 10 ^ 150) := by norm_num
  have e2 : (10 : ℝ) ^ 300 = 10 ^ 150 * 10 ^ 150 := by norm_num
  have p1 : (0 : ℝ) < 1 / 10 ^ 150 := by positivity
  have p2 : (1 : ℝ) / 10 ^ 150 ≤ 1 := by
    rw [div_le_one (by positivity)]
    exact one_le_pow₀ (by norm_num)
  have p3 : (1 : ℝ) ≤ 10 ^ 150 := one_le_pow₀ (by norm_num)
  have hRa : a.InRange := by
    constructor
    · rw [e1]
      nlinarith [ha.1]
    · rw [e2]
      nlinarith [ha.2]
  have hRb : b.InRange := by
    constructor
    · rw [e1]
      nlinarith [hb.1]
    · rw [e2]
      nlinarith [hb.2]
  have hprod : (a.Multiply b).s * (a.Multiply b).s + (a.Multiply b).x * (a.Multiply b).x
      + (a.Multiply b).y * (a.Multiply b).y + (a.Multiply b).z * (a.Multiply b).z
      = (a.s * a.s + a.x * a.x + a.y * a.y + a.z * a.z)
        * (b.s * b.s + b.x * b.x + b.y * b.y + b.z * b.z) := by
    simp only [Quat.Multiply]
    ring
  have hRab : (a.Multiply b).InRange := by
    constructor
    · rw [hprod, e1]
      exact mul_le_mul ha.1 hb.1 p1.le (le_trans p1.le ha.1)
    · rw [hprod, e2]
      exact mul_le_mul ha.2 hb.2 (le_trans p1.le hb.1) (by positivity)
  obtain ⟨n, hn, hnn, hNa, hua⟩ := quat_normalized_of_inRange a hRa
  obtain ⟨m, hm, hmm, hNb, hub⟩ := quat_normalized_of_inRange b hRb
  have hNab := quat_normalized_mul a b n m hn hm hnn hmm hRab
  have hu := quat_mul_unit ⟨a.s / n, a.x / n, a.y / n, a.z / n⟩
    ⟨b.s / m, b.x / m, b.y / m, b.z / m⟩ hua hub
  exact ⟨_, _, _, toMatrix3x3_of_normalized a _ hNa, toMatrix3x3_of_normalized b _ hNb,
    toMatrix3x3_of_normalized _ _ hNab,
    quatMatrix_mul ⟨a.s / n, a.x / n, a.y / n, a.z / n⟩
      ⟨b.s / m, b.x / m, b.y / m, b.z / m⟩ hua hub,
    isRotation_of_exact (quatMatrix_isExactRotation _ hu)⟩

/-- Witness of `C30_quat_matrix_homomorphism` at `a = (2,0,0,0)`, `b = (0,0,3,0)`. -/
theorem C30_quat_matrix_homomorphism_witness :
    ((1 : ℝ) / 10 ^ 150 ≤ 2 * 2 + 0 * 0 + 0 * 0 + 0 * 0 ∧
      (2 : ℝ) * 2 + 0 * 0 + 0 * 0 + 0 * 0 ≤ 10 ^ 150) ∧
    ((1 : ℝ) / 10 ^ 150 ≤ 0 * 0 + 0 * 0 + 3 * 3 + 0 * 0 ∧
      (0 : ℝ) * 0 + 0 * 0 + 3 * 3 + 0 * 0 ≤ 10 ^ 150) ∧
    ∃ Ra Rb Rab, (⟨2, 0, 0, 0⟩ : Quat ℝ).ToMatrix3x3 Real.sqrt = .ok Ra ∧
      (⟨0, 0, 3, 0⟩ : Quat ℝ).ToMatrix3x3 Real.sqrt = .ok Rb ∧
      ((⟨2, 0, 0, 0⟩ : Quat ℝ).Multiply ⟨0, 0, 3, 0⟩).ToMatrix3x3 Real.sqrt = .ok Rab ∧
      Rab = Ra.Multiply Rb ∧ Rab.IsRotation = true :=
  have h1 : (1 : ℝ) / 10 ^ 150 ≤ 2 * 2 + 0 * 0 + 0 * 0 + 0 * 0 ∧
      (2 : ℝ) * 2 + 0 * 0 + 0 * 0 + 0 * 0 ≤ 10 ^ 150 := by
    constructor <;> norm_num
  have h2 : (1 : ℝ) / 10 ^ 150 ≤ 0 * 0 + 0 * 0 + 3 * 3 + 0 * 0 ∧
      (0 : ℝ) * 0 + 0 * 0 + 3 * 3 + 0 * 0 ≤ 10 ^ 150 := by
    constructor <;> norm_num
  ⟨h1, h2, C30_quat_matrix_homomorphism ⟨2, 0, 0, 0⟩ ⟨0, 0, 3, 0⟩ h1 h2⟩

/-- C31: for every exact rotation matrix `R` (`RᵗR = I`, `det R = 1`),
`Quat.FromMatrix3x3 R` returns a unit quaternion `q` with `q.ToMatrix3x3 = R`,
and the scaling factor `S` of the extraction branch that is taken is nonzero. -/
theorem C31_fromMatrix3x3_roundtrip (R : Matrix3x3 ℝ) (hR : R.IsExactRotation) :
    (∃ q : Quat ℝ, Quat.FromMatrix3x3 Real.sqrt R = .ok q ∧
      q.s * q.s + q.x * q.x + q.y * q.y + q.z * q.z = 1 ∧
      q.ToMatrix3x3 Real.sqrt = .ok R) ∧
    (if R.m00 + R.m11 + R.m22 > 0 then Real.sqrt (R.m00 + R.m11 + R.m22 + 1) * 2
      else if R.m00 > R.m11 ∧ R.m00 > R.m22 then
        Real.sqrt (1 + R.m00 - R.m11 - R.m22) * 2
      else if R.m11 > R.m22 then Real.sqrt (1 - R.m00 + R.m11 - R.m22) * 2
      else Real.sqrt (1 - R.m00 - R.m11 + R.m22) * 2) ≠ 0 := by
  refine ⟨?_, fromMatrix3x3_pivot_ne_zero R⟩
  obtain ⟨q, hq, hu, hM⟩ := fromMatrix3x3_of_exact R hR
  refine ⟨q, hq, hu, ?_⟩
  rw [toMatrix3x3_of_unit q hu, hM]

/-- Witness of `C31_fromMatrix3x3_roundtrip` at the half-turn about `z`, which
takes the last extraction branch. -/
theorem C31_fromMatrix3x3_roundtrip_witness :
    (⟨-1, 0, 0, 0, -1, 0, 0, 0, 1⟩ : Matrix3x3 ℝ).IsExactRotation ∧
    ((∃ q : Quat ℝ, Quat.FromMatrix3x3 Real.sqrt ⟨-1, 0, 0, 0, -1, 0, 0, 0, 1⟩ = .ok q ∧
      q.s * q.s + q.x * q.x + q.y * q.y + q.z * q.z = 1 ∧
      q.ToMatrix3x3 Real.sqrt = .ok ⟨-1, 0, 0, 0, -1, 0, 0, 0, 1⟩) ∧
    (if (-1 : ℝ) + -1 + 1 > 0 then Real.sqrt ((-1 : ℝ) + -1 + 1 + 1) * 2
      else if (-1 : ℝ) > -1 ∧ (-1 : ℝ) > 1 then
        Real.sqrt (1 + (-1 : ℝ) - -1 - 1) * 2
      else if (-1 : ℝ) > 1 then Real.sqrt (1 - (-1 : ℝ) + -1 - 1) * 2
      else Real.sqrt (1 - (-1 : ℝ) - -1 + 1) * 2) ≠ 0) :=
  have h : (⟨-1, 0, 0, 0, -1, 0, 0, 0, 1⟩ : Matrix3x3 ℝ).IsExactRotation := by
    constructor
    · simp only [Matrix3x3.Transposed, Matrix3x3.Multiply, Matrix3x3.Identity,
        Matrix3x3.mk.injEq]
      norm_num
    · simp only [Matrix3x3.Det]
      norm_num
  ⟨h, C31_fromMatrix3x3_roundtrip ⟨-1, 0, 0, 0, -1, 0, 0, 0, 1⟩ h⟩

/-- C32 (as stated, refuted): `u = (2^-600, 0, 0)` and `v = (1, 0, 0)` are
both nonzero, yet the square of `2^-600` underflows, the computed norm of `u`
is zero and both `RotateFromTo u v` raise. -/
theorem C32_counterexample :
    (⟨1 / 2 ^ 600, 0, 0⟩ : Vec3 ℝ) ≠ ⟨0, 0, 0⟩ ∧ (⟨1, 0, 0⟩ : Vec3 ℝ) ≠ ⟨0, 0, 0⟩ ∧
    Matrix3x3.RotateFromTo Real.sqrt Real.cos Real.sin Real.arccos
        ⟨1 / 2 ^ 600, 0, 0⟩ ⟨1, 0, 0⟩
      = .error (.invalid_argument "normalize: zero vector") ∧
    Quat.RotateFromTo Real.sqrt Real.cos Real.sin Real.arccos
        ⟨1 / 2 ^ 600, 0, 0⟩ ⟨1, 0, 0⟩
      = .error (.invalid_argument "normalize: zero vector") := by
  have hU := underflow_pos
  have hsmall : (⟨1 / 2 ^ 600, 0, 0⟩ : Vec3 ℝ).SquaresUnderflow := by
    refine ⟨?_, ?_, ?_⟩
    · unfold DBL_UNDERFLOW
      norm_num
    · simp only [mul_zero]; exact hU.le
    · simp only [mul_zero]; exact hU.le
  have he := rotateFromTo_error (⟨1 / 2 ^ 600, 0, 0⟩ : Vec3 ℝ) ⟨1, 0, 0⟩ (Or.inl hsmall)
  refine ⟨?_, ?_, he.1, he.2⟩
  · intro h
    simp only [Vec3.mk.injEq] at h
    norm_num at h
  · intro h
    simp only [Vec3.mk.injEq] at h
    norm_num at h

/-- C32 (amended): `Matrix3x3.RotateFromTo u v` and `Quat.RotateFromTo u v` raise
when the computed norm of `u` or of `v` is zero, that is when every square of a
component underflows, which includes the zero vector; they do not raise when
`u` and `v` have length between `1e-150` and `1e150`: then, for the normalized
inputs `a`, `b`, the cross product of `a` with the reference axis of the
antipodal regime is nonzero, and in the general regime (`|a·b - 1| ≥ TOL` and
`|a·b + 1| ≥ TOL`) the cross product `a × b` is nonzero. -/
theorem C32_rotateFromTo_raises (u v : Vec3 ℝ) :
    (u.SquaresUnderflow ∨ v.SquaresUnderflow →
      Matrix3x3.RotateFromTo Real.sqrt Real.cos Real.sin Real.arccos u v
        = .error (.invalid_argument "normalize: zero vector") ∧
      Quat.RotateFromTo Real.sqrt Real.cos Real.sin Real.arccos u v
        = .error (.invalid_argument "normalize: zero vector")) ∧
    (u = ⟨0, 0, 0⟩ ∨ v = ⟨0, 0, 0⟩ → u.SquaresUnderflow ∨ v.SquaresUnderflow) ∧
    (u.InRange → v.InRange →
      (∃ R, Matrix3x3.RotateFromTo Real.sqrt Real.cos Real.sin Real.arccos u v = .ok R) ∧
      (∃ q, Quat.RotateFromTo Real.sqrt Real.cos Real.sin Real.arccos u v = .ok q) ∧
      ∀ a b : Vec3 ℝ, u.Normalize Real.sqrt = .ok a → v.Normalize Real.sqrt = .ok b →
        Vec3.Cross a (if |a.x| < 9 / 10 then (⟨1, 0, 0⟩ : Vec3 ℝ) else ⟨0, 1, 0⟩)
          ≠ ⟨0, 0, 0⟩ ∧
        (TOL ≤ |Vec3.Dot a b - 1| → TOL ≤ |Vec3.Dot a b + 1| →
          Vec3.Cross a b ≠ ⟨0, 0, 0⟩)) := by
  have hU := underflow_pos
  have hz : (⟨0, 0, 0⟩ : Vec3 ℝ).SquaresUnderflow := by
    refine ⟨?_, ?_, ?_⟩ <;> simp only [mul_zero] <;> exact hU.le
  refine ⟨rotateFromTo_error u v, ?_, ?_⟩
  · rintro (h | h)
    · left; rw [h]; exact hz
    · right; rw [h]; exact hz
  · intro hu hv
    obtain ⟨hM, hQ⟩ := rotateFromTo_ok u v hu hv
    refine ⟨hM, hQ, ?_⟩
    intro a b ha hb
    have ua := unit_of_normalize u a hu ha
    have ub := unit_of_normalize v b hv hb
    exact ⟨cross_arbitrary_ne_zero a ua, cross_ne_zero_of_general a b ua ub⟩

/-- Witness of `C32_rotateFromTo_raises` at `u = (1,0,0)`, `v = (0,2,0)`: both are
in range and neither function raises. -/
theorem C32_rotateFromTo_raises_witness :
    ((⟨1, 0, 0⟩ : Vec3 ℝ).InRange ∧ (⟨0, 2, 0⟩ : Vec3 ℝ).InRange) ∧
    (∃ R, Matrix3x3.RotateFromTo Real.sqrt Real.cos Real.sin Real.arccos
        ⟨1, 0, 0⟩ ⟨0, 2, 0⟩ = .ok R) ∧
    (∃ q, Quat.RotateFromTo Real.sqrt Real.cos Real.sin Real.arccos
        ⟨1, 0, 0⟩ ⟨0, 2, 0⟩ = .ok q) :=
  have h1 : (⟨1, 0, 0⟩ : Vec3 ℝ).InRange := inRange_of_unit _ (by norm_num)
  have h2 : (⟨0, 2, 0⟩ : Vec3 ℝ).InRange := by
    constructor <;> simp only [Vec3.Dot] <;> norm_num
  ⟨⟨h1, h2⟩, ((C32_rotateFromTo_raises ⟨1, 0, 0⟩ ⟨0, 2, 0⟩).2.2 h1 h2).1,
    ((C32_rotateFromTo_raises ⟨1, 0, 0⟩ ⟨0, 2, 0⟩).2.2 h1 h2).2.1⟩

end Claims

end Mates
